import Mathlib

/-!
Verification development for the `lsp-proxy` LSP multiplexing proxy
(`src/lsp-proxy.py`).

The development shallowly embeds the proxy engine: decoded JSON-RPC
messages are a `Json` tree, Python dictionaries are insertion-ordered
association lists, Python `==` on JSON values is `Json.beq`, Python
truthiness is `Json.truthy`, and code paths that can raise an uncaught
exception are modelled in the `Option` monad (`none` = an exception
propagates out of the function).

Known divergences from CPython, none of which is exercised by any
theorem below:
* Python `True == 1` identifies booleans and small integers in dict
  lookups and `==`; `Json.beq` keeps them distinct.
* Python `k in x` for a non-dict `x` does substring / element search or
  raises `TypeError`; the model returns `false` for non-objects.
* Python `int()` accepts underscores between digits and non-ASCII
  digits; the model accepts only an optional ASCII sign and ASCII
  digits.
* Python `set` iteration order is unspecified; `list(set(xs))` is
  modelled as first-occurrence deduplication.
-/

namespace LspProxy

/-- A decoded JSON value, as produced by `json.loads`: the dynamic trees the
proxy routes.  Numbers are modelled as integers only (no floats appear in any
claim). -/
inductive Json where
  | null
  | bool (b : Bool)
  | int (n : Int)
  | str (s : String)
  | arr (elems : List Json)
  | obj (entries : List (String × Json))

mutual

/-- Python `==` on JSON values (structural value equality). -/
def Json.beq : Json → Json → Bool
  | .null, .null => true
  | .bool a, .bool b => a == b
  | .int a, .int b => a == b
  | .str a, .str b => a == b
  | .arr a, .arr b => Json.beqArr a b
  | .obj a, .obj b => Json.beqObj a b
  | _, _ => false

/-- Elementwise `Json.beq` on lists. -/
def Json.beqArr : List Json → List Json → Bool
  | [], [] => true
  | x :: xs, y :: ys => Json.beq x y && Json.beqArr xs ys
  | _, _ => false

/-- Entrywise `Json.beq` on objects (order-sensitive, like comparing the
underlying association lists; dictionaries built by the proxy are compared
only for membership, never with `==`, so order sensitivity is harmless). -/
def Json.beqObj : List (String × Json) → List (String × Json) → Bool
  | [], [] => true
  | (k1, v1) :: t1, (k2, v2) :: t2 => k1 == k2 && Json.beq v1 v2 && Json.beqObj t1 t2
  | _, _ => false

end

/-- Python truthiness of a JSON value (`if x:`): `None`, `False`, `0`, `""`,
`[]` and the empty dict are falsy, everything else truthy. -/
def Json.truthy : Json → Bool
  | .null => false
  | .bool b => b
  | .int n => n != 0
  | .str s => s != ""
  | .arr l => !l.isEmpty
  | .obj l => !l.isEmpty

/-- Truthiness of an optional value (a Python variable that may be `None`). -/
def optTruthy : Option Json → Bool
  | some j => j.truthy
  | none => false

/-- Python `==` where either side may be `None`. -/
def optBeq : Option Json → Option Json → Bool
  | none, none => true
  | some a, some b => Json.beq a b
  | _, _ => false

/-- Association-list lookup with an explicit key-equality test; models
Python `dct[key]` returning the value of the (unique) matching key. -/
def alGet (kb : κ → κ → Bool) : List (κ × Json) → κ → Option Json
  | [], _ => none
  | (k, v) :: t, key => if kb k key then some v else alGet kb t key

/-- Python `key in dct`. -/
def alContains (kb : κ → κ → Bool) (l : List (κ × Json)) (key : κ) : Bool :=
  (alGet kb l key).isSome

/-- Python `dct[key] = v`: replace in place when the key exists (keeping its
position), append otherwise. -/
def alSet (kb : κ → κ → Bool) : List (κ × Json) → κ → Json → List (κ × Json)
  | [], key, v => [(key, v)]
  | (k, w) :: t, key, v => if kb k key then (k, v) :: t else (k, w) :: alSet kb t key v

/-- Python `del dct[key]` (keys are unique in every reachable dict, so
removing the first match removes the only one). -/
def alErase (kb : κ → κ → Bool) : List (κ × Json) → κ → List (κ × Json)
  | [], _ => []
  | (k, w) :: t, key => if kb k key then t else (k, w) :: alErase kb t key

/-- Key equality for string-keyed dicts. -/
def strBeq (a b : String) : Bool := a == b

/-- Python `'k' in msg` for a message: key membership when `msg` is a dict,
`false` otherwise (see the divergence note in the header). -/
def jsonHasKey (j : Json) (k : String) : Bool :=
  match j with
  | .obj es => alContains strBeq es k
  | _ => false

/-- Python `msg[k]` with string key `k`: `none` models the `KeyError` (key
missing) or `TypeError` (not a dict) that would propagate. -/
def pyIndex (j : Json) (k : String) : Option Json :=
  match j with
  | .obj es => alGet strBeq es k
  | _ => none

/-- Python `msg[k] = v`: `none` models the `TypeError` on a non-dict. -/
def pySetItem (j : Json) (k : String) (v : Json) : Option Json :=
  match j with
  | .obj es => some (.obj (alSet strBeq es k v))
  | _ => none

/-- Source `safe_get(dct, key)`: the value when `key` and `dct` are truthy
and the key is present, `None` otherwise.  The string keys the proxy passes
are all nonempty, hence truthy. -/
def safe_get (j : Json) (k : String) : Option Json :=
  if j.truthy then
    match j with
    | .obj es => alGet strBeq es k
    | _ => none
  else none

/-- Source `safe_get` applied to a variable that may already be `None` (as in
`safe_get(result, 'capabilities')` where `result` came from another
`safe_get`). -/
def safe_get_opt (o : Option Json) (k : String) : Option Json :=
  match o with
  | some j => safe_get j k
  | none => none

/-- A Python variable holding either a JSON value or `None`, materialised as a
JSON value (`None` becomes JSON `null`, as when stored into a message). -/
def jsonOfOpt : Option Json → Json
  | some j => j
  | none => .null

/-- Python `method == 'name'` where `method` may be `None` or any JSON value. -/
def isMethod (m : Option Json) (name : String) : Bool :=
  optBeq m (some (.str name))

/-- Python `method not in preserved` (negated): only a string value can equal
one of the preserved method names. -/
def methodMem : Option Json → List String → Bool
  | some (.str s), l => l.contains s
  | _, _ => false

/-- Source `preserved_requests`. -/
def preserved_requests : List String :=
  ["initialize", "shutdown",
   "window/showMessageRequest", "window/showDocument",
   "workspace/workspaceFolders", "workspace/applyEdit",
   "textDocument/formatting", "textDocument/rangeFormatting",
   "textDocument/completion", "completionItem/resolve",
   "textDocument/signatureHelp",
   "textDocument/codeAction",
   "workspace/executeCommand"]

/-- Source `preserved_client_server_notifications`. -/
def preserved_client_server_notifications : List String :=
  ["initialized", "exit",
   "textDocument/didOpen", "textDocument/didChange", "textDocument/didSave",
   "textDocument/didClose",
   "workspace/didChangeWorkspaceFolders", "workspace/didChangeConfiguration"]

/-- Source `preserved_server_client_notifications`. -/
def preserved_server_client_notifications : List String :=
  ["textDocument/publishDiagnostics",
   "window/showMessage", "window/logMessage"]

/-- The preserved set `Proxy.dispatch` passes to `process` for client→server
traffic. -/
def preserved_from_client : List String :=
  preserved_requests ++ preserved_client_server_notifications

/-- The preserved set `Proxy.dispatch` passes to `process` for server→client
traffic. -/
def preserved_from_server : List String :=
  preserved_requests ++ preserved_server_client_notifications

/-- The LSP-level state of one downstream server (class `Server`; the
transport plumbing of its two subclasses is out of scope and carries no
LSP state). -/
structure Srv where
  pending_client_server_requests : List (Json × Json) := []
  pending_server_client_requests : List (Json × Json) := []
  is_primary : Bool := false
  initialize_msg : Option Json := none
  shutdown_received : Bool := false
  diagnostics : List (Json × Json) := []
  initialization_options : Option Json := none
  use_diagnostics : Bool := true
  use_formatting : Bool := false
  use_completion : Bool := false
  use_signature : Bool := false
  use_execute_command : Bool := false
  received_code_actions : List (Option Json × Json) := []
  supported_code_action_kinds : Json := .arr []
  supported_commands : Json := .arr []

/-- The proxy-global state (class `Proxy`).  Servers are identified by their
position in `servers`; Python compares server objects by identity, which the
index models. -/
structure ProxyState where
  servers : List Srv
  initialize_id : Option Json := some (.int (-1))
  shutdown_id : Option Json := some (.int (-1))
  code_action_ids : List (Option Json) := []

/-- Replace server `i` (the Python code mutates the shared object in place). -/
def setSrv (p : ProxyState) (i : Nat) (s : Srv) : ProxyState :=
  { p with servers := p.servers.set i s }

/-- Source `Server._get_capabilities`. -/
def _get_capabilities (s : Srv) : Option Json :=
  match s.initialize_msg with
  | some m => if m.truthy then safe_get_opt (safe_get m "result") "capabilities" else none
  | none => none

/-- Source `Server.get_formatting_capabilities` (a pair, like the Python
2-tuple). -/
def get_formatting_capabilities (s : Srv) : Option Json × Option Json :=
  match _get_capabilities s with
  | some c =>
    if c.truthy then
      (safe_get c "documentFormattingProvider", safe_get c "documentRangeFormattingProvider")
    else (none, none)
  | none => (none, none)

/-- Source `Server.get_completion_capability`. -/
def get_completion_capability (s : Srv) : Option Json :=
  match _get_capabilities s with
  | some c => if c.truthy then safe_get c "completionProvider" else none
  | none => none

/-- Source `Server.get_signature_capability`. -/
def get_signature_capability (s : Srv) : Option Json :=
  match _get_capabilities s with
  | some c => if c.truthy then safe_get c "signatureHelpProvider" else none
  | none => none

/-- Source `Server.get_code_action_capability`. -/
def get_code_action_capability (s : Srv) : Option Json :=
  match _get_capabilities s with
  | some c => if c.truthy then safe_get c "codeActionProvider" else none
  | none => none

/-- Source `Server.get_execute_command_capability`; `none` models the
`KeyError` on a provider without a `commands` key and the `TypeError` of
`command in x` for a non-list `x`. -/
def get_execute_command_capability (s : Srv) (command : Json) : Option Bool :=
  match _get_capabilities s with
  | some c =>
    if c.truthy then
      match safe_get c "executeCommandProvider" with
      | some provider =>
        if provider.truthy then
          match pyIndex provider "commands" with
          | some (.arr cmds) => some (cmds.any (fun x => Json.beq x command))
          | _ => none
        else some false
      | none => some false
    else some false
  | none => some false

/-- Source `Proxy.get_server_generic`, returning the selected server's index;
the outer `Option` is exception propagation from `srv_condition`, the inner
one is the found-or-`None` result.  `srv_condition` is evaluated exactly
where Python evaluates it (short-circuiting included). -/
def gsgAux (config_condition : Srv → Bool) (srv_condition : Srv → Option Bool) :
    Nat → Option Nat → List Srv → Option (Option Nat)
  | _, first_found, [] => some first_found
  | i, first_found, s :: rest =>
    let step : Option (Option Nat) :=
      match first_found with
      | none =>
        match srv_condition s with
        | none => none
        | some b => some (if b then some i else none)
      | some j => some (some j)
    match step with
    | none => none
    | some ff =>
      if config_condition s then
        match srv_condition s with
        | none => none
        | some true => some (some i)
        | some false => gsgAux config_condition srv_condition (i + 1) ff rest
      else gsgAux config_condition srv_condition (i + 1) ff rest

/-- Source `Proxy.get_server_generic` entry point. -/
def get_server_generic (config_condition : Srv → Bool) (srv_condition : Srv → Option Bool)
    (servers : List Srv) : Option (Option Nat) :=
  gsgAux config_condition srv_condition 0 none servers

/-- Truthiness of `any(srv.get_formatting_capabilities())`. -/
def fmt_condition (s : Srv) : Bool :=
  optTruthy (get_formatting_capabilities s).1 || optTruthy (get_formatting_capabilities s).2

/-- Source `Proxy.get_formatting_server` (by index; its conditions never
raise, but it is threaded through the exception monad like the source's
single generic helper). -/
def get_formatting_server (p : ProxyState) : Option (Option Nat) :=
  get_server_generic (fun s => s.use_formatting) (fun s => some (fmt_condition s)) p.servers

/-- Source `Proxy.get_completion_server`. -/
def get_completion_server (p : ProxyState) : Option (Option Nat) :=
  get_server_generic (fun s => s.use_completion)
    (fun s => some (optTruthy (get_completion_capability s))) p.servers

/-- Source `Proxy.get_signature_server`. -/
def get_signature_server (p : ProxyState) : Option (Option Nat) :=
  get_server_generic (fun s => s.use_signature)
    (fun s => some (optTruthy (get_signature_capability s))) p.servers

/-- Source `Proxy.get_command_server`. -/
def get_command_server (p : ProxyState) (command : Json) : Option (Option Nat) :=
  get_server_generic (fun s => s.use_execute_command)
    (fun s => get_execute_command_capability s command) p.servers

/-- Source `Proxy.get_primary`: the first primary server, else the first
server; `none` models the `IndexError` on an empty server list (Python
evaluates the `next` default `self.servers[0]` eagerly). -/
def get_primary (p : ProxyState) : Option Srv :=
  match p.servers with
  | [] => none
  | s0 :: _ => some ((p.servers.find? (fun s => s.is_primary)).getD s0)

/-- Source `Proxy.all_initialized` (truthiness of each cached message). -/
def all_initialized (p : ProxyState) : Bool :=
  p.servers.all (fun s => optTruthy s.initialize_msg)

/-- Source `Proxy.all_shutdown`. -/
def all_shutdown (p : ProxyState) : Bool :=
  p.servers.all (fun s => s.shutdown_received)

/-- Source `Proxy.filter_msg`. -/
def filter_msg (method : Option Json) (is_primary : Bool) (preserved_methods : List String) :
    Bool :=
  if is_primary then false
  else !(methodMem method preserved_methods)

/-- Loop body of `Proxy.get_merged_diagnostics`: `none` models the
`TypeError` of `diags += x` for a cached non-list `x`. -/
def mergeDiagsAux : List Srv → Json → List Json → Option (List Json)
  | [], _, acc => some acc
  | s :: rest, uri, acc =>
    if s.use_diagnostics && alContains Json.beq s.diagnostics uri then
      match alGet Json.beq s.diagnostics uri with
      | some (.arr d) => mergeDiagsAux rest uri (acc ++ d)
      | _ => none
    else mergeDiagsAux rest uri acc

/-- Source `Proxy.get_merged_diagnostics`. -/
def get_merged_diagnostics (p : ProxyState) (uri : Json) : Option (List Json) :=
  mergeDiagsAux p.servers uri []

/-- Python hashability of a JSON value (`set()` rejects lists and dicts). -/
def jsonHashable : Json → Bool
  | .arr _ => false
  | .obj _ => false
  | _ => true

/-- First-occurrence deduplication with `Json.beq`. -/
def dedupAux (seen : List Json) : List Json → List Json
  | [] => []
  | x :: xs =>
    if seen.any (fun y => Json.beq y x) then dedupAux seen xs
    else x :: dedupAux (seen ++ [x]) xs

/-- Python `list(set(xs))`: `none` models the `TypeError` on unhashable
elements; the iteration order of a `set` is unspecified in Python, modelled
as first-occurrence order (no claim depends on the order). -/
def pySetList (xs : List Json) : Option (List Json) :=
  if xs.all jsonHashable then some (dedupAux [] xs) else none

/-- The `codeActionProvider` part of the per-server capability-collection
loop body in `Proxy.get_initialization_options`: the updated server, its
`codeActionKinds` contribution, and its support flag; `none` models the
`TypeError` of `code_action_kinds += x` for a non-list `x`. -/
def caStep (s : Srv) (caps : Json) : Option (Srv × List Json × Bool) :=
  match safe_get caps "codeActionProvider" with
  | some provider =>
    if provider.truthy then
      match provider with
      | .obj es =>
        if alContains strBeq es "codeActionKinds" then
          match alGet strBeq es "codeActionKinds" with
          | some (.arr ks) =>
            some ({ s with supported_code_action_kinds := .arr ks }, ks, true)
          | _ => none
        else some (s, [], true)
      | _ => some (s, [], true)
    else some (s, [], false)
  | none => some (s, [], false)

/-- The `executeCommandProvider` part of the loop body: the updated server
and its `commands` contribution; `none` models the `TypeError` of
`'commands' in provider` on a truthy non-dict provider and the `TypeError`
of `commands += x` for a non-list `x`. -/
def cmdStep (s1 : Srv) (caps : Json) : Option (Srv × List Json) :=
  match safe_get caps "executeCommandProvider" with
  | some provider =>
    if provider.truthy then
      match provider with
      | .obj es =>
        if alContains strBeq es "commands" then
          match alGet strBeq es "commands" with
          | some (.arr cs) => some ({ s1 with supported_commands := .arr cs }, cs)
          | _ => none
        else some (s1, [])
      | _ => none
    else some (s1, [])
  | none => some (s1, [])

/-- Per-server part of the capability-collection loop in
`Proxy.get_initialization_options`: given one server, return the updated
server together with its `codeActionKinds` and `commands` contributions and
its code-action-support flag. -/
def collectProvidersOne (s : Srv) : Option (Srv × List Json × List Json × Bool) :=
  match s.initialize_msg with
  | none => none
  | some m =>
    match pyIndex m "result" with
    | none => none
    | some r =>
      match pyIndex r "capabilities" with
      | none => none
      | some caps =>
        match caStep s caps with
        | none => none
        | some (s1, kinds, supports) =>
          match cmdStep s1 caps with
          | none => none
          | some (s2, cs) => some (s2, kinds, cs, supports)

/-- The capability-collection loop of `Proxy.get_initialization_options`
over all servers, in configuration order. -/
def collectProviders : List Srv → Option (List Srv × List Json × List Json × Bool)
  | [] => some ([], [], [], false)
  | s :: rest =>
    match collectProvidersOne s with
    | none => none
    | some (s1, kinds, cmds, supports) =>
      match collectProviders rest with
      | none => none
      | some (rest1, kindsR, cmdsR, supportsR) =>
        some (s1 :: rest1, kinds ++ kindsR, cmds ++ cmdsR, supports || supportsR)

/-- Source `Proxy.get_initialization_options`: the synthesized initialize
response, together with the servers updated by the loop's
`supported_code_action_kinds` / `supported_commands` assignments. -/
def get_initialization_options (p : ProxyState) : Option (List Srv × Json) :=
  match get_primary p with
  | none => none
  | some prim =>
    match prim.initialize_msg with
    | none => none
    | some msg0 =>
      match pyIndex msg0 "result" with
      | none => none
      | some result0 =>
        match pySetItem result0 "serverInfo"
            (.obj [("name", .str "lsp-proxy"), ("version", .str "0.1")]) with
        | none => none
        | some result1 =>
          match pyIndex result1 "capabilities" with
          | none => none
          | some caps0 =>
            match get_formatting_server p with
            | none => none
            | some fmtO =>
              let capsA : Option Json :=
                match fmtO with
                | some fi =>
                  match p.servers[fi]? with
                  | none => none
                  | some fs =>
                    let fc := get_formatting_capabilities fs
                    match pySetItem caps0 "documentFormattingProvider" (jsonOfOpt fc.1) with
                    | none => none
                    | some c1 => pySetItem c1 "documentRangeFormattingProvider" (jsonOfOpt fc.2)
                | none => some caps0
              match capsA with
              | none => none
              | some caps1 =>
                match get_completion_server p with
                | none => none
                | some cplO =>
                  let capsB : Option Json :=
                    match cplO with
                    | some ci =>
                      match p.servers[ci]? with
                      | none => none
                      | some cs =>
                        pySetItem caps1 "completionProvider"
                          (jsonOfOpt (get_completion_capability cs))
                    | none => some caps1
                  match capsB with
                  | none => none
                  | some caps2 =>
                    match get_signature_server p with
                    | none => none
                    | some sigO =>
                      let capsC : Option Json :=
                        match sigO with
                        | some si =>
                          match p.servers[si]? with
                          | none => none
                          | some ss =>
                            pySetItem caps2 "signatureHelpProvider"
                              (jsonOfOpt (get_signature_capability ss))
                        | none => some caps2
                      match capsC with
                      | none => none
                      | some caps3 =>
                        match collectProviders p.servers with
                        | none => none
                        | some (servers1, kinds, cmds, supports) =>
                          let capsD : Option Json :=
                            if supports then
                              match pySetList kinds with
                              | none => none
                              | some ks =>
                                pySetItem caps3 "codeActionProvider"
                                  (.obj [("codeActionKinds", .arr ks)])
                            else some caps3
                          match capsD with
                          | none => none
                          | some caps4 =>
                            let capsE : Option Json :=
                              if cmds.length > 0 then
                                match pySetList cmds with
                                | none => none
                                | some cs =>
                                  pySetItem caps4 "executeCommandProvider"
                                    (.obj [("commands", .arr cs)])
                              else some caps4
                            match capsE with
                            | none => none
                            | some caps5 =>
                              match pySetItem result1 "capabilities" caps5 with
                              | none => none
                              | some result2 =>
                                match pySetItem msg0 "result" result2 with
                                | none => none
                                | some msg1 => some (servers1, msg1)

/-- Python `list.remove` for the code-action id multiset (the call site
checks membership first, so the element is always present). -/
def eraseFirstOpt : List (Option Json) → Option Json → List (Option Json)
  | [], _ => []
  | y :: t, x => if optBeq y x then t else y :: eraseFirstOpt t x

/-- The final fan-in loop of the code-action aggregation in `Proxy.process`:
concatenate each server's stored result for `iden` in configuration order,
deleting the truthy entries; `none` models the `KeyError` on a server that
never stored a result for `iden`, or the `TypeError` of `result += x` for a
non-list `x`. -/
def collectCodeActions (iden : Option Json) : List Srv → Option (List Json × List Srv)
  | [] => some ([], [])
  | s :: rest =>
    match alGet optBeq s.received_code_actions iden with
    | none => none
    | some v =>
      if v.truthy then
        match v with
        | .arr el =>
          match collectCodeActions iden rest with
          | none => none
          | some (a, r) =>
            some (el ++ a,
              { s with received_code_actions := alErase optBeq s.received_code_actions iden } :: r)
        | _ => none
      else
        match collectCodeActions iden rest with
        | none => none
        | some (a, r) => some (a, s :: r)

/-- Source `Proxy.process` for server index `i`.  The result is the new proxy
state, the message value after any in-place mutation, and whether it was
written to the peer (`writer.write`); `none` models an uncaught exception
propagating out of `process`. -/
def process (p : ProxyState) (i : Nat) (msg0 : Json) (from_server : Bool)
    (preserved_methods : List String) : Option (ProxyState × Json × Bool) :=
  match p.servers[i]? with
  | none => none
  | some srv0 =>
    let method0 := safe_get msg0 "method"
    let iden := safe_get msg0 "id"
    let pend0 := if from_server then srv0.pending_client_server_requests
                 else srv0.pending_server_client_requests
    let notHit : Bool × Option Json × Srv :=
      if filter_msg method0 srv0.is_primary preserved_methods then (false, method0, srv0)
      else
        (true, method0,
         if optTruthy method0 && optTruthy iden then
           match iden, method0 with
           | some j, some m =>
             if from_server then
               { srv0 with
                   pending_server_client_requests :=
                     alSet Json.beq srv0.pending_server_client_requests j m }
             else
               { srv0 with
                   pending_client_server_requests :=
                     alSet Json.beq srv0.pending_client_server_requests j m }
           | _, _ => srv0
         else srv0)
    let act1 : Bool × Option Json × Srv :=
      match iden with
      | some j =>
        if alContains Json.beq pend0 j then
          (true, some ((alGet Json.beq pend0 j).getD .null),
           if from_server then
             { srv0 with pending_client_server_requests := alErase Json.beq pend0 j }
           else
             { srv0 with pending_server_client_requests := alErase Json.beq pend0 j })
        else notHit
      | none => notHit
    let ss1 := act1.1
    let method1 := act1.2.1
    let srv1 := act1.2.2
    let p1 := setSrv p i srv1
    let special : Option (ProxyState × Json × Bool) :=
      if from_server then
        if jsonHasKey msg0 "result" then
          if optBeq iden p1.initialize_id then
            let p2 := setSrv p1 i { srv1 with initialize_msg := some msg0 }
            if all_initialized p2 then
              match get_initialization_options p2 with
              | none => none
              | some (servers2, msg2) => some ({ p2 with servers := servers2 }, msg2, true)
            else some (p2, msg0, false)
          else if optBeq iden p1.shutdown_id then
            let p2 := setSrv p1 i { srv1 with shutdown_received := true }
            some (p2, msg0, all_shutdown p2)
          else if p1.code_action_ids.any (fun x => optBeq x iden) then
            let ids2 := eraseFirstOpt p1.code_action_ids iden
            let p2 := { p1 with code_action_ids := ids2 }
            match pyIndex msg0 "result" with
            | none => none
            | some res =>
              let srv2 := { srv1 with
                  received_code_actions := alSet optBeq srv1.received_code_actions iden res }
              let p3 := setSrv p2 i srv2
              if ids2.any (fun x => optBeq x iden) then some (p3, msg0, false)
              else
                match collectCodeActions iden p3.servers with
                | none => none
                | some (acc, servers3) =>
                  match pySetItem msg0 "result" (.arr acc) with
                  | none => none
                  | some msg2 => some ({ p3 with servers := servers3 }, msg2, true)
          else some (p1, msg0, ss1)
        else some (p1, msg0, ss1)
      else
        if isMethod method1 "initialize" then
          match pyIndex msg0 "params" with
          | none => none
          | some params =>
            let p2 := { p1 with initialize_id := iden }
            if optTruthy srv1.initialization_options then
              match pySetItem params "initializationOptions"
                  (jsonOfOpt srv1.initialization_options) with
              | none => none
              | some params2 =>
                match pySetItem msg0 "params" params2 with
                | none => none
                | some msg2 => some (p2, msg2, ss1)
            else if !srv1.is_primary then
              match pySetItem params "initializationOptions" .null with
              | none => none
              | some params2 =>
                match pySetItem msg0 "params" params2 with
                | none => none
                | some msg2 => some (p2, msg2, ss1)
            else some (p2, msg0, ss1)
        else if isMethod method1 "workspace/didChangeConfiguration" then
          match pyIndex msg0 "params" with
          | none => none
          | some params =>
            if optTruthy srv1.initialization_options then
              match pySetItem params "settings" (jsonOfOpt srv1.initialization_options) with
              | none => none
              | some params2 =>
                match pySetItem msg0 "params" params2 with
                | none => none
                | some msg2 => some (p1, msg2, ss1)
            else if !srv1.is_primary then
              match pySetItem params "settings" .null with
              | none => none
              | some params2 =>
                match pySetItem msg0 "params" params2 with
                | none => none
                | some msg2 => some (p1, msg2, ss1)
            else some (p1, msg0, ss1)
        else if isMethod method1 "shutdown" then
          some ({ p1 with shutdown_id := iden }, msg0, ss1)
        else if isMethod method1 "textDocument/formatting"
            || isMethod method1 "textDocument/rangeFormatting" then
          match get_formatting_server p1 with
          | none => none
          | some owner => some (p1, msg0, if owner = some i then ss1 else false)
        else if isMethod method1 "textDocument/completion"
            || isMethod method1 "completionItem/resolve" then
          match get_completion_server p1 with
          | none => none
          | some owner => some (p1, msg0, if owner = some i then ss1 else false)
        else if isMethod method1 "textDocument/signatureHelp" then
          match get_signature_server p1 with
          | none => none
          | some owner => some (p1, msg0, if owner = some i then ss1 else false)
        else if isMethod method1 "textDocument/codeAction" then
          let ss2 := if !(optTruthy (get_code_action_capability srv1)) then false else ss1
          if ss2 then
            some ({ p1 with code_action_ids := p1.code_action_ids ++ [iden] }, msg0, true)
          else some (p1, msg0, false)
        else if isMethod method1 "workspace/executeCommand" then
          match pyIndex msg0 "params" with
          | none => none
          | some params =>
            match pyIndex params "command" with
            | none => none
            | some cmd =>
              match get_command_server p1 cmd with
              | none => none
              | some owner => some (p1, msg0, if owner = some i then ss1 else false)
        else some (p1, msg0, ss1)
    match special with
    | none => none
    | some (p2, msg2, ss2) =>
      if ss2 then
        if from_server && isMethod method1 "textDocument/publishDiagnostics" then
          match p2.servers[i]? with
          | none => none
          | some srv2 =>
            match pyIndex msg2 "params" with
            | none => none
            | some params =>
              match pyIndex params "uri" with
              | none => none
              | some uri =>
                match pyIndex params "diagnostics" with
                | none => none
                | some dl =>
                  let srv3 := { srv2 with diagnostics := alSet Json.beq srv2.diagnostics uri dl }
                  let p3 := setSrv p2 i srv3
                  match get_merged_diagnostics p3 uri with
                  | none => none
                  | some merged =>
                    match pySetItem params "diagnostics" (.arr merged) with
                    | none => none
                    | some params2 =>
                      match pySetItem msg2 "params" params2 with
                      | none => none
                      | some msg3 => some (p3, msg3, true)
        else some (p2, msg2, true)
      else some (p2, msg2, false)

/-- The from-client arm of `Proxy.dispatch`: `process` against each server in
configuration order (all servers are connected in every modelled scenario).
The message value is threaded because Python mutates the one shared `msg`
object; the per-server entry of the output list is the message written to
that server, or `none` when it was dropped. -/
def dispatchClientAux (p : ProxyState) (msg : Json) (i : Nat) :
    Nat → Option (ProxyState × Json × List (Option Json))
  | 0 => some (p, msg, [])
  | n + 1 =>
    match process p i msg false preserved_from_client with
    | none => none
    | some (p1, msg1, sent) =>
      match dispatchClientAux p1 msg1 (i + 1) n with
      | none => none
      | some (p2, msg2, outs) => some (p2, msg2, (if sent then some msg1 else none) :: outs)

/-- Source `Proxy.dispatch` for a client message. -/
def dispatchFromClient (p : ProxyState) (msg : Json) :
    Option (ProxyState × Json × List (Option Json)) :=
  dispatchClientAux p msg 0 p.servers.length

/-- A sequence of from-server dispatches: each pair is (server index,
message read from that server); the output list collects the messages
written to the client, in order. -/
def runResponses : ProxyState → List (Nat × Json) → Option (ProxyState × List Json)
  | p, [] => some (p, [])
  | p, (i, m) :: rest =>
    match process p i m true preserved_from_server with
    | none => none
    | some (p1, m1, sent) =>
      match runResponses p1 rest with
      | none => none
      | some (p2, outs) => some (p2, (if sent then [m1] else []) ++ outs)

/-! ## The Framer: `json.dumps` / `json.loads`, `construct_message`, `read_message` -/

/-- The double-quote character (written via its code point to keep string
literals free of quotes). -/
def qC : Char := Char.ofNat 34

/-- The backslash character. -/
def bsC : Char := Char.ofNat 92

/-- The opening curly bracket. -/
def obC : Char := Char.ofNat 123

/-- The closing curly bracket. -/
def cbC : Char := Char.ofNat 125

/-- JSON whitespace (the set CPython's scanner skips). -/
def isWsC (c : Char) : Bool := c = ' ' || c = '\t' || c = '\n' || c = '\r'

/-- ASCII decimal digit. -/
def isDigitC (c : Char) : Bool := 48 ≤ c.toNat && c.toNat ≤ 57

/-- Skip JSON whitespace. -/
def skipWsL : List Char → List Char
  | c :: cs => if isWsC c then skipWsL cs else c :: cs
  | [] => []

/-- Lower-case hex digit character for `d < 16` (as `json.dumps` emits). -/
def hexDigitChar (d : Nat) : Char :=
  if d < 10 then Char.ofNat (48 + d) else Char.ofNat (87 + d)

/-- Value of a hex digit character (either case, as `json.loads` accepts). -/
def hexCharVal (c : Char) : Option Nat :=
  if 48 ≤ c.toNat && c.toNat ≤ 57 then some (c.toNat - 48)
  else if 97 ≤ c.toNat && c.toNat ≤ 102 then some (c.toNat - 87)
  else if 65 ≤ c.toNat && c.toNat ≤ 70 then some (c.toNat - 55)
  else none

/-- A `\uXXXX` escape for `n < 0x10000`. -/
def uEsc (n : Nat) : List Char :=
  [bsC, 'u', hexDigitChar (n / 4096 % 16), hexDigitChar (n / 256 % 16),
   hexDigitChar (n / 16 % 16), hexDigitChar (n % 16)]

/-- One character escaped as `json.dumps` (default `ensure_ascii=True`)
renders it: the short escapes, `\u00XX` for remaining controls, literal
ASCII `0x20..0x7e`, `\uXXXX` for the rest of the BMP, and a surrogate pair
beyond it. -/
def escChar (c : Char) : List Char :=
  let n := c.toNat
  if n = 34 then [bsC, qC]
  else if n = 92 then [bsC, bsC]
  else if n = 8 then [bsC, 'b']
  else if n = 9 then [bsC, 't']
  else if n = 10 then [bsC, 'n']
  else if n = 12 then [bsC, 'f']
  else if n = 13 then [bsC, 'r']
  else if n < 32 then uEsc n
  else if n < 127 then [c]
  else if n < 65536 then uEsc n
  else uEsc (55296 + (n - 65536) / 1024) ++ uEsc (56320 + (n - 65536) % 1024)

/-- Escape every character of a string body. -/
def escList : List Char → List Char
  | [] => []
  | c :: cs => escChar c ++ escList cs

/-- Decimal digit characters of `n`, most significant first (`str(n)` for a
natural number). -/
def natDigs (n : Nat) : List Char :=
  if n < 10 then [Char.ofNat (48 + n)]
  else natDigs (n / 10) ++ [Char.ofNat (48 + n % 10)]
termination_by n
decreasing_by omega

/-- `str(n)` for an integer. -/
def intChars (n : Int) : List Char :=
  if n < 0 then '-' :: natDigs n.natAbs else natDigs n.natAbs

mutual

/-- `json.dumps` with its default separators (`', '` between items, `': '`
after keys) and `ensure_ascii=True`, as a character list (pure ASCII, so the
UTF-8 byte encoding is the code-point-wise image). -/
def dumps : Json → List Char
  | .null => "null".data
  | .bool true => "true".data
  | .bool false => "false".data
  | .int n => intChars n
  | .str s => qC :: (escList s.data ++ [qC])
  | .arr [] => ['[', ']']
  | .arr (x :: xs) => '[' :: (dumps x ++ (dumpsArrTail xs ++ [']']))
  | .obj [] => [obC, cbC]
  | .obj (kv :: kvs) => obC :: (dumpsEntry kv ++ (dumpsObjTail kvs ++ [cbC]))

/-- Remaining array items, each preceded by `', '`. -/
def dumpsArrTail : List Json → List Char
  | [] => []
  | x :: xs => ',' :: ' ' :: (dumps x ++ dumpsArrTail xs)

/-- One object entry: quoted escaped key, `': '`, value. -/
def dumpsEntry : String × Json → List Char
  | (k, v) => qC :: (escList k.data ++ ([qC, ':', ' '] ++ dumps v))

/-- Remaining object entries, each preceded by `', '`. -/
def dumpsObjTail : List (String × Json) → List Char
  | [] => []
  | kv :: kvs => ',' :: ' ' :: (dumpsEntry kv ++ dumpsObjTail kvs)

end

/-- String-body scanner of `json.loads` (strict mode): ends at an unescaped
quote, decodes the short escapes and `\uXXXX` (with surrogate pairs),
rejects raw control characters.  Divergence: CPython admits a lone
surrogate escape, which `Char` cannot represent; no rendered output
contains one. -/
def parseStrAux (fuel : Nat) (acc : List Char) (l : List Char) :
    Option (String × List Char) :=
  match fuel with
  | 0 => none
  | fuel + 1 =>
    match l with
    | [] => none
    | c :: rest =>
      if c.toNat = 34 then some (String.mk acc.reverse, rest)
    else if c.toNat = 92 then
      match rest with
      | [] => none
      | e :: rest2 =>
        if e.toNat = 34 then parseStrAux fuel (qC :: acc) rest2
        else if e.toNat = 92 then parseStrAux fuel (bsC :: acc) rest2
        else if e = '/' then parseStrAux fuel ('/' :: acc) rest2
        else if e = 'b' then parseStrAux fuel (Char.ofNat 8 :: acc) rest2
        else if e = 'f' then parseStrAux fuel (Char.ofNat 12 :: acc) rest2
        else if e = 'n' then parseStrAux fuel (Char.ofNat 10 :: acc) rest2
        else if e = 'r' then parseStrAux fuel (Char.ofNat 13 :: acc) rest2
        else if e = 't' then parseStrAux fuel (Char.ofNat 9 :: acc) rest2
        else if e = 'u' then
          match rest2 with
          | a :: b :: c2 :: d :: rest3 =>
            match hexCharVal a, hexCharVal b, hexCharVal c2, hexCharVal d with
            | some va, some vb, some vc, some vd =>
              let n := ((va * 16 + vb) * 16 + vc) * 16 + vd
              if 55296 ≤ n && n ≤ 56319 then
                match rest3 with
                | e1 :: u1 :: a2 :: b2 :: c3 :: d2 :: rest4 =>
                  if e1.toNat = 92 && u1 = 'u' then
                    match hexCharVal a2, hexCharVal b2, hexCharVal c3, hexCharVal d2 with
                    | some wa, some wb, some wc, some wd =>
                      let n2 := ((wa * 16 + wb) * 16 + wc) * 16 + wd
                      if 56320 ≤ n2 && n2 ≤ 57343 then
                        parseStrAux fuel
                          (Char.ofNat (65536 + (n - 55296) * 1024 + (n2 - 56320)) :: acc) rest4
                      else none
                    | _, _, _, _ => none
                  else none
                | _ => none
              else if 56320 ≤ n && n ≤ 57343 then none
              else parseStrAux fuel (Char.ofNat n :: acc) rest3
            | _, _, _, _ => none
          | _ => none
        else none
    else if c.toNat < 32 then none
    else parseStrAux fuel (c :: acc) rest

/-- Maximal run of ASCII digits. -/
def takeDigs : List Char → List Char × List Char
  | [] => ([], [])
  | c :: cs => if isDigitC c then ((takeDigs cs).1.cons c, (takeDigs cs).2) else ([], c :: cs)

/-- Numeric value of a digit run. -/
def digsVal (l : List Char) : Nat :=
  l.foldl (fun a c => a * 10 + (c.toNat - 48)) 0

/-- Integer literal scanner of `json.loads`: optional minus, digits with no
redundant leading zero; a following `.`/`e`/`E` would make a float, which
the model does not represent (`none`; no integer render is followed by
one). -/
def parseNumJ (l : List Char) : Option (Json × List Char) :=
  let sgn := match l with
    | c :: r => if c = '-' then (true, r) else (false, l)
    | [] => (false, l)
  match takeDigs sgn.2 with
  | ([], _) => none
  | (d :: ds, rest) =>
    if d.toNat = 48 && !ds.isEmpty then none
    else
      match rest with
      | c :: _ =>
        if c = '.' || c = 'e' || c = 'E' then none
        else some (.int (if sgn.1 then -(digsVal (d :: ds) : Int) else (digsVal (d :: ds) : Int)),
                   rest)
      | [] =>
        some (.int (if sgn.1 then -(digsVal (d :: ds) : Int) else (digsVal (d :: ds) : Int)), rest)

/-- Python dict construction from parsed members: sequential insertion, so a
duplicate key keeps its first position with its last value. -/
def objFromPairs (ms : List (String × Json)) : List (String × Json) :=
  ms.foldl (fun acc kv => alSet strBeq acc kv.1 kv.2) []

mutual

/-- Value scanner of `json.loads` (CPython `scan_once`): no leading
whitespace skip (callers skip), dispatch on the first character.  `fuel`
dominates the recursion; `loads` passes more fuel than any input can
consume. -/
def parseVal (fuel : Nat) (l : List Char) : Option (Json × List Char) :=
  match fuel with
  | 0 => none
  | fuel + 1 =>
    match l with
    | 'n' :: 'u' :: 'l' :: 'l' :: r => some (.null, r)
    | 't' :: 'r' :: 'u' :: 'e' :: r => some (.bool true, r)
    | 'f' :: 'a' :: 'l' :: 's' :: 'e' :: r => some (.bool false, r)
    | c :: r =>
      if c.toNat = 34 then
        match parseStrAux (fuel + 1) [] r with
        | some (s, r1) => some (.str s, r1)
        | none => none
      else if c = '[' then
        let r1 := skipWsL r
        match r1 with
        | d :: r2 =>
          if d = ']' then some (.arr [], r2)
          else
            match parseVal fuel r1 with
            | none => none
            | some (v, r3) =>
              match parseArrTail fuel r3 with
              | none => none
              | some (vs, r4) => some (.arr (v :: vs), r4)
        | [] => none
      else if c.toNat = 123 then
        let r1 := skipWsL r
        match r1 with
        | d :: r2 =>
          if d.toNat = 125 then some (.obj [], r2)
          else
            match parseMembers fuel r1 with
            | none => none
            | some (ms, r3) => some (.obj (objFromPairs ms), r3)
        | [] => none
      else if c = '-' || isDigitC c then parseNumJ (c :: r)
      else none
    | [] => none

/-- After one parsed array element: whitespace, then `]` or `,` and more
elements. -/
def parseArrTail (fuel : Nat) (l : List Char) : Option (List Json × List Char) :=
  match fuel with
  | 0 => none
  | fuel + 1 =>
    match skipWsL l with
    | d :: r =>
      if d = ']' then some ([], r)
      else if d = ',' then
        match parseVal fuel (skipWsL r) with
        | none => none
        | some (v, r2) =>
          match parseArrTail fuel r2 with
          | none => none
          | some (vs, r3) => some (v :: vs, r3)
      else none
    | [] => none

/-- One-or-more object members: quoted key, whitespace, `:`, whitespace,
value, then `}` or `,` and more members. -/
def parseMembers (fuel : Nat) (l : List Char) : Option (List (String × Json) × List Char) :=
  match fuel with
  | 0 => none
  | fuel + 1 =>
    match l with
    | d :: r =>
      if d.toNat = 34 then
        match parseStrAux (fuel + 1) [] r with
        | none => none
        | some (k, r1) =>
          match skipWsL r1 with
          | e :: r2 =>
            if e = ':' then
              match parseVal fuel (skipWsL r2) with
              | none => none
              | some (v, r3) =>
                match skipWsL r3 with
                | f :: r4 =>
                  if f.toNat = 125 then some ([(k, v)], r4)
                  else if f = ',' then
                    match parseMembers fuel (skipWsL r4) with
                    | none => none
                    | some (ms, r5) => some ((k, v) :: ms, r5)
                  else none
                | [] => none
            else none
          | [] => none
      else none
    | [] => none

end

/-- `json.loads` on a character sequence: skip leading whitespace, scan one
value, allow only trailing whitespace. -/
def pyLoadsChars (l : List Char) : Option Json :=
  match parseVal (l.length + 1) (skipWsL l) with
  | none => none
  | some (j, r) => if (skipWsL r).isEmpty then some j else none

/-- Strict UTF-8 decoding of a byte sequence (as `bytes.decode('utf-8')`
performed by `json.loads` on bytes input): rejects overlong forms,
surrogates and out-of-range code points. -/
def utf8Decode (fuel : Nat) (l : List Nat) : Option (List Char) :=
  match fuel with
  | 0 => none
  | fuel + 1 =>
    match l with
    | [] => some []
    | b :: bs =>
      if b < 128 then (utf8Decode fuel bs).map (fun cs => Char.ofNat b :: cs)
      else if 194 ≤ b && b ≤ 223 then
        match bs with
        | b2 :: bs2 =>
          if 128 ≤ b2 && b2 ≤ 191 then
            (utf8Decode fuel bs2).map (fun cs => Char.ofNat ((b - 192) * 64 + (b2 - 128)) :: cs)
          else none
        | [] => none
      else if 224 ≤ b && b ≤ 239 then
        match bs with
        | b2 :: b3 :: bs3 =>
          let lo2 := if b = 224 then 160 else 128
          let hi2 := if b = 237 then 159 else 191
          if lo2 ≤ b2 && b2 ≤ hi2 && 128 ≤ b3 && b3 ≤ 191 then
            (utf8Decode fuel bs3).map (fun cs =>
              Char.ofNat ((b - 224) * 4096 + (b2 - 128) * 64 + (b3 - 128)) :: cs)
          else none
        | _ => none
      else if 240 ≤ b && b ≤ 244 then
        match bs with
        | b2 :: b3 :: b4 :: bs4 =>
          let lo2 := if b = 240 then 144 else 128
          let hi2 := if b = 244 then 143 else 191
          if lo2 ≤ b2 && b2 ≤ hi2 && 128 ≤ b3 && b3 ≤ 191 && 128 ≤ b4 && b4 ≤ 191 then
            (utf8Decode fuel bs4).map (fun cs =>
              Char.ofNat ((b - 240) * 262144 + (b2 - 128) * 4096 + (b3 - 128) * 64 + (b4 - 128))
                :: cs)
          else none
        | _ => none
      else none

/-- `json.loads` on bytes: UTF-8 decode, then parse. -/
def pyLoadsBytes (bs : List Nat) : Option Json :=
  match utf8Decode (bs.length + 1) bs with
  | some cs => pyLoadsChars cs
  | none => none

/-- The UTF-8 bytes of an ASCII string literal. -/
def asciiBytes (s : String) : List Nat := s.data.map Char.toNat

/-- Source `Proxy.construct_message`: UTF-8 JSON body behind a single
`Content-Length` header. -/
def construct_message (msg : Json) : List Nat :=
  let body := (dumps msg).map Char.toNat
  asciiBytes "Content-Length: " ++ ((natDigs body.length).map Char.toNat
    ++ ([13, 10, 13, 10] ++ body))

/-- `stream.readuntil(b'\r\n\r\n')`: everything up to and including the
first separator, and the remainder; `none` is the `IncompleteReadError`
when the separator never appears. -/
def readuntil4 : List Nat → Option (List Nat × List Nat)
  | 13 :: 10 :: 13 :: 10 :: rest => some ([13, 10, 13, 10], rest)
  | b :: rest =>
    match readuntil4 rest with
    | some (p, r) => some (b :: p, r)
    | none => none
  | [] => none

/-- Python `bytes.split(b'\r\n')` (leftmost, non-overlapping). -/
def splitCRLF : List Nat → List (List Nat)
  | [] => [[]]
  | 13 :: 10 :: rest => [] :: splitCRLF rest
  | b :: rest =>
    match splitCRLF rest with
    | h :: t => (b :: h) :: t
    | [] => [[b]]

/-- Split a byte list at the first occurrence of `sep`, if any. -/
def splitByteOnce (sep : Nat) : List Nat → Option (List Nat × List Nat)
  | [] => none
  | b :: r =>
    if b = sep then some ([], r)
    else
      match splitByteOnce sep r with
      | some (pre, post) => some (b :: pre, post)
      | none => none

/-- Python `line.split(b':', 2)`: at most three parts. -/
def splitColon2 (line : List Nat) : List (List Nat) :=
  match splitByteOnce 58 line with
  | none => [line]
  | some (a, r) =>
    match splitByteOnce 58 r with
    | none => [a, r]
    | some (b, r2) => [a, b, r2]

/-- `bytes.lower` on one byte. -/
def lowerByte (b : Nat) : Nat := if 65 ≤ b && b ≤ 90 then b + 32 else b

/-- ASCII whitespace stripped by `bytes.strip`. -/
def isStripWs (b : Nat) : Bool := b = 32 || b = 9 || b = 10 || b = 13 || b = 11 || b = 12

/-- Python `bytes.strip()`. -/
def stripBytes (l : List Nat) : List Nat :=
  ((l.dropWhile isStripWs).reverse.dropWhile isStripWs).reverse

/-- Digits-only numeral value (`none` when empty or non-digit).  Divergence:
Python `int` also accepts underscores between digits and Unicode digits. -/
def natFromDigits (l : List Nat) : Option Nat :=
  match l with
  | [] => none
  | _ =>
    if l.all (fun b => 48 ≤ b && b ≤ 57) then
      some (l.foldl (fun a b => a * 10 + (b - 48)) 0)
    else none

/-- Python `int(val.strip())` on bytes: strip, optional sign, digits;
`none` is the `ValueError` on anything else. -/
def pyIntBytes (l : List Nat) : Option Int :=
  match stripBytes l with
  | 43 :: ds => (natFromDigits ds).map (fun n => (n : Int))
  | 45 :: ds => (natFromDigits ds).map (fun n => -(n : Int))
  | ds => (natFromDigits ds).map (fun n => (n : Int))

/-- The bytes of `b'content-length'`. -/
def clBytes : List Nat := asciiBytes "content-length"

/-- The header-scanning loop of `read_message`: unpack each line at colons
(exactly two parts or a `ValueError`), lower-case the key, and take the
`content-length` value through `int`; `none` models the uncaught
`ValueError` from either step. -/
def scanHeaders : List (List Nat) → Int → Option Int
  | [], len => some len
  | line :: rest, len =>
    match splitColon2 line with
    | [k, v] =>
      if k.map lowerByte = clBytes then
        match pyIntBytes v with
        | some n => scanHeaders rest n
        | none => none
      else scanHeaders rest len
    | _ => none

/-- Outcome of `read_message`: a decoded message, `None` (logged and
dropped), or an uncaught exception propagating out of the coroutine. -/
inductive ReadResult where
  | msg (j : Json)
  | noMsg
  | exn

/-- Source `read_message` on a fully-buffered input stream: header block up
to `\r\n\r\n` (missing separator → caught `IncompleteReadError` → `None`),
header scan (uncaught `ValueError` possible), body of `Content-Length`
bytes when positive (short body → caught → `None`), then `json.loads`
(failure caught → `None`). -/
def read_message (input : List Nat) : ReadResult :=
  match readuntil4 input with
  | none => .noMsg
  | some (header, rest) =>
    let lines := (splitCRLF header).dropLast.dropLast
    match scanHeaders lines 0 with
    | none => .exn
    | some len =>
      if len > 0 then
        if rest.length < len.toNat then .noMsg
        else
          match pyLoadsBytes (rest.take len.toNat) with
          | some j => .msg j
          | none => .noMsg
      else
        match pyLoadsBytes [] with
        | some j => .msg j
        | none => .noMsg

/-- Pairwise-distinct key list. -/
def distinctKeys : List String → Bool
  | [] => true
  | k :: t => !(t.contains k) && distinctKeys t

mutual

/-- A value is representable as a Python object tree: every object level has
pairwise-distinct keys (Python dicts cannot hold duplicates, so exactly
these trees arise from `json.loads` / the proxy's messages). -/
def noDupKeys : Json → Bool
  | .null => true
  | .bool _ => true
  | .int _ => true
  | .str _ => true
  | .arr xs => noDupKeysArr xs
  | .obj es => distinctKeys (es.map Prod.fst) && noDupKeysObj es

/-- `noDupKeys` over array elements. -/
def noDupKeysArr : List Json → Bool
  | [] => true
  | x :: xs => noDupKeys x && noDupKeysArr xs

/-- `noDupKeys` over object entry values. -/
def noDupKeysObj : List (String × Json) → Bool
  | [] => true
  | (_, v) :: t => noDupKeys v && noDupKeysObj t

end

/-! ## Spec-side auxiliary definitions used by theorem statements -/

/-- The concatenation, in configuration order, of the cached
`diagnostics[uri]` of exactly the servers whose `use_diagnostics` flag is
true (servers without a cached entry contribute nothing).  This phrases
claim C4's merge; the theorems relate it to `get_merged_diagnostics`. -/
def diagConcat : List Srv → Json → List Json
  | [], _ => []
  | s :: rest, uri =>
    (if s.use_diagnostics then
       match alGet Json.beq s.diagnostics uri with
       | some (.arr d) => d
       | _ => []
     else []) ++ diagConcat rest uri

/-- Every cached diagnostics entry of the server is a JSON array (true in
every reachable state: entries are only ever the `diagnostics` parameter of
a published notification). -/
def diagsWF (s : Srv) : Bool :=
  s.diagnostics.all (fun kv => match kv.2 with | .arr _ => true | _ => false)

/-- The owner-selection a single-owner client request is routed by, per
method name (other methods have no single owner). -/
def singleOwnerTarget (p : ProxyState) (m : String) : Option (Option Nat) :=
  if m = "textDocument/formatting" || m = "textDocument/rangeFormatting" then
    get_formatting_server p
  else if m = "textDocument/completion" || m = "completionItem/resolve" then
    get_completion_server p
  else if m = "textDocument/signatureHelp" then get_signature_server p
  else some none

/-- The five single-owner request methods routed from the client. -/
def singleOwnerMethods : List String :=
  ["textDocument/formatting", "textDocument/rangeFormatting",
   "textDocument/completion", "completionItem/resolve",
   "textDocument/signatureHelp"]

/-- Well-formedness of one capability object for the initialize-response
synthesis: the object shape plus array-shaped (and hashable)
`codeActionKinds` / `commands` wherever the source would read them, so that
`get_initialization_options` cannot raise. -/
def capEntryOk (c : Json) : Bool :=
  (match safe_get c "codeActionProvider" with
   | some pv =>
     !pv.truthy ||
       (match pv with
        | .obj es =>
          !(alContains strBeq es "codeActionKinds") ||
            (match alGet strBeq es "codeActionKinds" with
             | some (.arr ks) => ks.all jsonHashable
             | _ => false)
        | _ => true)
   | none => true)
  &&
  (match safe_get c "executeCommandProvider" with
   | some pv =>
     !pv.truthy ||
       (match pv with
        | .obj es =>
          !(alContains strBeq es "commands") ||
            (match alGet strBeq es "commands" with
             | some (.arr cs) => cs.all jsonHashable
             | _ => false)
        | _ => false)
   | none => true)

/-- A capability value that is an object and satisfies `capEntryOk`. -/
def capsOk (c : Json) : Bool :=
  match c with
  | .obj _ => capEntryOk c
  | _ => false

/-- Shape of a server's cached initialize message sufficient for the
initialize-response synthesis to succeed. -/
def srvInitWF (s : Srv) : Bool :=
  match s.initialize_msg with
  | some m =>
    m.truthy &&
      (match pyIndex m "result" with
       | some r =>
         (match pyIndex r "capabilities" with
          | some c => capsOk c
          | none => false)
       | none => false)
  | none => false

/-- Shape of one server's initialize (or shutdown) response in the C9
aggregation scenario: a truthy object carrying the request id and a
`result` whose `capabilities` is a well-formed object. -/
def respWF (iden : Json) (m : Json) : Bool :=
  m.truthy && jsonHasKey m "result" && optBeq (safe_get m "id") (some iden) &&
    (match pyIndex m "result" with
     | some r =>
       (match pyIndex r "capabilities" with
        | some c => capsOk c
        | none => false)
     | none => false)

/-- Index of the first list element satisfying `q`, the reference
formulation the owner-selection claim is stated against. -/
def firstIdxSat (q : Srv → Bool) : List Srv → Option Nat
  | [] => none
  | s :: rest => if q s then some 0 else (firstIdxSat q rest).map (· + 1)

/-- The `capabilities` object inside a server's cached initialize response
(the value `get_initialization_options`'s loop reads). -/
def srvCapsVal (s : Srv) : Option Json :=
  match s.initialize_msg with
  | some m => (pyIndex m "result").bind (fun r => pyIndex r "capabilities")
  | none => none

/-- The `codeActionKinds` a server contributes to the merged
`codeActionProvider`: present only for a truthy dict-shaped provider that
lists them (claim C3's "all servers' codeActionKinds"). -/
def srvKinds (s : Srv) : List Json :=
  match srvCapsVal s with
  | some c =>
    match safe_get c "codeActionProvider" with
    | some pv =>
      if pv.truthy then
        match pv with
        | .obj es =>
          match alGet strBeq es "codeActionKinds" with
          | some (.arr ks) => ks
          | _ => []
        | _ => []
      else []
    | none => []
  | none => []

/-- Whether a server advertises code-action support (truthy
`codeActionProvider` of any shape). -/
def srvAdvertisesCA (s : Srv) : Bool :=
  match srvCapsVal s with
  | some c => optTruthy (safe_get c "codeActionProvider")
  | none => false

/-- The `commands` a server contributes to the merged
`executeCommandProvider`. -/
def srvCmds (s : Srv) : List Json :=
  match srvCapsVal s with
  | some c =>
    match safe_get c "executeCommandProvider" with
    | some pv =>
      if pv.truthy then
        match pv with
        | .obj es =>
          match alGet strBeq es "commands" with
          | some (.arr cs) => cs
          | _ => []
        | _ => []
      else []
    | none => []
  | none => []

/-- Union (concatenation before deduplication) of all servers'
codeActionKinds, in configuration order. -/
def allKinds : List Srv → List Json
  | [] => []
  | s :: rest => srvKinds s ++ allKinds rest

/-- Union of all servers' commands, in configuration order. -/
def allCmds : List Srv → List Json
  | [] => []
  | s :: rest => srvCmds s ++ allCmds rest

/-- Whether any server advertises code-action support. -/
def anyCodeAction (servers : List Srv) : Bool := servers.any srvAdvertisesCA

/-- The formatting owner's two formatting capability values, when a
formatting owner exists. -/
def ownerFmtPair (p : ProxyState) : Option (Option Json × Option Json) :=
  match get_formatting_server p with
  | some (some fi) => (p.servers[fi]?).map get_formatting_capabilities
  | _ => none

/-- The completion owner's `completionProvider`, when an owner exists. -/
def ownerCompletionVal (p : ProxyState) : Option (Option Json) :=
  match get_completion_server p with
  | some (some ci) => (p.servers[ci]?).map get_completion_capability
  | _ => none

/-- The signature owner's `signatureHelpProvider`, when an owner exists. -/
def ownerSignatureVal (p : ProxyState) : Option (Option Json) :=
  match get_signature_server p with
  | some (some si) => (p.servers[si]?).map get_signature_capability
  | _ => none

/-- Claim C3's description of each capability field of the synthesized
initialize response: the four owner-backed fields overwritten from the
respective owner when one exists, `codeActionProvider` /
`executeCommandProvider` rebuilt as deduplicated unions when advertised,
and every other field exactly as the primary declared it (`caps` is the
primary's capability object). -/
def c3ExpectedLookup (p : ProxyState) (caps : List (String × Json)) (k : String) :
    Option Json :=
  if k = "documentFormattingProvider" then
    match ownerFmtPair p with
    | some pr => some (jsonOfOpt pr.1)
    | none => alGet strBeq caps k
  else if k = "documentRangeFormattingProvider" then
    match ownerFmtPair p with
    | some pr => some (jsonOfOpt pr.2)
    | none => alGet strBeq caps k
  else if k = "completionProvider" then
    match ownerCompletionVal p with
    | some v => some (jsonOfOpt v)
    | none => alGet strBeq caps k
  else if k = "signatureHelpProvider" then
    match ownerSignatureVal p with
    | some v => some (jsonOfOpt v)
    | none => alGet strBeq caps k
  else if k = "codeActionProvider" then
    if anyCodeAction p.servers then
      some (.obj [("codeActionKinds", .arr (dedupAux [] (allKinds p.servers)))])
    else alGet strBeq caps k
  else if k = "executeCommandProvider" then
    if (allCmds p.servers).length > 0 then
      some (.obj [("commands", .arr (dedupAux [] (allCmds p.servers)))])
    else alGet strBeq caps k
  else alGet strBeq caps k

/-! ## Concrete instances used by counterexamples and witnesses -/

/-- Primary server `A`: formatting-capable, configured as formatting owner. -/
def cxSrvA : Srv :=
  { is_primary := true, use_formatting := true,
    initialize_msg := some (.obj [("id", .int 1),
      ("result", .obj [("capabilities",
        .obj [("documentFormattingProvider", .bool true), ("hoverProvider", .bool true)])])]) }

/-- Non-primary server `B`: no formatting capability. -/
def cxSrvB : Srv :=
  { initialize_msg := some (.obj [("id", .int 1),
      ("result", .obj [("capabilities", .obj [])])]) }

/-- Two-server proxy with `A` primary and `B` secondary. -/
def cxP1 : ProxyState := { servers := [cxSrvA, cxSrvB] }

/-- A client `textDocument/formatting` request with id 7. -/
def cxFmtReq : Json :=
  .obj [("jsonrpc", .str "2.0"), ("id", .int 7),
        ("method", .str "textDocument/formatting"), ("params", .obj [])]

/-- Code-action-capable primary `A` for the C2 scenario. -/
def cxSrvA2 : Srv :=
  { is_primary := true,
    initialize_msg := some (.obj [("id", .int 1),
      ("result", .obj [("capabilities", .obj [("codeActionProvider", .bool true)])])]) }

/-- Non-code-action-capable secondary `B` for the C2 scenario. -/
def cxSrvB2 : Srv :=
  { initialize_msg := some (.obj [("id", .int 1),
      ("result", .obj [("capabilities", .obj [])])]) }

/-- Two-server proxy for the C2 scenario. -/
def cxP2 : ProxyState := { servers := [cxSrvA2, cxSrvB2] }

/-- The client `textDocument/codeAction` request with id 8. -/
def cxCaReq : Json :=
  .obj [("id", .int 8), ("method", .str "textDocument/codeAction"), ("params", .obj [])]

/-- Server `A`'s code-action response with one action. -/
def cxCaResp : Json := .obj [("id", .int 8), ("result", .arr [.str "actA"])]

/-- The proxy state after fanning `cxCaReq` out over `cxP2` (computed by
`dispatchFromClient`; kept as a definition so the C2 theorem can evaluate
the follow-up response against it). -/
def cxP2AfterFanout : ProxyState :=
  match dispatchFromClient cxP2 cxCaReq with
  | some (p, _, _) => p
  | none => cxP2

/-- C5 scenario: primary `A` already initialized, `B` not; the proxy is
waiting on initialize id 5. -/
def cxP5 : ProxyState :=
  { servers :=
      [{ cxSrvA with initialize_msg := some (.obj [("id", .int 5),
           ("result", .obj [("capabilities",
             .obj [("documentFormattingProvider", .bool true)])])]) },
       { cxSrvB with initialize_msg := none }],
    initialize_id := some (.int 5) }

/-- A stray from-server message with no method, carrying a `result` and the
outstanding initialize id, with id 5 in no pending table. -/
def cxStray : Json :=
  .obj [("id", .int 5), ("result", .obj [("capabilities", .obj [("xProvider", .bool true)])])]

/-- The spec's S3 scenario message: a request from non-primary `B` whose
method is not preserved. -/
def cxS3 : Json :=
  .obj [("id", .int 99), ("method", .str "window/workDoneProgress/create"),
        ("params", .obj [])]

/-- A single primary server awaiting an initialize response for id 1. -/
def cxSrvE : Srv :=
  { is_primary := true, pending_client_server_requests := [(.int 1, .str "initialize")] }

/-- Proxy waiting on initialize id 1 from `cxSrvE`. -/
def cxPE : ProxyState := { servers := [cxSrvE], initialize_id := some (.int 1) }

/-- An error-only response to the initialize request. -/
def cxErrResp : Json :=
  .obj [("id", .int 1),
        ("error", .obj [("code", .int (-32603)), ("message", .str "boom")])]

/-- Server `A` with diagnostics already cached for `file:///x` (spec S2). -/
def cxDiagA : Srv :=
  { is_primary := true, diagnostics := [(.str "file:///x", .arr [.str "m1"])] }

/-- Server `B` with no cached diagnostics. -/
def cxDiagB : Srv := {}

/-- Two-server proxy for the diagnostics-merge scenario. -/
def cxPD : ProxyState := { servers := [cxDiagA, cxDiagB] }

/-- Server `B`'s publish for `file:///x` (spec S2's second notification). -/
def cxPub : Json :=
  .obj [("method", .str "textDocument/publishDiagnostics"),
        ("params", .obj [("uri", .str "file:///x"), ("diagnostics", .arr [.str "m2"])])]

/-- A server after its initialize answer is recorded by `process`: the pending
entry is consumed and the response cached. -/
def srvAfterInit (s : Srv) (m : Json) : Srv :=
  { s with pending_client_server_requests := [], initialize_msg := some m }

/-- A server after its shutdown answer is recorded by `process`. -/
def srvAfterShut (s : Srv) : Srv :=
  { s with pending_client_server_requests := [], shutdown_received := true }

/-- Primary server awaiting its initialize answer (request id 9). -/
def cxSrvI : Srv :=
  { is_primary := true,
    pending_client_server_requests := [(.int 9, .str "initialize")] }

/-- Secondary server awaiting its initialize answer. -/
def cxSrvI2 : Srv :=
  { pending_client_server_requests := [(.int 9, .str "initialize")] }

/-- Two-server state awaiting both initialize answers. -/
def cxP9I : ProxyState :=
  { servers := [cxSrvI, cxSrvI2], initialize_id := some (.int 9) }

/-- The initialize answer each server returns in the C9 scenario. -/
def cxRespI : Json :=
  .obj [("id", .int 9), ("result", .obj [("capabilities", .obj [])])]

/-- Primary server awaiting its shutdown answer (request id 10). -/
def cxSrvS : Srv :=
  { is_primary := true,
    pending_client_server_requests := [(.int 10, .str "shutdown")] }

/-- Secondary server awaiting its shutdown answer. -/
def cxSrvS2 : Srv :=
  { pending_client_server_requests := [(.int 10, .str "shutdown")] }

/-- Two-server state awaiting both shutdown answers. -/
def cxP9S : ProxyState :=
  { servers := [cxSrvS, cxSrvS2], shutdown_id := some (.int 10) }

/-- The shutdown answer each server returns in the C9 scenario. -/
def cxRespS : Json := .obj [("id", .int 10), ("result", .null)]

/-- Head condition on what may follow an integer render. -/
def numSep : List Char → Prop
  | [] => True
  | c :: _ => isDigitC c = false ∧ c ≠ '.' ∧ c ≠ 'e' ∧ c ≠ 'E'

/-- A concrete JSON-RPC response used to witness the framing round trip. -/
def cxMsg : Json :=
  .obj [("jsonrpc", .str "2.0"), ("id", .int 1),
        ("result", .obj [("capabilities", .obj [("hoverProvider", .bool true)])])]

/-! ## Theorems -/

mutual

theorem Json.beq_refl : ∀ j : Json, Json.beq j j = true
  | .null => rfl
  | .bool b => by simp [Json.beq]
  | .int n => by simp [Json.beq]
  | .str s => by simp [Json.beq]
  | .arr xs => by simpa [Json.beq] using Json.beqArr_refl xs
  | .obj es => by simpa [Json.beq] using Json.beqObj_refl es

theorem Json.beqArr_refl : ∀ l : List Json, Json.beqArr l l = true
  | [] => rfl
  | x :: xs => by
      simp only [Json.beqArr, Bool.and_eq_true]
      exact ⟨Json.beq_refl x, Json.beqArr_refl xs⟩

theorem Json.beqObj_refl : ∀ l : List (String × Json), Json.beqObj l l = true
  | [] => rfl
  | (k, v) :: t => by
      simp only [Json.beqObj, Bool.and_eq_true]
      exact ⟨⟨by simp, Json.beq_refl v⟩, Json.beqObj_refl t⟩

end

theorem optBeq_refl (o : Option Json) : optBeq o o = true := by
  cases o with
  | none => rfl
  | some j => simpa [optBeq] using Json.beq_refl j

theorem gsgAux_pure (cfg cap : Srv → Bool) :
    ∀ (l : List Srv) (i : Nat) (ff : Option Nat),
      gsgAux cfg (fun s => some (cap s)) i ff l =
        some (match firstIdxSat (fun s => cfg s && cap s) l with
              | some k => some (i + k)
              | none =>
                match ff with
                | some j => some j
                | none => (firstIdxSat cap l).map (i + ·)) := by
  intro l
  induction l with
  | nil =>
    intro i ff
    cases ff <;> simp [gsgAux, firstIdxSat]
  | cons s rest ih =>
    intro i ff
    by_cases hc : cfg s
    · by_cases hp : cap s
      · cases ff <;> simp [gsgAux, firstIdxSat, hc, hp]
      · cases ff with
        | none =>
          simp only [gsgAux, hc, hp, if_true, if_false, ih]
          simp only [firstIdxSat, hc, hp, Bool.and_false, if_false]
          cases hrest : firstIdxSat (fun s => cfg s && cap s) rest <;>
            cases hcap : firstIdxSat cap rest <;>
              simp [hrest, hcap, Nat.add_assoc, Nat.add_comm 1]
        | some j =>
          simp only [gsgAux, hc, hp, if_true, if_false, ih]
          simp only [firstIdxSat, hc, hp, Bool.and_false, if_false]
          cases hrest : firstIdxSat (fun s => cfg s && cap s) rest <;>
            simp [hrest, Nat.add_assoc, Nat.add_comm 1]
    · by_cases hp : cap s
      · cases ff with
        | none =>
          simp only [gsgAux, hc, hp, if_false, ih]
          simp only [firstIdxSat, hc, hp, Bool.false_and, if_false]
          cases hrest : firstIdxSat (fun s => cfg s && cap s) rest <;>
            simp [hrest, Nat.add_assoc, Nat.add_comm 1]
        | some j =>
          simp only [gsgAux, hc, hp, if_false, ih]
          simp only [firstIdxSat, hc, hp, Bool.false_and, if_false]
          cases hrest : firstIdxSat (fun s => cfg s && cap s) rest <;>
            simp [hrest, Nat.add_assoc, Nat.add_comm 1]
      · cases ff with
        | none =>
          simp only [gsgAux, hc, hp, if_false, ih]
          simp only [firstIdxSat, hc, hp, Bool.false_and, if_false]
          cases hrest : firstIdxSat (fun s => cfg s && cap s) rest <;>
            cases hcap : firstIdxSat cap rest <;>
              simp [hrest, hcap, Nat.add_assoc, Nat.add_comm 1]
        | some j =>
          simp only [gsgAux, hc, hp, if_false, ih]
          simp only [firstIdxSat, hc, hp, Bool.false_and, if_false]
          cases hrest : firstIdxSat (fun s => cfg s && cap s) rest <;>
            simp [hrest, Nat.add_assoc, Nat.add_comm 1]

/-- C6: for every list of servers, every preference flag and every
capability predicate, `get_server_generic` selects the first server (in
configuration order) satisfying both the flag and the capability; failing
that, the first server satisfying the capability alone; failing that, no
server.  (With pure conditions the exception monad is inert, hence the
outer `some`.) -/
theorem C6_owner_selection (cfg cap : Srv → Bool) (servers : List Srv) :
    get_server_generic cfg (fun s => some (cap s)) servers =
      some (match firstIdxSat (fun s => cfg s && cap s) servers with
            | some k => some k
            | none => firstIdxSat cap servers) := by
  rw [get_server_generic, gsgAux_pure]
  cases h1 : firstIdxSat (fun s => cfg s && cap s) servers <;>
    cases h2 : firstIdxSat cap servers <;> simp [h1, h2]

theorem map_set_eq {α : Type} (f : Srv → α) :
    ∀ (l : List Srv) (i : Nat) (a a' : Srv), l[i]? = some a → f a' = f a →
      (l.set i a').map f = l.map f := by
  intro l
  induction l with
  | nil => intro i a a' h _; simp at h
  | cons x t ih =>
    intro i a a' h hf
    cases i with
    | zero =>
      simp only [List.getElem?_cons_zero, Option.some.injEq] at h
      subst h
      simp [List.set, hf]
    | succ k =>
      simp only [List.getElem?_cons_succ] at h
      simp [List.set, ih k a a' h hf]

theorem gsgAux_congr (cfg : Srv → Bool) (cond : Srv → Option Bool) :
    ∀ (l l' : List Srv),
      l.map (fun s => (cfg s, cond s)) = l'.map (fun s => (cfg s, cond s)) →
      ∀ (i : Nat) (ff : Option Nat), gsgAux cfg cond i ff l = gsgAux cfg cond i ff l' := by
  intro l
  induction l with
  | nil =>
    intro l' h i ff
    cases l' with
    | nil => rfl
    | cons y t => simp at h
  | cons x t ih =>
    intro l' h i ff
    cases l' with
    | nil => simp at h
    | cons y t' =>
      simp only [List.map_cons, List.cons.injEq, Prod.mk.injEq] at h
      obtain ⟨⟨hcfg, hcond⟩, htail⟩ := h
      simp only [gsgAux, hcfg, hcond, ih t' htail]

theorem get_server_generic_set (cfg : Srv → Bool) (cond : Srv → Option Bool)
    (l : List Srv) (i : Nat) (a a' : Srv) (h : l[i]? = some a)
    (hc : cfg a' = cfg a) (hd : cond a' = cond a) :
    get_server_generic cfg cond (l.set i a') = get_server_generic cfg cond l := by
  unfold get_server_generic
  apply gsgAux_congr
  exact map_set_eq (fun s => (cfg s, cond s)) l i a a' h (by simp [hc, hd])

theorem singleOwnerTarget_isSome (p : ProxyState) (m : String) :
    ∃ o, singleOwnerTarget p m = some o := by
  unfold singleOwnerTarget
  split
  · exact ⟨_, by rw [get_formatting_server, get_server_generic, gsgAux_pure]⟩
  · split
    · exact ⟨_, by rw [get_completion_server, get_server_generic, gsgAux_pure]⟩
    · split
      · exact ⟨_, by rw [get_signature_server, get_server_generic, gsgAux_pure]⟩
      · exact ⟨none, rfl⟩

theorem singleOwnerTarget_set_pcs (p : ProxyState) (i : Nat) (srv : Srv)
    (x : List (Json × Json)) (m : String) (h : p.servers[i]? = some srv) :
    singleOwnerTarget (setSrv p i { srv with pending_client_server_requests := x }) m =
      singleOwnerTarget p m := by
  unfold singleOwnerTarget setSrv
  have hf := get_server_generic_set (fun s => s.use_formatting)
    (fun s => some (fmt_condition s)) p.servers i srv
    { srv with pending_client_server_requests := x } h rfl rfl
  have hc := get_server_generic_set (fun s => s.use_completion)
    (fun s => some (optTruthy (get_completion_capability s))) p.servers i srv
    { srv with pending_client_server_requests := x } h rfl rfl
  have hs := get_server_generic_set (fun s => s.use_signature)
    (fun s => some (optTruthy (get_signature_capability s))) p.servers i srv
    { srv with pending_client_server_requests := x } h rfl rfl
  simp only [get_formatting_server, get_completion_server, get_signature_server]
  split <;> [skip; split] <;> [exact hf; skip; skip]
  · exact hc
  · split
    · exact hs
    · rfl

theorem json_truthy_str (s : String) : Json.truthy (.str s) = (s != "") := rfl

/-- C1 (corrected): the claim's "no pending entry for that id is created at
`s`" part is false on the code.  Dispatching the client's
`textDocument/formatting` request (id 7) to the non-owner server `B` writes
nothing to `B` (`sent = false`) yet records `7 ↦ textDocument/formatting`
in `B`'s pending client→server table, while the owner `A`'s table is the
one that would legitimately hold it. -/
theorem C1_counterexample :
    (process cxP1 1 cxFmtReq false preserved_from_client).map
        (fun r => (r.2.2, r.1.servers.map (fun s => s.pending_client_server_requests))) =
      some (false, [[], [(.int 7, .str "textDocument/formatting")]]) := by
  rfl

/-- C1 (amended): when the client sends a single-owner request (with truthy
id) to a server `s` that is not the selected owner — including when no
owner exists — the proxy does not write the request to `s`, but it still
creates the pending client→server entry `id ↦ method` at `s` before the
owner check; the rest of the proxy state is untouched. -/
theorem C1_amended (p : ProxyState) (i : Nat) (srv : Srv) (msg : Json) (iden : Json)
    (m : String)
    (hsrv : p.servers[i]? = some srv)
    (hm : m ∈ singleOwnerMethods)
    (hmethod : safe_get msg "method" = some (.str m))
    (hiden : safe_get msg "id" = some iden)
    (htruthy : iden.truthy = true)
    (hnothit : alContains Json.beq srv.pending_server_client_requests iden = false)
    (howner : singleOwnerTarget p m ≠ some (some i)) :
    process p i msg false preserved_from_client =
      some (setSrv p i { srv with
              pending_client_server_requests :=
                alSet Json.beq srv.pending_client_server_requests iden (.str m) },
            msg, false) := by
  obtain ⟨o, ho⟩ := singleOwnerTarget_isSome p m
  have hne : o ≠ some i := by
    intro he
    exact howner (by rw [ho, he])
  have hinv := singleOwnerTarget_set_pcs p i srv
    (alSet Json.beq srv.pending_client_server_requests iden (.str m)) m hsrv
  have htm : optTruthy (some iden) = true := htruthy
  fin_cases hm <;>
  · simp only [singleOwnerTarget] at ho hinv
    simp at ho hinv
    simp only [process, hsrv]
    rw [hmethod, hiden]
    simp [filter_msg, methodMem, hnothit, htruthy, optTruthy, isMethod, optBeq, Json.beq,
      hinv, ho, hne, json_truthy_str,
      preserved_from_client, preserved_requests,
      preserved_client_server_notifications]

theorem C1_amended_witness :
    (cxP1.servers[1]? = some cxSrvB
       ∧ "textDocument/formatting" ∈ singleOwnerMethods
       ∧ Json.truthy (.int 7) = true
       ∧ singleOwnerTarget cxP1 "textDocument/formatting" ≠ some (some 1))
    ∧ process cxP1 1 cxFmtReq false preserved_from_client =
        some (setSrv cxP1 1 { cxSrvB with
                pending_client_server_requests :=
                  alSet Json.beq cxSrvB.pending_client_server_requests (.int 7)
                    (.str "textDocument/formatting") },
              cxFmtReq, false) :=
  ⟨⟨rfl, by decide, rfl, by decide⟩,
   C1_amended cxP1 1 cxSrvB cxFmtReq (.int 7) "textDocument/formatting" rfl (by decide)
     rfl rfl rfl rfl (by decide)⟩

/-- C2 (code bug): `textDocument/codeAction` fan-in crashes whenever some
server is not code-action-capable.  Fanning id 8 out over `cxP2` writes the
request only to capable `A` (first component) and appends the id once; when
`A`'s response then arrives, the fan-in loop reads
`B.received_code_actions[8]`, which was never written, and the resulting
`KeyError` propagates out of `process` (second component), instead of the
claim's single merged response with cleared entries. -/
theorem C2_code_bug :
    (dispatchFromClient cxP2 cxCaReq).map
        (fun r => (r.2.2.map Option.isSome, r.1.code_action_ids)) =
      some ([true, false], [some (.int 8)])
    ∧ process cxP2AfterFanout 0 cxCaResp true preserved_from_server = none :=
  ⟨rfl, rfl⟩

theorem list_set_same : ∀ (l : List Srv) (i : Nat) (a : Srv), l[i]? = some a → l.set i a = l := by
  intro l
  induction l with
  | nil => intro i a h; simp at h
  | cons x t ih =>
    intro i a h
    cases i with
    | zero =>
      simp only [List.getElem?_cons_zero, Option.some.injEq] at h
      simp [List.set, h]
    | succ k =>
      simp only [List.getElem?_cons_succ] at h
      simp [List.set, ih k a h]

theorem setSrv_same (p : ProxyState) (i : Nat) (srv : Srv) (h : p.servers[i]? = some srv) :
    setSrv p i srv = p := by
  unfold setSrv
  rw [list_set_same p.servers i srv h]

theorem setSrv_initialize_id (p : ProxyState) (i : Nat) (s : Srv) :
    (setSrv p i s).initialize_id = p.initialize_id := rfl

theorem setSrv_shutdown_id (p : ProxyState) (i : Nat) (s : Srv) :
    (setSrv p i s).shutdown_id = p.shutdown_id := rfl

theorem setSrv_code_action_ids (p : ProxyState) (i : Nat) (s : Srv) :
    (setSrv p i s).code_action_ids = p.code_action_ids := rfl

theorem methodMem_false_isMethod (m : Option Json) (l : List String) (name : String)
    (hmem : methodMem m l = false) (hin : l.contains name = true) :
    isMethod m name = false := by
  cases m with
  | none => rfl
  | some j =>
    cases j with
    | str s =>
      simp only [methodMem] at hmem
      simp only [isMethod, optBeq, Json.beq]
      cases hs : s == name with
      | false => rfl
      | true =>
        have hsn : s = name := eq_of_beq hs
        rw [hsn, hin] at hmem
        exact Bool.noConfusion hmem
    | null => rfl
    | bool b => rfl
    | int n => rfl
    | arr xs => rfl
    | obj es => rfl

/-- C5 (corrected): the claim's "iff" is false on the code.  The non-primary
server `B`, two of two servers initialized pending none, sends a stray
message with no method and id 5 — a "request or notification" in the
claim's sense, whose method is in no preserved set — yet the proxy writes a
message to the client (`sent = true`): the message carries `result` and its
id equals `initialize_id`, so the aggregation branch overrides the filter's
decision. -/
theorem C5_counterexample :
    (process cxP5 1 cxStray true preserved_from_server).map (fun r => r.2.2) = some true
    ∧ safe_get cxStray "method" = none
    ∧ (cxP5.servers[1]?.map (fun s =>
        (s.is_primary, alContains Json.beq s.pending_client_server_requests (.int 5)))) =
      some (false, false) :=
  ⟨rfl, rfl, rfl⟩

/-- C5 (amended): a request or notification (id not in the selected pending
table) at a non-primary server whose method is in no preserved set, and
which does not carry a `result` matching an outstanding aggregation gate
(`initialize_id`, `shutdown_id`, or an outstanding code-action id), is
dropped: nothing is written to any peer, no id is recorded, and the proxy
state is completely unchanged.  (A gate-matching `result` can instead be
sent by the aggregation branch — the counterexample.) -/
theorem C5_amended (p : ProxyState) (i : Nat) (srv : Srv) (msg : Json) (from_server : Bool)
    (hsrv : p.servers[i]? = some srv)
    (hprim : srv.is_primary = false)
    (hmem : methodMem (safe_get msg "method")
        (if from_server then preserved_from_server else preserved_from_client) = false)
    (hnothit : (match safe_get msg "id" with
                | some j => alContains Json.beq
                    (if from_server then srv.pending_client_server_requests
                     else srv.pending_server_client_requests) j
                | none => false) = false)
    (hnogate : from_server = true → jsonHasKey msg "result" = true →
        optBeq (safe_get msg "id") p.initialize_id = false
        ∧ optBeq (safe_get msg "id") p.shutdown_id = false
        ∧ p.code_action_ids.any (fun x => optBeq x (safe_get msg "id")) = false) :
    process p i msg from_server
        (if from_server then preserved_from_server else preserved_from_client) =
      some (p, msg, false) := by
  have hset := setSrv_same p i srv hsrv
  cases from_server with
  | true =>
    simp only [eq_self_iff_true, if_true] at hmem hnothit ⊢
    have hfil : filter_msg (safe_get msg "method") srv.is_primary preserved_from_server
        = true := by
      simp [filter_msg, hprim, hmem]
    by_cases hres : jsonHasKey msg "result" = true
    · obtain ⟨h1, h2, h3⟩ := hnogate rfl hres
      cases hid : safe_get msg "id" with
      | none =>
        rw [hid] at h1 h2 h3
        simp [process, hsrv, hfil, hres, hid, h1, h2, h3, hset]
      | some j =>
        rw [hid] at hnothit h1 h2 h3
        simp only [] at hnothit
        simp [process, hsrv, hfil, hres, hid, hnothit, h1, h2, h3, hset,
          setSrv_initialize_id, setSrv_shutdown_id, setSrv_code_action_ids]
    · have hres' : jsonHasKey msg "result" = false := by
        cases hx : jsonHasKey msg "result" with
        | false => rfl
        | true => exact absurd hx hres
      cases hid : safe_get msg "id" with
      | none => simp [process, hsrv, hfil, hres', hid, hset]
      | some j =>
        rw [hid] at hnothit
        simp only [] at hnothit
        simp [process, hsrv, hfil, hres', hid, hnothit, hset,
          setSrv_initialize_id, setSrv_shutdown_id, setSrv_code_action_ids]
  | false =>
    simp only [Bool.false_eq_true, if_false] at hmem hnothit ⊢
    have hfil : filter_msg (safe_get msg "method") srv.is_primary preserved_from_client
        = true := by
      simp [filter_msg, hprim, hmem]
    have h01 := methodMem_false_isMethod _ _ "initialize" hmem (by decide)
    have h02 := methodMem_false_isMethod _ _ "workspace/didChangeConfiguration" hmem (by decide)
    have h03 := methodMem_false_isMethod _ _ "shutdown" hmem (by decide)
    have h04 := methodMem_false_isMethod _ _ "textDocument/formatting" hmem (by decide)
    have h05 := methodMem_false_isMethod _ _ "textDocument/rangeFormatting" hmem (by decide)
    have h06 := methodMem_false_isMethod _ _ "textDocument/completion" hmem (by decide)
    have h07 := methodMem_false_isMethod _ _ "completionItem/resolve" hmem (by decide)
    have h08 := methodMem_false_isMethod _ _ "textDocument/signatureHelp" hmem (by decide)
    have h09 := methodMem_false_isMethod _ _ "textDocument/codeAction" hmem (by decide)
    have h10 := methodMem_false_isMethod _ _ "workspace/executeCommand" hmem (by decide)
    cases hid : safe_get msg "id" with
    | none =>
      simp [process, hsrv, hfil, hid, h01, h02, h03, h04, h05, h06, h07, h08, h09, h10, hset]
    | some j =>
      rw [hid] at hnothit
      simp only [] at hnothit
      simp [process, hsrv, hfil, hid, hnothit,
        h01, h02, h03, h04, h05, h06, h07, h08, h09, h10, hset,
        setSrv_initialize_id, setSrv_shutdown_id, setSrv_code_action_ids]

theorem C5_amended_witness :
    ((cxP1.servers[1]?.map (fun s => s.is_primary)) = some false
       ∧ methodMem (safe_get cxS3 "method") preserved_from_server = false)
    ∧ process cxP1 1 cxS3 true preserved_from_server = some (cxP1, cxS3, false) :=
  ⟨⟨rfl, by decide⟩,
   C5_amended cxP1 1 cxSrvB cxS3 true rfl rfl (by decide) rfl
     (fun _ h => by simp [cxS3, jsonHasKey, alContains, alGet, strBeq] at h)⟩

/-- C10: the aggregation gates act only on server messages carrying a
`result` key.  A server response holding only an `error` member — even when
its id equals `initialize_id`, `shutdown_id` or an outstanding code-action
id — is forwarded to the client unchanged (via its pending entry, which is
consumed), and no aggregation state moves: `initialize_msg`,
`shutdown_received`, `received_code_actions` and the outstanding
code-action multiset are all exactly as before. -/
theorem C10_error_passthrough (p : ProxyState) (i : Nat) (srv : Srv) (msg iden m : Json)
    (hsrv : p.servers[i]? = some srv)
    (hnores : jsonHasKey msg "result" = false)
    (herr : jsonHasKey msg "error" = true)
    (hiden : safe_get msg "id" = some iden)
    (hpend : alGet Json.beq srv.pending_client_server_requests iden = some m)
    (hm : isMethod (some m) "textDocument/publishDiagnostics" = false)
    (hgate : optBeq (some iden) p.initialize_id = true
      ∨ optBeq (some iden) p.shutdown_id = true
      ∨ p.code_action_ids.any (fun x => optBeq x (some iden)) = true) :
    process p i msg true preserved_from_server =
      some (setSrv p i { srv with
              pending_client_server_requests :=
                alErase Json.beq srv.pending_client_server_requests iden },
            msg, true) := by
  have hcont : alContains Json.beq srv.pending_client_server_requests iden = true := by
    simp [alContains, hpend]
  simp [process, hsrv, hiden, hcont, hpend, hnores, hm]

theorem C10_error_passthrough_witness :
    (jsonHasKey cxErrResp "result" = false
       ∧ jsonHasKey cxErrResp "error" = true
       ∧ optBeq (some (.int 1)) cxPE.initialize_id = true)
    ∧ process cxPE 0 cxErrResp true preserved_from_server =
        some (setSrv cxPE 0 { cxSrvE with
                pending_client_server_requests :=
                  alErase Json.beq cxSrvE.pending_client_server_requests (.int 1) },
              cxErrResp, true) :=
  ⟨⟨rfl, rfl, rfl⟩,
   C10_error_passthrough cxPE 0 cxSrvE cxErrResp (.int 1) (.str "initialize")
     rfl rfl rfl rfl rfl rfl (Or.inl rfl)⟩

theorem alGet_of_all {κ : Type} (kb : κ → κ → Bool) (pred : Json → Bool) :
    ∀ (l : List (κ × Json)), l.all (fun kv => pred kv.2) = true →
      ∀ (k : κ) (v : Json), alGet kb l k = some v → pred v = true := by
  intro l
  induction l with
  | nil => intro _ k v h; simp [alGet] at h
  | cons kv t ih =>
    intro hall k v h
    simp only [List.all_cons, Bool.and_eq_true] at hall
    obtain ⟨kx, vx⟩ := kv
    simp only [alGet] at h
    by_cases hk : kb kx k = true
    · rw [if_pos hk] at h
      cases h
      exact hall.1
    · rw [if_neg hk] at h
      exact ih hall.2 k v h

theorem alSet_all {κ : Type} (kb : κ → κ → Bool) (pred : Json → Bool) :
    ∀ (l : List (κ × Json)) (k : κ) (v : Json), l.all (fun kv => pred kv.2) = true →
      pred v = true → (alSet kb l k v).all (fun kv => pred kv.2) = true := by
  intro l
  induction l with
  | nil => intro k v _ hv; simp [alSet, hv]
  | cons kv t ih =>
    intro k v hall hv
    simp only [List.all_cons, Bool.and_eq_true] at hall
    obtain ⟨kx, vx⟩ := kv
    simp only [alSet]
    by_cases hk : kb kx k = true
    · simp [hk, hv, hall.2]
    · simp only [if_neg hk, List.all_cons, Bool.and_eq_true]
      exact ⟨hall.1, ih k v hall.2 hv⟩

theorem mergeDiagsAux_eq_concat (uri : Json) :
    ∀ (servers : List Srv) (acc : List Json), (∀ s ∈ servers, diagsWF s = true) →
      mergeDiagsAux servers uri acc = some (acc ++ diagConcat servers uri) := by
  intro servers
  induction servers with
  | nil => intro acc _; simp [mergeDiagsAux, diagConcat]
  | cons s rest ih =>
    intro acc hwf
    have hs : diagsWF s = true := hwf s (by simp)
    have hrest : ∀ x ∈ rest, diagsWF x = true := fun x hx => hwf x (by simp [hx])
    by_cases hu : s.use_diagnostics = true
    · by_cases hc : alContains Json.beq s.diagnostics uri = true
      · have hget : (alGet Json.beq s.diagnostics uri).isSome = true := hc
        cases hv : alGet Json.beq s.diagnostics uri with
        | none => rw [hv] at hget; simp at hget
        | some v =>
          have hisarr := alGet_of_all Json.beq
            (fun x => match x with | .arr _ => true | _ => false)
            s.diagnostics hs uri v hv
          cases v with
          | arr d =>
            simp only [mergeDiagsAux, hu, hc, Bool.and_self, if_true, hv]
            rw [ih (acc ++ d) hrest]
            simp [diagConcat, hu, hv]
          | null => simp at hisarr
          | bool b => simp at hisarr
          | int n => simp at hisarr
          | str st => simp at hisarr
          | obj es => simp at hisarr
      · have hc' : alContains Json.beq s.diagnostics uri = false := by
          cases hx : alContains Json.beq s.diagnostics uri with
          | false => rfl
          | true => exact absurd hx hc
        have hg : alGet Json.beq s.diagnostics uri = none := by
          cases hx : alGet Json.beq s.diagnostics uri with
          | none => rfl
          | some v =>
            rw [alContains, hx] at hc'
            simp at hc'
        simp only [mergeDiagsAux, hu, hc', Bool.and_false, if_false]
        rw [ih acc hrest]
        simp [diagConcat, hu, hg]
    · have hu' : s.use_diagnostics = false := by
        cases hx : s.use_diagnostics with
        | false => rfl
        | true => exact absurd hx hu
      simp only [mergeDiagsAux, hu', Bool.false_and, if_false]
      rw [ih acc hrest]
      simp [diagConcat, hu']

/-- C4: whenever a `textDocument/publishDiagnostics` notification from any
server (its `use_diagnostics` flag immaterial) is forwarded to the client,
the sender's cache is first updated with its own published list, and the
forwarded message carries, for that URI, exactly the concatenation — in
server configuration order — of the cached `diagnostics[uri]` of the
servers whose `use_diagnostics` flag is true (`diagConcat` over the
post-update state). -/
theorem C4_diagnostics_merge (p : ProxyState) (i : Nat) (srv : Srv)
    (mes params : List (String × Json)) (uri : Json) (d : List Json)
    (hsrv : p.servers[i]? = some srv)
    (hmethod : safe_get (.obj mes) "method" = some (.str "textDocument/publishDiagnostics"))
    (hid : safe_get (.obj mes) "id" = none)
    (hnores : jsonHasKey (.obj mes) "result" = false)
    (hparams : alGet strBeq mes "params" = some (.obj params))
    (huri : alGet strBeq params "uri" = some uri)
    (hdl : alGet strBeq params "diagnostics" = some (.arr d))
    (hwf : ∀ s ∈ p.servers, diagsWF s = true) :
    process p i (.obj mes) true preserved_from_server =
      some (setSrv p i { srv with diagnostics := alSet Json.beq srv.diagnostics uri (.arr d) },
            .obj (alSet strBeq mes "params"
              (.obj (alSet strBeq params "diagnostics"
                (.arr (diagConcat
                  (p.servers.set i
                    { srv with diagnostics := alSet Json.beq srv.diagnostics uri (.arr d) })
                  uri))))),
            true) := by
  have hset := setSrv_same p i srv hsrv
  have hfil : filter_msg (some (.str "textDocument/publishDiagnostics")) srv.is_primary
      preserved_from_server = false := by
    cases h : srv.is_primary <;>
      simp [filter_msg, methodMem, preserved_from_server, preserved_requests,
        preserved_server_client_notifications]
  have hwf' : ∀ s ∈ p.servers.set i
      { srv with diagnostics := alSet Json.beq srv.diagnostics uri (.arr d) },
      diagsWF s = true := by
    intro s hsmem
    rcases List.mem_or_eq_of_mem_set hsmem with hold | hnew
    · exact hwf s hold
    · subst hnew
      exact alSet_all Json.beq (fun x => match x with | .arr _ => true | _ => false)
        srv.diagnostics uri (.arr d) (hwf srv (List.getElem?_mem hsrv)) rfl
  have hmerge := mergeDiagsAux_eq_concat uri
    (p.servers.set i { srv with diagnostics := alSet Json.beq srv.diagnostics uri (.arr d) })
    [] hwf'
  have hsrv2 : (p.servers.set i srv)[i]? = some srv := by
    rw [list_set_same p.servers i srv hsrv]
    exact hsrv
  simp only [process, hsrv, hmethod, hid, hfil, hnores]
  simp [hparams, huri, hdl, hset, hsrv2, get_merged_diagnostics, setSrv,
    hmerge, pyIndex, pySetItem, isMethod, optBeq, Json.beq, optTruthy, json_truthy_str]

theorem C4_diagnostics_merge_witness :
    ((∀ s ∈ cxPD.servers, diagsWF s = true)
       ∧ safe_get cxPub "method" = some (.str "textDocument/publishDiagnostics"))
    ∧ process cxPD 1 cxPub true preserved_from_server =
        some (setSrv cxPD 1 { cxDiagB with
                diagnostics := alSet Json.beq cxDiagB.diagnostics (.str "file:///x")
                  (.arr [.str "m2"]) },
              .obj (alSet strBeq [("method", .str "textDocument/publishDiagnostics"),
                  ("params", .obj [("uri", .str "file:///x"),
                                   ("diagnostics", .arr [.str "m2"])])] "params"
                (.obj (alSet strBeq [("uri", .str "file:///x"),
                                     ("diagnostics", .arr [.str "m2"])] "diagnostics"
                  (.arr (diagConcat
                    (cxPD.servers.set 1 { cxDiagB with
                      diagnostics := alSet Json.beq cxDiagB.diagnostics (.str "file:///x")
                        (.arr [.str "m2"]) })
                    (.str "file:///x")))))),
              true) :=
  ⟨⟨by decide, rfl⟩,
   C4_diagnostics_merge cxPD 1 cxDiagB
     [("method", .str "textDocument/publishDiagnostics"),
      ("params", .obj [("uri", .str "file:///x"), ("diagnostics", .arr [.str "m2"])])]
     [("uri", .str "file:///x"), ("diagnostics", .arr [.str "m2"])]
     (.str "file:///x") [.str "m2"]
     rfl rfl rfl rfl rfl rfl rfl (by decide)⟩

theorem pySetItem_obj (es : List (String × Json)) (k : String) (v : Json) :
    pySetItem (.obj es) k v = some (.obj (alSet strBeq es k v)) := rfl

theorem alGet_alSet_self (l : List (String × Json)) (k : String) (v : Json) :
    alGet strBeq (alSet strBeq l k v) k = some v := by
  induction l with
  | nil => simp [alSet, alGet, strBeq]
  | cons kv t ih =>
    obtain ⟨kx, vx⟩ := kv
    by_cases hk : strBeq kx k = true
    · simp [alSet, alGet, hk]
    · have hk' : strBeq kx k = false := by
        cases hx : strBeq kx k with
        | false => rfl
        | true => exact absurd hx hk
      simp [alSet, alGet, hk', ih]

theorem alGet_alSet_ne (l : List (String × Json)) (k : String) (v : Json) (k' : String)
    (h : k ≠ k') : alGet strBeq (alSet strBeq l k v) k' = alGet strBeq l k' := by
  have hkk : strBeq k k' = false := by
    simp [strBeq]
    exact h
  induction l with
  | nil => simp [alSet, alGet, hkk]
  | cons kv t ih =>
    obtain ⟨kx, vx⟩ := kv
    by_cases hk : strBeq kx k = true
    · have hxx : kx = k := eq_of_beq hk
      subst hxx
      simp [alSet, alGet, hk, hkk]
    · have hk' : strBeq kx k = false := by
        cases hx : strBeq kx k with
        | false => rfl
        | true => exact absurd hx hk
      simp only [alSet, hk', Bool.false_eq_true, if_false]
      by_cases hx2 : strBeq kx k' = true
      · simp [alGet, hx2]
      · have hx2' : strBeq kx k' = false := by
          cases hz : strBeq kx k' with
          | false => rfl
          | true => exact absurd hz hx2
        simp [alGet, hx2', ih]

theorem firstIdxSat_get (q : Srv → Bool) :
    ∀ (l : List Srv) (k : Nat), firstIdxSat q l = some k → ∃ s, l[k]? = some s := by
  intro l
  induction l with
  | nil => intro k h; simp [firstIdxSat] at h
  | cons x t ih =>
    intro k h
    simp only [firstIdxSat] at h
    by_cases hq : q x = true
    · rw [if_pos hq] at h
      cases h
      exact ⟨x, by simp⟩
    · rw [if_neg hq] at h
      cases hrest : firstIdxSat q t with
      | none => rw [hrest] at h; simp at h
      | some k0 =>
        rw [hrest] at h
        simp at h
        subst h
        obtain ⟨s, hs⟩ := ih k0 hrest
        exact ⟨s, by simpa using hs⟩

theorem gsg_pure_in_range (cfg cap : Srv → Bool) (l : List Srv) (fi : Nat)
    (h : get_server_generic cfg (fun s => some (cap s)) l = some (some fi)) :
    ∃ s, l[fi]? = some s := by
  rw [get_server_generic, gsgAux_pure] at h
  cases h1 : firstIdxSat (fun s => cfg s && cap s) l with
  | some k =>
    rw [h1] at h
    simp at h
    subst h
    exact firstIdxSat_get _ l _ h1
  | none =>
    rw [h1] at h
    simp at h
    cases h2 : firstIdxSat cap l with
    | none => rw [h2] at h; simp at h
    | some k =>
      rw [h2] at h
      simp at h
      subst h
      exact firstIdxSat_get _ l _ h2

theorem caStep_spec (s : Srv) (ce : List (String × Json))
    (hca : (match safe_get (.obj ce) "codeActionProvider" with
            | some pv =>
              !pv.truthy ||
                (match pv with
                 | .obj es =>
                   !(alContains strBeq es "codeActionKinds") ||
                     (match alGet strBeq es "codeActionKinds" with
                      | some (.arr ks) => ks.all jsonHashable
                      | _ => false)
                 | _ => true)
            | none => true) = true)
    (hsc : srvCapsVal s = some (.obj ce)) :
    ∃ s1, caStep s (.obj ce) = some (s1, srvKinds s, srvAdvertisesCA s)
      ∧ (srvKinds s).all jsonHashable = true := by
  unfold caStep srvKinds srvAdvertisesCA
  rw [hsc]
  cases hpv : safe_get (.obj ce) "codeActionProvider" with
  | none => refine ⟨s, ?_, ?_⟩ <;> simp [hpv, optTruthy]
  | some pv =>
    cases ht : pv.truthy with
    | false => refine ⟨s, ?_, ?_⟩ <;> simp [hpv, ht, optTruthy]
    | true =>
      cases pv with
      | null => simp [Json.truthy] at ht
      | bool b => refine ⟨s, ?_, ?_⟩ <;> simp [hpv, ht, optTruthy]
      | int n => refine ⟨s, ?_, ?_⟩ <;> simp [hpv, ht, optTruthy]
      | str st => refine ⟨s, ?_, ?_⟩ <;> simp [hpv, ht, optTruthy]
      | arr xs => refine ⟨s, ?_, ?_⟩ <;> simp [hpv, ht, optTruthy]
      | obj es =>
        cases hk : alContains strBeq es "codeActionKinds" with
        | false =>
          have hg : alGet strBeq es "codeActionKinds" = none := by
            cases hz : alGet strBeq es "codeActionKinds" with
            | none => rfl
            | some v => rw [alContains, hz] at hk; simp at hk
          refine ⟨s, ?_, ?_⟩ <;> simp [hpv, ht, hk, hg, optTruthy]
        | true =>
          cases hg : alGet strBeq es "codeActionKinds" with
          | none => rw [alContains, hg] at hk; simp at hk
          | some v =>
            simp only [hpv, ht, hk, hg, Bool.not_true, Bool.false_or] at hca
            cases v with
            | arr ks =>
              simp at hca
              refine ⟨{ s with supported_code_action_kinds := .arr ks }, ?_, ?_⟩
              · simp [hpv, ht, hk, hg, optTruthy]
              · simpa [hpv, ht, hk, hg] using hca
            | null => exact Bool.noConfusion hca
            | bool b2 => exact Bool.noConfusion hca
            | int n2 => exact Bool.noConfusion hca
            | str st2 => exact Bool.noConfusion hca
            | obj e3 => exact Bool.noConfusion hca

theorem cmdStep_spec (s1 : Srv) (s : Srv) (ce : List (String × Json))
    (hcmd : (match safe_get (.obj ce) "executeCommandProvider" with
             | some pv =>
               !pv.truthy ||
                 (match pv with
                  | .obj es =>
                    !(alContains strBeq es "commands") ||
                      (match alGet strBeq es "commands" with
                       | some (.arr cs) => cs.all jsonHashable
                       | _ => false)
                  | _ => false)
             | none => true) = true)
    (hsc : srvCapsVal s = some (.obj ce)) :
    ∃ s2, cmdStep s1 (.obj ce) = some (s2, srvCmds s)
      ∧ (srvCmds s).all jsonHashable = true := by
  unfold cmdStep srvCmds
  rw [hsc]
  cases hpv : safe_get (.obj ce) "executeCommandProvider" with
  | none => refine ⟨s1, ?_, ?_⟩ <;> simp [hpv]
  | some pv =>
    cases ht : pv.truthy with
    | false => refine ⟨s1, ?_, ?_⟩ <;> simp [hpv, ht]
    | true =>
      cases pv with
      | null => simp [Json.truthy] at ht
      | bool b =>
        simp only [hpv, ht, Bool.not_true, Bool.false_or] at hcmd
        exact Bool.noConfusion hcmd
      | int n =>
        simp only [hpv, ht, Bool.not_true, Bool.false_or] at hcmd
        exact Bool.noConfusion hcmd
      | str st =>
        simp only [hpv, ht, Bool.not_true, Bool.false_or] at hcmd
        exact Bool.noConfusion hcmd
      | arr xs =>
        simp only [hpv, ht, Bool.not_true, Bool.false_or] at hcmd
        exact Bool.noConfusion hcmd
      | obj es =>
        cases hk : alContains strBeq es "commands" with
        | false =>
          have hg : alGet strBeq es "commands" = none := by
            cases hz : alGet strBeq es "commands" with
            | none => rfl
            | some v => rw [alContains, hz] at hk; simp at hk
          refine ⟨s1, ?_, ?_⟩ <;> simp [hpv, ht, hk, hg]
        | true =>
          cases hg : alGet strBeq es "commands" with
          | none => rw [alContains, hg] at hk; simp at hk
          | some v =>
            simp only [hpv, ht, hk, hg, Bool.not_true, Bool.false_or] at hcmd
            cases v with
            | arr cs =>
              simp at hcmd
              refine ⟨{ s1 with supported_commands := .arr cs }, ?_, ?_⟩
              · simp [hpv, ht, hk, hg]
              · simpa [hpv, ht, hk, hg] using hcmd
            | null => exact Bool.noConfusion hcmd
            | bool b2 => exact Bool.noConfusion hcmd
            | int n2 => exact Bool.noConfusion hcmd
            | str st2 => exact Bool.noConfusion hcmd
            | obj e3 => exact Bool.noConfusion hcmd

theorem collectProvidersOne_spec (s : Srv) (h : srvInitWF s = true) :
    ∃ s2, collectProvidersOne s = some (s2, srvKinds s, srvCmds s, srvAdvertisesCA s)
      ∧ (srvKinds s).all jsonHashable = true ∧ (srvCmds s).all jsonHashable = true := by
  unfold srvInitWF at h
  cases hm : s.initialize_msg with
  | none => rw [hm] at h; exact Bool.noConfusion h
  | some m =>
    rw [hm] at h
    simp only [Bool.and_eq_true] at h
    obtain ⟨htru, h2⟩ := h
    cases hr : pyIndex m "result" with
    | none => simp [hr] at h2
    | some r =>
      simp only [hr] at h2
      cases hc : pyIndex r "capabilities" with
      | none => simp [hc] at h2
      | some c =>
        simp only [hc] at h2
        have hsc : srvCapsVal s = some c := by simp [srvCapsVal, hm, hr, hc]
        cases c with
        | obj ce =>
          simp only [capsOk, capEntryOk, Bool.and_eq_true] at h2
          obtain ⟨hca, hcmd⟩ := h2
          obtain ⟨s1, hstep1, hkh⟩ := caStep_spec s ce hca hsc
          obtain ⟨s2, hstep2, hch⟩ := cmdStep_spec s1 s ce hcmd hsc
          refine ⟨s2, ?_, hkh, hch⟩
          unfold collectProvidersOne
          simp only [hm, hr, hc, hstep1, hstep2]
        | null => exact Bool.noConfusion h2
        | bool b => exact Bool.noConfusion h2
        | int n => exact Bool.noConfusion h2
        | str st => exact Bool.noConfusion h2
        | arr xs => exact Bool.noConfusion h2

theorem collectProviders_spec :
    ∀ (servers : List Srv), (∀ s ∈ servers, srvInitWF s = true) →
      ∃ sv, collectProviders servers =
          some (sv, allKinds servers, allCmds servers, anyCodeAction servers)
        ∧ (allKinds servers).all jsonHashable = true
        ∧ (allCmds servers).all jsonHashable = true := by
  intro servers
  induction servers with
  | nil =>
    intro _
    exact ⟨[], rfl, rfl, rfl⟩
  | cons s rest ih =>
    intro hwf
    obtain ⟨s2, hone, hkh, hch⟩ := collectProvidersOne_spec s (hwf s (by simp))
    obtain ⟨sv, hrest, hkh2, hch2⟩ := ih (fun x hx => hwf x (by simp [hx]))
    refine ⟨s2 :: sv, ?_, ?_, ?_⟩
    · unfold collectProviders
      rw [hone, hrest]
      simp [allKinds, allCmds, anyCodeAction]
    · simp only [allKinds, List.all_append]
      rw [hkh, hkh2]
      rfl
    · simp only [allCmds, List.all_append]
      rw [hch, hch2]
      rfl

theorem pyIndex_obj (es : List (String × Json)) (k : String) :
    pyIndex (.obj es) k = alGet strBeq es k := rfl

/-- C3: under the shape assumptions that make the synthesis well-defined
(every server's cached initialize response carries an object-shaped
`result.capabilities` with list-shaped kind/command declarations), the
synthesized initialize response is the primary's response with
`result.serverInfo` set to `lsp-proxy`/`0.1`, the four owner-backed
capability fields overwritten from the respective owners when one exists,
`codeActionProvider` / `executeCommandProvider` rebuilt as deduplicated
unions when advertised, and every other field — of the message, of
`result`, and of `capabilities` — exactly as the primary declared it
(`c3ExpectedLookup` states the per-field expectation in the claim's
words). -/
theorem C3_initialize_synthesis (p : ProxyState) (prim : Srv)
    (pm res caps : List (String × Json))
    (hprim : get_primary p = some prim)
    (hpm : prim.initialize_msg = some (.obj pm))
    (hres : alGet strBeq pm "result" = some (.obj res))
    (hcaps : alGet strBeq res "capabilities" = some (.obj caps))
    (hwf : ∀ s ∈ p.servers, srvInitWF s = true) :
    ∃ sv ms resOut capsOut,
      get_initialization_options p = some (sv, ms)
      ∧ (∀ k, k ≠ "result" → pyIndex ms k = alGet strBeq pm k)
      ∧ pyIndex ms "result" = some (.obj resOut)
      ∧ alGet strBeq resOut "serverInfo" =
          some (.obj [("name", .str "lsp-proxy"), ("version", .str "0.1")])
      ∧ (∀ k, k ≠ "serverInfo" → k ≠ "capabilities" →
          alGet strBeq resOut k = alGet strBeq res k)
      ∧ alGet strBeq resOut "capabilities" = some (.obj capsOut)
      ∧ (∀ k, alGet strBeq capsOut k = c3ExpectedLookup p caps k) := by
  obtain ⟨sv1, hcol, hkh, hch⟩ := collectProviders_spec p.servers hwf
  obtain ⟨fo, hfo⟩ : ∃ o, get_formatting_server p = some o :=
    ⟨_, by rw [get_formatting_server, get_server_generic, gsgAux_pure]⟩
  obtain ⟨co, hco⟩ : ∃ o, get_completion_server p = some o :=
    ⟨_, by rw [get_completion_server, get_server_generic, gsgAux_pure]⟩
  obtain ⟨so, hso⟩ : ∃ o, get_signature_server p = some o :=
    ⟨_, by rw [get_signature_server, get_server_generic, gsgAux_pure]⟩
  have stepF : ∃ caps1 : List (String × Json),
      (match fo with
       | some fi =>
         match p.servers[fi]? with
         | none => none
         | some fs =>
           match pySetItem (.obj caps) "documentFormattingProvider"
               (jsonOfOpt (get_formatting_capabilities fs).1) with
           | none => none
           | some c1 => pySetItem c1 "documentRangeFormattingProvider"
               (jsonOfOpt (get_formatting_capabilities fs).2)
       | none => some (.obj caps)) = some (.obj caps1)
      ∧ (∀ k, k ≠ "documentFormattingProvider" → k ≠ "documentRangeFormattingProvider" →
          alGet strBeq caps1 k = alGet strBeq caps k)
      ∧ alGet strBeq caps1 "documentFormattingProvider" =
          (match ownerFmtPair p with
           | some pr => some (jsonOfOpt pr.1)
           | none => alGet strBeq caps "documentFormattingProvider")
      ∧ alGet strBeq caps1 "documentRangeFormattingProvider" =
          (match ownerFmtPair p with
           | some pr => some (jsonOfOpt pr.2)
           | none => alGet strBeq caps "documentRangeFormattingProvider") := by
    cases fo with
    | none =>
      refine ⟨caps, rfl, fun k h1 h2 => rfl, ?_, ?_⟩ <;> simp [ownerFmtPair, hfo]
    | some fi =>
      have hfo' : get_server_generic (fun s => s.use_formatting)
          (fun s => some (fmt_condition s)) p.servers = some (some fi) := hfo
      obtain ⟨fs, hfs⟩ := gsg_pure_in_range _ _ p.servers fi hfo'
      have hop : ownerFmtPair p = some (get_formatting_capabilities fs) := by
        simp [ownerFmtPair, hfo, hfs]
      refine ⟨alSet strBeq (alSet strBeq caps "documentFormattingProvider"
          (jsonOfOpt (get_formatting_capabilities fs).1)) "documentRangeFormattingProvider"
          (jsonOfOpt (get_formatting_capabilities fs).2), ?_, ?_, ?_, ?_⟩
      · simp [hfs, pySetItem_obj]
      · intro k h1 h2
        rw [alGet_alSet_ne _ _ _ _ (Ne.symm h2), alGet_alSet_ne _ _ _ _ (Ne.symm h1)]
      · rw [alGet_alSet_ne _ _ _ _ (by decide), alGet_alSet_self, hop]
      · rw [alGet_alSet_self, hop]
  obtain ⟨caps1, hF1, hFo, hFa, hFb⟩ := stepF
  have stepC : ∃ caps2 : List (String × Json),
      (match co with
       | some ci =>
         match p.servers[ci]? with
         | none => none
         | some cs =>
           pySetItem (.obj caps1) "completionProvider"
             (jsonOfOpt (get_completion_capability cs))
       | none => some (.obj caps1)) = some (.obj caps2)
      ∧ (∀ k, k ≠ "completionProvider" → alGet strBeq caps2 k = alGet strBeq caps1 k)
      ∧ alGet strBeq caps2 "completionProvider" =
          (match ownerCompletionVal p with
           | some v => some (jsonOfOpt v)
           | none => alGet strBeq caps1 "completionProvider") := by
    cases co with
    | none =>
      refine ⟨caps1, rfl, fun k h1 => rfl, ?_⟩
      simp [ownerCompletionVal, hco]
    | some ci =>
      have hco' : get_server_generic (fun s => s.use_completion)
          (fun s => some (optTruthy (get_completion_capability s))) p.servers
            = some (some ci) := hco
      obtain ⟨cs, hcs⟩ := gsg_pure_in_range _ _ p.servers ci hco'
      have hop : ownerCompletionVal p = some (get_completion_capability cs) := by
        simp [ownerCompletionVal, hco, hcs]
      refine ⟨alSet strBeq caps1 "completionProvider"
          (jsonOfOpt (get_completion_capability cs)), ?_, ?_, ?_⟩
      · simp [hcs, pySetItem_obj]
      · intro k h1
        rw [alGet_alSet_ne _ _ _ _ (Ne.symm h1)]
      · rw [alGet_alSet_self, hop]
  obtain ⟨caps2, hC1, hCo, hCa⟩ := stepC
  have stepS : ∃ caps3 : List (String × Json),
      (match so with
       | some si =>
         match p.servers[si]? with
         | none => none
         | some ss =>
           pySetItem (.obj caps2) "signatureHelpProvider"
             (jsonOfOpt (get_signature_capability ss))
       | none => some (.obj caps2)) = some (.obj caps3)
      ∧ (∀ k, k ≠ "signatureHelpProvider" → alGet strBeq caps3 k = alGet strBeq caps2 k)
      ∧ alGet strBeq caps3 "signatureHelpProvider" =
          (match ownerSignatureVal p with
           | some v => some (jsonOfOpt v)
           | none => alGet strBeq caps2 "signatureHelpProvider") := by
    cases so with
    | none =>
      refine ⟨caps2, rfl, fun k h1 => rfl, ?_⟩
      simp [ownerSignatureVal, hso]
    | some si =>
      have hso' : get_server_generic (fun s => s.use_signature)
          (fun s => some (optTruthy (get_signature_capability s))) p.servers
            = some (some si) := hso
      obtain ⟨ss, hss⟩ := gsg_pure_in_range _ _ p.servers si hso'
      have hop : ownerSignatureVal p = some (get_signature_capability ss) := by
        simp [ownerSignatureVal, hso, hss]
      refine ⟨alSet strBeq caps2 "signatureHelpProvider"
          (jsonOfOpt (get_signature_capability ss)), ?_, ?_, ?_⟩
      · simp [hss, pySetItem_obj]
      · intro k h1
        rw [alGet_alSet_ne _ _ _ _ (Ne.symm h1)]
      · rw [alGet_alSet_self, hop]
  obtain ⟨caps3, hS1, hSo, hSa⟩ := stepS
  have stepCA : ∃ caps4 : List (String × Json),
      (if anyCodeAction p.servers = true then
        match pySetList (allKinds p.servers) with
        | none => none
        | some ks =>
          pySetItem (.obj caps3) "codeActionProvider" (.obj [("codeActionKinds", .arr ks)])
       else some (.obj caps3)) = some (.obj caps4)
      ∧ (∀ k, k ≠ "codeActionProvider" → alGet strBeq caps4 k = alGet strBeq caps3 k)
      ∧ alGet strBeq caps4 "codeActionProvider" =
          (if anyCodeAction p.servers = true then
            some (.obj [("codeActionKinds", .arr (dedupAux [] (allKinds p.servers)))])
           else alGet strBeq caps3 "codeActionProvider") := by
    cases hany : anyCodeAction p.servers with
    | false =>
      refine ⟨caps3, by simp [hany], fun k h1 => rfl, by simp [hany]⟩
    | true =>
      have hsl : pySetList (allKinds p.servers) = some (dedupAux [] (allKinds p.servers)) := by
        simp [pySetList, hkh]
      refine ⟨alSet strBeq caps3 "codeActionProvider"
          (.obj [("codeActionKinds", .arr (dedupAux [] (allKinds p.servers)))]), ?_, ?_, ?_⟩
      · simp [hany, hsl, pySetItem_obj]
      · intro k h1
        rw [alGet_alSet_ne _ _ _ _ (Ne.symm h1)]
      · rw [alGet_alSet_self]
        simp [hany]
  obtain ⟨caps4, hA1, hAo, hAa⟩ := stepCA
  have stepCmd : ∃ caps5 : List (String × Json),
      (if (allCmds p.servers).length > 0 then
        match pySetList (allCmds p.servers) with
        | none => none
        | some cs =>
          pySetItem (.obj caps4) "executeCommandProvider" (.obj [("commands", .arr cs)])
       else some (.obj caps4)) = some (.obj caps5)
      ∧ (∀ k, k ≠ "executeCommandProvider" → alGet strBeq caps5 k = alGet strBeq caps4 k)
      ∧ alGet strBeq caps5 "executeCommandProvider" =
          (if (allCmds p.servers).length > 0 then
            some (.obj [("commands", .arr (dedupAux [] (allCmds p.servers)))])
           else alGet strBeq caps4 "executeCommandProvider") := by
    by_cases hlen : (allCmds p.servers).length > 0
    · have hsl : pySetList (allCmds p.servers) = some (dedupAux [] (allCmds p.servers)) := by
        simp [pySetList, hch]
      refine ⟨alSet strBeq caps4 "executeCommandProvider"
          (.obj [("commands", .arr (dedupAux [] (allCmds p.servers)))]), ?_, ?_, ?_⟩
      · simp [hlen, hsl, pySetItem_obj]
      · intro k h1
        rw [alGet_alSet_ne _ _ _ _ (Ne.symm h1)]
      · rw [alGet_alSet_self]
        simp [hlen]
    · refine ⟨caps4, by simp [hlen], fun k h1 => rfl, by simp [hlen]⟩
  obtain ⟨caps5, hM1, hMo, hMa⟩ := stepCmd
  have hcaps1get : alGet strBeq (alSet strBeq res "serverInfo"
      (.obj [("name", .str "lsp-proxy"), ("version", .str "0.1")])) "capabilities"
        = some (.obj caps) := by
    rw [alGet_alSet_ne _ _ _ _ (by decide)]
    exact hcaps
  have hmain : get_initialization_options p =
      some (sv1, .obj (alSet strBeq pm "result"
        (.obj (alSet strBeq (alSet strBeq res "serverInfo"
          (.obj [("name", .str "lsp-proxy"), ("version", .str "0.1")]))
          "capabilities" (.obj caps5))))) := by
    have e1 : pySetItem (.obj res) "serverInfo"
        (.obj [("name", .str "lsp-proxy"), ("version", .str "0.1")]) =
      some (.obj (alSet strBeq res "serverInfo"
        (.obj [("name", .str "lsp-proxy"), ("version", .str "0.1")]))) := rfl
    have e2 : pySetItem (.obj (alSet strBeq res "serverInfo"
        (.obj [("name", .str "lsp-proxy"), ("version", .str "0.1")])))
        "capabilities" (.obj caps5) =
      some (.obj (alSet strBeq (alSet strBeq res "serverInfo"
        (.obj [("name", .str "lsp-proxy"), ("version", .str "0.1")]))
        "capabilities" (.obj caps5))) := rfl
    have e3 : pySetItem (.obj pm) "result"
        (.obj (alSet strBeq (alSet strBeq res "serverInfo"
          (.obj [("name", .str "lsp-proxy"), ("version", .str "0.1")]))
          "capabilities" (.obj caps5))) =
      some (.obj (alSet strBeq pm "result"
        (.obj (alSet strBeq (alSet strBeq res "serverInfo"
          (.obj [("name", .str "lsp-proxy"), ("version", .str "0.1")]))
          "capabilities" (.obj caps5))))) := rfl
    unfold get_initialization_options
    simp only [hprim, hpm, pyIndex_obj, hres, e1, hcaps1get, hfo, hco, hso,
      hcol, hF1, hC1, hS1, hA1, hM1, e2, e3]
  refine ⟨sv1, _, alSet strBeq (alSet strBeq res "serverInfo"
      (.obj [("name", .str "lsp-proxy"), ("version", .str "0.1")]))
      "capabilities" (.obj caps5), caps5, hmain, ?_, ?_, ?_, ?_, ?_, ?_⟩
  · intro k h1
    rw [pyIndex_obj, alGet_alSet_ne _ _ _ _ (Ne.symm h1)]
  · rw [pyIndex_obj, alGet_alSet_self]
  · rw [alGet_alSet_ne _ _ _ _ (by decide), alGet_alSet_self]
  · intro k h1 h2
    rw [alGet_alSet_ne _ _ _ _ (Ne.symm h2), alGet_alSet_ne _ _ _ _ (Ne.symm h1)]
  · rw [alGet_alSet_self]
  · intro k
    unfold c3ExpectedLookup
    by_cases k1 : k = "documentFormattingProvider"
    · subst k1
      rw [hMo _ (by decide), hAo _ (by decide), hSo _ (by decide), hCo _ (by decide), hFa]
      simp
    · by_cases k2 : k = "documentRangeFormattingProvider"
      · subst k2
        rw [hMo _ (by decide), hAo _ (by decide), hSo _ (by decide), hCo _ (by decide), hFb]
        simp [k1]
      · by_cases k3 : k = "completionProvider"
        · subst k3
          rw [hMo _ (by decide), hAo _ (by decide), hSo _ (by decide), hCa]
          simp only [k1, k2, if_false, if_true, reduceIte]
          cases ownerCompletionVal p with
          | some v => rfl
          | none => exact hFo _ (by decide) (by decide)
        · by_cases k4 : k = "signatureHelpProvider"
          · subst k4
            rw [hMo _ (by decide), hAo _ (by decide), hSa]
            simp only [k1, k2, k3, if_false, if_true, reduceIte]
            cases ownerSignatureVal p with
            | some v => rfl
            | none =>
              rw [hCo _ (by decide)]
              exact hFo _ (by decide) (by decide)
          · by_cases k5 : k = "codeActionProvider"
            · subst k5
              rw [hMo _ (by decide), hAa]
              cases hany : anyCodeAction p.servers with
              | false =>
                simp only [hany, Bool.false_eq_true, if_false]
                rw [hSo _ (by decide), hCo _ (by decide), hFo _ (by decide) (by decide)]
                simp [k1, k2, k3, k4]
              | true =>
                simp [k1, k2, k3, k4, hany]
            · by_cases k6 : k = "executeCommandProvider"
              · subst k6
                rw [hMa]
                by_cases hlen : (allCmds p.servers).length > 0
                · simp [k1, k2, k3, k4, k5, hlen]
                · simp only [hlen, if_false]
                  rw [hAo _ (by decide), hSo _ (by decide), hCo _ (by decide),
                    hFo _ (by decide) (by decide)]
                  simp [k1, k2, k3, k4, k5, hlen]
              · rw [hMo _ k6, hAo _ k5, hSo _ k4, hCo _ k3, hFo _ k1 k2]
                simp [k1, k2, k3, k4, k5, k6]

/-- Closed witness for `C3_initialize_synthesis` at the two-server state
`cxP1`, discharging every hypothesis at the concrete primary `cxSrvA`. -/
theorem C3_initialize_synthesis_witness :
    ∃ sv ms resOut capsOut,
      get_initialization_options cxP1 = some (sv, ms)
      ∧ (∀ k, k ≠ "result" → pyIndex ms k =
          alGet strBeq [("id", .int 1), ("result", .obj [("capabilities",
            .obj [("documentFormattingProvider", .bool true),
                  ("hoverProvider", .bool true)])])] k)
      ∧ pyIndex ms "result" = some (.obj resOut)
      ∧ alGet strBeq resOut "serverInfo" =
          some (.obj [("name", .str "lsp-proxy"), ("version", .str "0.1")])
      ∧ (∀ k, k ≠ "serverInfo" → k ≠ "capabilities" →
          alGet strBeq resOut k =
            alGet strBeq [("capabilities",
              .obj [("documentFormattingProvider", .bool true),
                    ("hoverProvider", .bool true)])] k)
      ∧ alGet strBeq resOut "capabilities" = some (.obj capsOut)
      ∧ (∀ k, alGet strBeq capsOut k = c3ExpectedLookup cxP1
          [("documentFormattingProvider", .bool true),
           ("hoverProvider", .bool true)] k) :=
  C3_initialize_synthesis cxP1 cxSrvA
    [("id", .int 1), ("result", .obj [("capabilities",
      .obj [("documentFormattingProvider", .bool true),
            ("hoverProvider", .bool true)])])]
    [("capabilities", .obj [("documentFormattingProvider", .bool true),
      ("hoverProvider", .bool true)])]
    [("documentFormattingProvider", .bool true), ("hoverProvider", .bool true)]
    rfl rfl rfl rfl
    (by
      intro s hs
      simp only [cxP1, List.mem_cons, List.not_mem_nil, or_false] at hs
      rcases hs with h | h <;> subst h <;> rfl)

/-- Setting the same index twice keeps only the second write. -/
theorem setSrv_setSrv (p : ProxyState) (i : Nat) (a b : Srv) :
    setSrv (setSrv p i a) i b = setSrv p i b := by
  unfold setSrv
  simp [List.set_set]

theorem listGetSet_self {α : Type} : ∀ (l : List α) (i : Nat) (a : α),
    i < l.length → (l.set i a)[i]? = some a := by
  intro l
  induction l with
  | nil => intro i a h; simp at h
  | cons x t ih =>
    intro i a h
    cases i with
    | zero => simp [List.set]
    | succ j =>
      simp only [List.set, List.getElem?_cons_succ]
      exact ih j a (Nat.lt_of_succ_lt_succ h)

theorem listGetSet_other {α : Type} : ∀ (l : List α) (i j : Nat) (a : α),
    i ≠ j → (l.set i a)[j]? = l[j]? := by
  intro l
  induction l with
  | nil => intro i j a _; simp
  | cons x t ih =>
    intro i j a hne
    cases i with
    | zero =>
      cases j with
      | zero => exact absurd rfl hne
      | succ j2 => simp [List.set]
    | succ i2 =>
      cases j with
      | zero => simp [List.set]
      | succ j2 =>
        simp only [List.set, List.getElem?_cons_succ]
        exact ih i2 j2 a (fun h => hne (by rw [h]))

theorem listGet_lt {α : Type} : ∀ (l : List α) (i : Nat) (a : α),
    l[i]? = some a → i < l.length := by
  intro l
  induction l with
  | nil => intro i a h; simp at h
  | cons x t ih =>
    intro i a h
    cases i with
    | zero => exact Nat.succ_pos _
    | succ j => exact Nat.succ_lt_succ (ih j a (by simpa using h))

/-- `srvInitWF` depends only on the cached initialize message, which a
well-formed response supplies. -/
theorem srvInitWF_of_respWF (iden m : Json) (s : Srv)
    (hm : s.initialize_msg = some m) (hwf : respWF iden m = true) :
    srvInitWF s = true := by
  simp only [srvInitWF, hm]
  rw [respWF] at hwf
  simp only [Bool.and_eq_true] at hwf
  obtain ⟨⟨⟨h1, _⟩, _⟩, h4⟩ := hwf
  rw [h1, Bool.true_and]
  exact h4

/-- A well-formed response is truthy. -/
theorem respWF_truthy (iden m : Json) (hwf : respWF iden m = true) :
    m.truthy = true := by
  rw [respWF] at hwf
  simp only [Bool.and_eq_true] at hwf
  exact hwf.1.1.1

/-- The primary server exists and belongs to the configuration whenever any
server is configured. -/
theorem get_primary_mem (p : ProxyState) (hne : p.servers ≠ []) :
    ∃ prim, get_primary p = some prim ∧ prim ∈ p.servers := by
  cases hs : p.servers with
  | nil => exact absurd hs hne
  | cons s0 t =>
    rw [get_primary, hs]
    cases hf : (s0 :: t).find? (fun s => s.is_primary) with
    | none =>
      exact ⟨s0, by simp [hf], List.mem_cons_self s0 t⟩
    | some pr =>
      exact ⟨pr, by simp [hf], List.mem_of_find?_eq_some hf⟩

/-- `get_initialization_options` succeeds on any nonempty configuration whose
cached initialize responses are all well-shaped. -/
theorem gio_succeeds (p : ProxyState) (hne : p.servers ≠ [])
    (hwf : ∀ s ∈ p.servers, srvInitWF s = true) :
    ∃ sv m, get_initialization_options p = some (sv, m) := by
  obtain ⟨prim, hprim, hmem⟩ := get_primary_mem p hne
  have hwfp := hwf prim hmem
  rw [srvInitWF] at hwfp
  cases hpm : prim.initialize_msg with
  | none => rw [hpm] at hwfp; simp at hwfp
  | some m0 =>
    rw [hpm] at hwfp
    simp only [Bool.and_eq_true] at hwfp
    obtain ⟨htr, hshape⟩ := hwfp
    cases hr : pyIndex m0 "result" with
    | none =>
      simp only [hr] at hshape
      exact absurd hshape (by decide)
    | some r =>
      simp only [hr] at hshape
      cases hc : pyIndex r "capabilities" with
      | none =>
        simp only [hc] at hshape
        exact absurd hshape (by decide)
      | some c =>
        simp only [hc] at hshape
        obtain ⟨pm, hpm2⟩ : ∃ pm, m0 = .obj pm := by
          cases m0 <;> first | exact ⟨_, rfl⟩ | simp [pyIndex] at hr
        obtain ⟨res, hres2⟩ : ∃ res, r = .obj res := by
          cases r <;> first | exact ⟨_, rfl⟩ | simp [pyIndex] at hc
        obtain ⟨ces, hces2⟩ : ∃ ces, c = .obj ces := by
          cases c <;> first | exact ⟨_, rfl⟩ | simp [capsOk] at hshape
        subst hpm2 hres2 hces2
        obtain ⟨fo, hfo⟩ : ∃ o, get_formatting_server p = some o :=
          ⟨_, by rw [get_formatting_server, get_server_generic, gsgAux_pure]⟩
        obtain ⟨co, hco⟩ : ∃ o, get_completion_server p = some o :=
          ⟨_, by rw [get_completion_server, get_server_generic, gsgAux_pure]⟩
        obtain ⟨so, hso⟩ : ∃ o, get_signature_server p = some o :=
          ⟨_, by rw [get_signature_server, get_server_generic, gsgAux_pure]⟩
        obtain ⟨sv1, hcol, hkh, hch⟩ := collectProviders_spec p.servers hwf
        have hr' : alGet strBeq pm "result" = some (.obj res) := hr
        have hc' : alGet strBeq res "capabilities" = some (.obj ces) := hc
        have hcaps1get : alGet strBeq (alSet strBeq res "serverInfo"
            (.obj [("name", .str "lsp-proxy"), ("version", .str "0.1")])) "capabilities"
            = some (.obj ces) := by
          rw [alGet_alSet_ne _ _ _ _ (by decide)]
          exact hc'
        have stepF : ∃ caps1 : List (String × Json),
            (match fo with
             | some fi =>
               match p.servers[fi]? with
               | none => none
               | some fs =>
                 match pySetItem (.obj ces) "documentFormattingProvider"
                     (jsonOfOpt (get_formatting_capabilities fs).1) with
                 | none => none
                 | some c1 => pySetItem c1 "documentRangeFormattingProvider"
                     (jsonOfOpt (get_formatting_capabilities fs).2)
             | none => some (.obj ces)) = some (.obj caps1) := by
          cases fo with
          | none => exact ⟨ces, rfl⟩
          | some fi =>
            have hfo' : get_server_generic (fun s => s.use_formatting)
                (fun s => some (fmt_condition s)) p.servers = some (some fi) := hfo
            obtain ⟨fs, hfs⟩ := gsg_pure_in_range _ _ p.servers fi hfo'
            exact ⟨alSet strBeq (alSet strBeq ces "documentFormattingProvider"
                (jsonOfOpt (get_formatting_capabilities fs).1))
                "documentRangeFormattingProvider"
                (jsonOfOpt (get_formatting_capabilities fs).2),
              by simp [hfs, pySetItem_obj]⟩
        obtain ⟨caps1, hF1⟩ := stepF
        have stepC : ∃ caps2 : List (String × Json),
            (match co with
             | some ci =>
               match p.servers[ci]? with
               | none => none
               | some cs =>
                 pySetItem (.obj caps1) "completionProvider"
                   (jsonOfOpt (get_completion_capability cs))
             | none => some (.obj caps1)) = some (.obj caps2) := by
          cases co with
          | none => exact ⟨caps1, rfl⟩
          | some ci =>
            have hco' : get_server_generic (fun s => s.use_completion)
                (fun s => some (optTruthy (get_completion_capability s))) p.servers
                = some (some ci) := hco
            obtain ⟨cs, hcs⟩ := gsg_pure_in_range _ _ p.servers ci hco'
            exact ⟨alSet strBeq caps1 "completionProvider"
                (jsonOfOpt (get_completion_capability cs)),
              by simp [hcs, pySetItem_obj]⟩
        obtain ⟨caps2, hC1⟩ := stepC
        have stepS : ∃ caps3 : List (String × Json),
            (match so with
             | some si =>
               match p.servers[si]? with
               | none => none
               | some ss =>
                 pySetItem (.obj caps2) "signatureHelpProvider"
                   (jsonOfOpt (get_signature_capability ss))
             | none => some (.obj caps2)) = some (.obj caps3) := by
          cases so with
          | none => exact ⟨caps2, rfl⟩
          | some si =>
            have hso' : get_server_generic (fun s => s.use_signature)
                (fun s => some (optTruthy (get_signature_capability s))) p.servers
                = some (some si) := hso
            obtain ⟨ss, hss⟩ := gsg_pure_in_range _ _ p.servers si hso'
            exact ⟨alSet strBeq caps2 "signatureHelpProvider"
                (jsonOfOpt (get_signature_capability ss)),
              by simp [hss, pySetItem_obj]⟩
        obtain ⟨caps3, hS1⟩ := stepS
        have stepA : ∃ caps4 : List (String × Json),
            (if anyCodeAction p.servers = true then
              match pySetList (allKinds p.servers) with
              | none => none
              | some ks => pySetItem (.obj caps3) "codeActionProvider"
                  (.obj [("codeActionKinds", .arr ks)])
            else some (.obj caps3)) = some (.obj caps4) := by
          cases hany : anyCodeAction p.servers with
          | false => exact ⟨caps3, by simp⟩
          | true =>
            refine ⟨alSet strBeq caps3 "codeActionProvider"
                (.obj [("codeActionKinds", .arr (dedupAux [] (allKinds p.servers)))]), ?_⟩
            simp only [if_true, pySetList, hkh, if_pos]
            rfl
        obtain ⟨caps4, hA1⟩ := stepA
        have stepM : ∃ caps5 : List (String × Json),
            (if (allCmds p.servers).length > 0 then
              match pySetList (allCmds p.servers) with
              | none => none
              | some cs => pySetItem (.obj caps4) "executeCommandProvider"
                  (.obj [("commands", .arr cs)])
            else some (.obj caps4)) = some (.obj caps5) := by
          by_cases hlen : (allCmds p.servers).length > 0
          · refine ⟨alSet strBeq caps4 "executeCommandProvider"
                (.obj [("commands", .arr (dedupAux [] (allCmds p.servers)))]), ?_⟩
            simp only [hlen, if_true, pySetList, hch, if_pos]
            rfl
          · exact ⟨caps4, by simp [hlen]⟩
        obtain ⟨caps5, hM1⟩ := stepM
        have e1 : pySetItem (.obj res) "serverInfo"
            (.obj [("name", .str "lsp-proxy"), ("version", .str "0.1")]) =
          some (.obj (alSet strBeq res "serverInfo"
            (.obj [("name", .str "lsp-proxy"), ("version", .str "0.1")]))) := rfl
        have e2 : pySetItem (.obj (alSet strBeq res "serverInfo"
            (.obj [("name", .str "lsp-proxy"), ("version", .str "0.1")])))
            "capabilities" (.obj caps5) =
          some (.obj (alSet strBeq (alSet strBeq res "serverInfo"
            (.obj [("name", .str "lsp-proxy"), ("version", .str "0.1")]))
            "capabilities" (.obj caps5))) := rfl
        have e3 : pySetItem (.obj pm) "result"
            (.obj (alSet strBeq (alSet strBeq res "serverInfo"
              (.obj [("name", .str "lsp-proxy"), ("version", .str "0.1")]))
              "capabilities" (.obj caps5))) =
          some (.obj (alSet strBeq pm "result"
            (.obj (alSet strBeq (alSet strBeq res "serverInfo"
              (.obj [("name", .str "lsp-proxy"), ("version", .str "0.1")]))
              "capabilities" (.obj caps5))))) := rfl
        refine ⟨sv1, .obj (alSet strBeq pm "result"
            (.obj (alSet strBeq (alSet strBeq res "serverInfo"
              (.obj [("name", .str "lsp-proxy"), ("version", .str "0.1")]))
              "capabilities" (.obj caps5)))), ?_⟩
        unfold get_initialization_options
        simp only [hprim, hpm, pyIndex_obj, hr', e1, hcaps1get, hfo, hco, hso,
          hcol, hF1, hC1, hS1, hA1, hM1, e2, e3]

/-- One from-server initialize answer: `process` records the response into
the server's `initialize_msg` (consuming the pending entry) and either stays
silent or, when the answer makes every server initialized, emits the
synthesized response. -/
theorem c9_init_step (p : ProxyState) (i : Nat) (iden m : Json) (srv0 : Srv)
    (hsrv : p.servers[i]? = some srv0)
    (hid : p.initialize_id = some iden)
    (hpend0 : srv0.pending_client_server_requests = [(iden, .str "initialize")])
    (hres : jsonHasKey m "result" = true)
    (hidm : safe_get m "id" = some iden)
    (hmeth : safe_get m "method" = none) :
    process p i m true preserved_from_server =
      (if all_initialized (setSrv p i (srvAfterInit srv0 m)) = true then
        match get_initialization_options (setSrv p i (srvAfterInit srv0 m)) with
        | none => none
        | some (sv2, m2) =>
          some ({ setSrv p i (srvAfterInit srv0 m) with servers := sv2 }, m2, true)
      else some (setSrv p i (srvAfterInit srv0 m), m, false)) := by
  by_cases hall : all_initialized (setSrv p i (srvAfterInit srv0 m)) = true
  · cases hg : get_initialization_options (setSrv p i (srvAfterInit srv0 m)) with
    | none =>
      simp only [srvAfterInit] at hall hg
      simp [process, hsrv, hidm, hmeth, hpend0, hres, hid, alContains, alGet, alErase,
        Json.beq_refl, optBeq, setSrv_initialize_id, setSrv_setSrv, srvAfterInit,
        hall, hg]
    | some pr =>
      obtain ⟨sv2, m2⟩ := pr
      simp only [srvAfterInit] at hall hg
      simp [process, hsrv, hidm, hmeth, hpend0, hres, hid, alContains, alGet, alErase,
        Json.beq_refl, optBeq, setSrv_initialize_id, setSrv_setSrv, srvAfterInit,
        hall, hg, isMethod]
      exact fun h => absurd h (by decide)
  · simp only [srvAfterInit] at hall
    simp [process, hsrv, hidm, hmeth, hpend0, hres, hid, alContains, alGet, alErase,
      Json.beq_refl, optBeq, setSrv_initialize_id, setSrv_setSrv, srvAfterInit, hall]

/-- One from-server shutdown answer: `process` marks the server as shut down
(consuming the pending entry) and forwards the answer exactly when it is the
last one. -/
theorem c9_shut_step (p : ProxyState) (i : Nat) (iden m : Json) (srv0 : Srv)
    (hsrv : p.servers[i]? = some srv0)
    (hid : optBeq (some iden) p.initialize_id = false)
    (hsid : p.shutdown_id = some iden)
    (hpend0 : srv0.pending_client_server_requests = [(iden, .str "shutdown")])
    (hres : jsonHasKey m "result" = true)
    (hidm : safe_get m "id" = some iden)
    (hmeth : safe_get m "method" = none) :
    process p i m true preserved_from_server =
      some (setSrv p i (srvAfterShut srv0), m,
            all_shutdown (setSrv p i (srvAfterShut srv0))) := by
  cases hall : all_shutdown (setSrv p i (srvAfterShut srv0)) with
  | true =>
    simp only [srvAfterShut] at hall
    simp [process, hsrv, hidm, hmeth, hpend0, hres, hid, hsid, alContains, alGet, alErase,
      Json.beq_refl, optBeq_refl, setSrv_initialize_id, setSrv_shutdown_id, setSrv_setSrv,
      srvAfterShut, hall, isMethod]
    exact fun h => absurd h (by decide)
  | false =>
    simp only [srvAfterShut] at hall
    simp [process, hsrv, hidm, hmeth, hpend0, hres, hid, hsid, alContains, alGet, alErase,
      Json.beq_refl, optBeq_refl, setSrv_initialize_id, setSrv_shutdown_id, setSrv_setSrv,
      srvAfterShut, hall]

/-- Responses are processed sequentially, so a run splits at any point. -/
theorem runResponses_append : ∀ (xs ys : List (Nat × Json)) (p : ProxyState),
    runResponses p (xs ++ ys) =
      (match runResponses p xs with
       | none => none
       | some (p1, o1) =>
         (match runResponses p1 ys with
          | none => none
          | some (p2, o2) => some (p2, o1 ++ o2))) := by
  intro xs
  induction xs with
  | nil =>
    intro ys p
    simp only [List.nil_append, runResponses]
    cases h : runResponses p ys with
    | none => rfl
    | some pr =>
      obtain ⟨p2, o2⟩ := pr
      simp
  | cons x t ih =>
    intro ys p
    obtain ⟨i, m⟩ := x
    simp only [List.cons_append, runResponses]
    cases hp : process p i m true preserved_from_server with
    | none => rfl
    | some pr =>
      obtain ⟨p1, m1, sent⟩ := pr
      simp only [List.append_eq]
      rw [ih ys p1]
      cases ht : runResponses p1 t with
      | none => rfl
      | some pr2 =>
        obtain ⟨p2, o2⟩ := pr2
        simp only []
        cases hy : runResponses p2 ys with
        | none => rfl
        | some pr3 =>
          obtain ⟨p3, o3⟩ := pr3
          simp [List.append_assoc]

/-- Running any set of initialize answers while an untouched server is still
uninitialized: nothing is written to the client, every answering server's
response is recorded in place, and everything else is unchanged. -/
theorem c9InitRunAux : ∀ (rem : List Nat) (p : ProxyState) (iden : Json)
    (resp : Nat → Json),
    p.initialize_id = some iden →
    (∀ i ∈ rem, ∃ s, p.servers[i]? = some s ∧
       s.pending_client_server_requests = [(iden, .str "initialize")]) →
    (∀ i ∈ rem, jsonHasKey (resp i) "result" = true ∧
       safe_get (resp i) "id" = some iden ∧ safe_get (resp i) "method" = none) →
    rem.Nodup →
    (∃ k sk, p.servers[k]? = some sk ∧ k ∉ rem ∧ sk.initialize_msg = none) →
    ∃ p2, runResponses p (rem.map (fun i => (i, resp i))) = some (p2, [])
      ∧ p2.initialize_id = p.initialize_id
      ∧ p2.shutdown_id = p.shutdown_id
      ∧ p2.servers.length = p.servers.length
      ∧ (∀ j, j ∉ rem → p2.servers[j]? = p.servers[j]?)
      ∧ (∀ j ∈ rem, ∃ s, p.servers[j]? = some s ∧
           p2.servers[j]? = some (srvAfterInit s (resp j))) := by
  intro rem
  induction rem with
  | nil =>
    intro p iden resp hid hpend hresp hnd hwit
    exact ⟨p, rfl, rfl, rfl, rfl, fun j hj => rfl,
      fun j hj => absurd hj (List.not_mem_nil j)⟩
  | cons i rest ih =>
    intro p iden resp hid hpend hresp hnd hwit
    obtain ⟨k, sk, hks, hknot, hkinit⟩ := hwit
    obtain ⟨s0, hs0, hs0pend⟩ := hpend i (List.mem_cons_self i rest)
    obtain ⟨hr1, hr2, hr3⟩ := hresp i (List.mem_cons_self i rest)
    have hstep := c9_init_step p i iden (resp i) s0 hs0 hid hs0pend hr1 hr2 hr3
    have hkne : k ≠ i := fun h => hknot (h ▸ List.mem_cons_self i rest)
    have hilen : i < p.servers.length := listGet_lt _ _ _ hs0
    have hk2 : (setSrv p i (srvAfterInit s0 (resp i))).servers[k]? = some sk := by
      show (p.servers.set i (srvAfterInit s0 (resp i)))[k]? = some sk
      rw [listGetSet_other _ i k _ (fun h => hkne h.symm)]
      exact hks
    have hall : all_initialized (setSrv p i (srvAfterInit s0 (resp i))) = false := by
      rw [all_initialized]
      cases hx : (setSrv p i (srvAfterInit s0 (resp i))).servers.all
          (fun s => optTruthy s.initialize_msg) with
      | false => rfl
      | true =>
        rw [List.all_eq_true] at hx
        have := hx sk (List.getElem?_mem hk2)
        rw [hkinit] at this
        exact absurd this (by decide)
    rw [hall] at hstep
    simp only [Bool.false_eq_true, if_false] at hstep
    have hnd' := (List.nodup_cons.mp hnd).2
    have hinot := (List.nodup_cons.mp hnd).1
    have hother : ∀ j, j ≠ i →
        (setSrv p i (srvAfterInit s0 (resp i))).servers[j]? = p.servers[j]? := by
      intro j hj
      show (p.servers.set i (srvAfterInit s0 (resp i)))[j]? = p.servers[j]?
      exact listGetSet_other _ i j _ (fun h => hj h.symm)
    obtain ⟨p2, hrun, hid2, hsid2, hlen2, hout2, hin2⟩ :=
      ih (setSrv p i (srvAfterInit s0 (resp i))) iden resp
        (by rw [setSrv_initialize_id]; exact hid)
        (by
          intro j hj
          obtain ⟨s, hs, hsp⟩ := hpend j (List.mem_cons_of_mem i hj)
          exact ⟨s, by rw [hother j (fun h => hinot (h ▸ hj))]; exact hs, hsp⟩)
        (fun j hj => hresp j (List.mem_cons_of_mem i hj))
        hnd'
        ⟨k, sk, hk2, fun h => hknot (List.mem_cons_of_mem i h), hkinit⟩
    refine ⟨p2, ?_, ?_, ?_, ?_, ?_, ?_⟩
    · simp only [List.map_cons, runResponses, hstep, hrun]
      simp
    · rw [hid2, setSrv_initialize_id]
    · rw [hsid2, setSrv_shutdown_id]
    · rw [hlen2]
      show (p.servers.set i (srvAfterInit s0 (resp i))).length = p.servers.length
      exact List.length_set p.servers i (srvAfterInit s0 (resp i)) ▸ rfl
    · intro j hj
      have hj1 : j ∉ rest := fun h => hj (List.mem_cons_of_mem i h)
      have hj2 : j ≠ i := fun h => hj (h ▸ List.mem_cons_self i rest)
      rw [hout2 j hj1, hother j hj2]
    · intro j hj
      rcases List.mem_cons.mp hj with hji | hjr
      · subst hji
        refine ⟨s0, hs0, ?_⟩
        rw [hout2 j hinot]
        show (p.servers.set j (srvAfterInit s0 (resp j)))[j]? = _
        exact listGetSet_self _ j _ hilen
      · obtain ⟨s, hs, hs2⟩ := hin2 j hjr
        refine ⟨s, ?_, hs2⟩
        rw [hother j (fun h => hinot (h ▸ hjr))] at hs
        exact hs

/-- The shutdown analogue of `c9InitRunAux`. -/
theorem c9ShutRunAux : ∀ (rem : List Nat) (p : ProxyState) (iden : Json)
    (resp : Nat → Json),
    p.shutdown_id = some iden →
    optBeq (some iden) p.initialize_id = false →
    (∀ i ∈ rem, ∃ s, p.servers[i]? = some s ∧
       s.pending_client_server_requests = [(iden, .str "shutdown")]) →
    (∀ i ∈ rem, jsonHasKey (resp i) "result" = true ∧
       safe_get (resp i) "id" = some iden ∧ safe_get (resp i) "method" = none) →
    rem.Nodup →
    (∃ k sk, p.servers[k]? = some sk ∧ k ∉ rem ∧ sk.shutdown_received = false) →
    ∃ p2, runResponses p (rem.map (fun i => (i, resp i))) = some (p2, [])
      ∧ p2.initialize_id = p.initialize_id
      ∧ p2.shutdown_id = p.shutdown_id
      ∧ p2.servers.length = p.servers.length
      ∧ (∀ j, j ∉ rem → p2.servers[j]? = p.servers[j]?)
      ∧ (∀ j ∈ rem, ∃ s, p.servers[j]? = some s ∧
           p2.servers[j]? = some (srvAfterShut s)) := by
  intro rem
  induction rem with
  | nil =>
    intro p iden resp hsid hid hpend hresp hnd hwit
    exact ⟨p, rfl, rfl, rfl, rfl, fun j hj => rfl,
      fun j hj => absurd hj (List.not_mem_nil j)⟩
  | cons i rest ih =>
    intro p iden resp hsid hid hpend hresp hnd hwit
    obtain ⟨k, sk, hks, hknot, hkshut⟩ := hwit
    obtain ⟨s0, hs0, hs0pend⟩ := hpend i (List.mem_cons_self i rest)
    obtain ⟨hr1, hr2, hr3⟩ := hresp i (List.mem_cons_self i rest)
    have hstep := c9_shut_step p i iden (resp i) s0 hs0 hid hsid hs0pend hr1 hr2 hr3
    have hkne : k ≠ i := fun h => hknot (h ▸ List.mem_cons_self i rest)
    have hilen : i < p.servers.length := listGet_lt _ _ _ hs0
    have hk2 : (setSrv p i (srvAfterShut s0)).servers[k]? = some sk := by
      show (p.servers.set i (srvAfterShut s0))[k]? = some sk
      rw [listGetSet_other _ i k _ (fun h => hkne h.symm)]
      exact hks
    have hall : all_shutdown (setSrv p i (srvAfterShut s0)) = false := by
      rw [all_shutdown]
      cases hx : (setSrv p i (srvAfterShut s0)).servers.all
          (fun s => s.shutdown_received) with
      | false => rfl
      | true =>
        rw [List.all_eq_true] at hx
        have := hx sk (List.getElem?_mem hk2)
        rw [hkshut] at this
        exact absurd this (by decide)
    rw [hall] at hstep
    have hnd' := (List.nodup_cons.mp hnd).2
    have hinot := (List.nodup_cons.mp hnd).1
    have hother : ∀ j, j ≠ i →
        (setSrv p i (srvAfterShut s0)).servers[j]? = p.servers[j]? := by
      intro j hj
      show (p.servers.set i (srvAfterShut s0))[j]? = p.servers[j]?
      exact listGetSet_other _ i j _ (fun h => hj h.symm)
    obtain ⟨p2, hrun, hid2, hsid2, hlen2, hout2, hin2⟩ :=
      ih (setSrv p i (srvAfterShut s0)) iden resp
        (by rw [setSrv_shutdown_id]; exact hsid)
        (by rw [setSrv_initialize_id]; exact hid)
        (by
          intro j hj
          obtain ⟨s, hs, hsp⟩ := hpend j (List.mem_cons_of_mem i hj)
          exact ⟨s, by rw [hother j (fun h => hinot (h ▸ hj))]; exact hs, hsp⟩)
        (fun j hj => hresp j (List.mem_cons_of_mem i hj))
        hnd'
        ⟨k, sk, hk2, fun h => hknot (List.mem_cons_of_mem i h), hkshut⟩
    refine ⟨p2, ?_, ?_, ?_, ?_, ?_, ?_⟩
    · simp only [List.map_cons, runResponses, hstep, hrun]
      simp
    · rw [hid2, setSrv_initialize_id]
    · rw [hsid2, setSrv_shutdown_id]
    · rw [hlen2]
      show (p.servers.set i (srvAfterShut s0)).length = p.servers.length
      exact List.length_set p.servers i (srvAfterShut s0) ▸ rfl
    · intro j hj
      have hj1 : j ∉ rest := fun h => hj (List.mem_cons_of_mem i h)
      have hj2 : j ≠ i := fun h => hj (h ▸ List.mem_cons_self i rest)
      rw [hout2 j hj1, hother j hj2]
    · intro j hj
      rcases List.mem_cons.mp hj with hji | hjr
      · subst hji
        refine ⟨s0, hs0, ?_⟩
        rw [hout2 j hinot]
        show (p.servers.set j (srvAfterShut s0))[j]? = _
        exact listGetSet_self _ j _ hilen
      · obtain ⟨s, hs, hs2⟩ := hin2 j hjr
        refine ⟨s, ?_, hs2⟩
        rw [hother j (fun h => hinot (h ▸ hjr))] at hs
        exact hs

theorem listGet_of_lt {α : Type} : ∀ (l : List α) (i : Nat),
    i < l.length → ∃ a, l[i]? = some a := by
  intro l
  induction l with
  | nil => intro i h; simp at h
  | cons x t ih =>
    intro i h
    cases i with
    | zero => exact ⟨x, by simp⟩
    | succ j =>
      obtain ⟨a, ha⟩ := ih j (Nat.lt_of_succ_lt_succ h)
      exact ⟨a, by simpa using ha⟩

/-- C9: while the proxy is connected, the client never receives an
initialize (respectively shutdown) response before every server has
answered initialize (respectively shutdown), and it receives exactly one
such response, sent when the last server's answer arrives.  Formally: for a
state `p` awaiting every server's initialize answer (and a state `q`
awaiting every shutdown answer), running the answers in any order emits
nothing to the client on every strict prefix, and the complete run emits
exactly one message. -/
theorem C9_single_aggregated_response
    (p q : ProxyState) (idenI idenS : Json) (respI respS : Nat → Json)
    (orderI orderS : List Nat)
    (hidI : p.initialize_id = some idenI)
    (hneI : p.servers ≠ [])
    (hpendI : ∀ (i : Nat) (s : Srv), p.servers[i]? = some s →
        s.initialize_msg = none ∧
        s.pending_client_server_requests = [(idenI, .str "initialize")])
    (hrespI : ∀ i, jsonHasKey (respI i) "result" = true ∧
        safe_get (respI i) "id" = some idenI ∧
        safe_get (respI i) "method" = none ∧ respWF idenI (respI i) = true)
    (hordI : ∀ i, i ∈ orderI ↔ i < p.servers.length)
    (hndI : orderI.Nodup)
    (hidS : q.shutdown_id = some idenS)
    (hidSne : optBeq (some idenS) q.initialize_id = false)
    (hneS : q.servers ≠ [])
    (hpendS : ∀ (i : Nat) (s : Srv), q.servers[i]? = some s →
        s.shutdown_received = false ∧
        s.pending_client_server_requests = [(idenS, .str "shutdown")])
    (hrespS : ∀ i, jsonHasKey (respS i) "result" = true ∧
        safe_get (respS i) "id" = some idenS ∧ safe_get (respS i) "method" = none)
    (hordS : ∀ i, i ∈ orderS ↔ i < q.servers.length)
    (hndS : orderS.Nodup) :
    ((∀ pre suf, orderI = pre ++ suf → suf ≠ [] →
        ∃ p2, runResponses p (pre.map (fun i => (i, respI i))) = some (p2, []))
      ∧ (∃ p2 out, runResponses p (orderI.map (fun i => (i, respI i)))
            = some (p2, [out])))
    ∧ ((∀ pre suf, orderS = pre ++ suf → suf ≠ [] →
        ∃ q2, runResponses q (pre.map (fun i => (i, respS i))) = some (q2, []))
      ∧ (∃ q2 out, runResponses q (orderS.map (fun i => (i, respS i)))
            = some (q2, [out]))) := by
  constructor
  · constructor
    · intro pre suf hsplit hsufne
      have hndps : (pre ++ suf).Nodup := hsplit ▸ hndI
      obtain ⟨k, suf2, hk⟩ : ∃ k suf2, suf = k :: suf2 := by
        cases suf with
        | nil => exact absurd rfl hsufne
        | cons a t => exact ⟨a, t, rfl⟩
      have hkord : k ∈ orderI := by
        rw [hsplit, hk]
        exact List.mem_append_right pre (List.mem_cons_self k suf2)
      have hklen : k < p.servers.length := (hordI k).mp hkord
      obtain ⟨sk, hks⟩ := listGet_of_lt _ k hklen
      have hknotpre : k ∉ pre := fun hkp =>
        (List.nodup_append.mp hndps).2.2 hkp (hk ▸ List.mem_cons_self k suf2)
      obtain ⟨p2, hrun, _⟩ := c9InitRunAux pre p idenI respI hidI
        (fun i hi => by
          have hilen : i < p.servers.length :=
            (hordI i).mp (hsplit ▸ List.mem_append_left suf hi)
          obtain ⟨s, hs⟩ := listGet_of_lt _ i hilen
          exact ⟨s, hs, (hpendI i s hs).2⟩)
        (fun i hi => ⟨(hrespI i).1, (hrespI i).2.1, (hrespI i).2.2.1⟩)
        (List.nodup_append.mp hndps).1
        ⟨k, sk, hks, hknotpre, (hpendI k sk hks).1⟩
      exact ⟨p2, hrun⟩
    · obtain ⟨ys, y, hconcat⟩ : ∃ ys y, orderI = ys ++ [y] := by
        cases List.eq_nil_or_concat orderI with
        | inl h =>
          exfalso
          have h0 : 0 < p.servers.length := List.length_pos.mpr hneI
          have h1 := (hordI 0).mpr h0
          rw [h] at h1
          exact List.not_mem_nil 0 h1
        | inr h =>
          obtain ⟨l2, a, ha⟩ := h
          exact ⟨l2, a, by rw [ha, List.concat_eq_append]⟩
      have hndys : (ys ++ [y]).Nodup := hconcat ▸ hndI
      have hynot : y ∉ ys := fun hy =>
        (List.nodup_append.mp hndys).2.2 hy (List.mem_cons_self y [])
      have hyord : y ∈ orderI :=
        hconcat ▸ List.mem_append_right ys (List.mem_cons_self y [])
      have hylen : y < p.servers.length := (hordI y).mp hyord
      obtain ⟨sy, hsy⟩ := listGet_of_lt _ y hylen
      obtain ⟨p2, hrun, hid2, hsid2, hlen2, hout2, hin2⟩ :=
        c9InitRunAux ys p idenI respI hidI
          (fun i hi => by
            have hilen : i < p.servers.length :=
              (hordI i).mp (hconcat ▸ List.mem_append_left [y] hi)
            obtain ⟨s, hs⟩ := listGet_of_lt _ i hilen
            exact ⟨s, hs, (hpendI i s hs).2⟩)
          (fun i hi => ⟨(hrespI i).1, (hrespI i).2.1, (hrespI i).2.2.1⟩)
          (List.nodup_append.mp hndys).1
          ⟨y, sy, hsy, hynot, (hpendI y sy hsy).1⟩
      have hsy2 : p2.servers[y]? = some sy := by rw [hout2 y hynot]; exact hsy
      have hid2' : p2.initialize_id = some idenI := by rw [hid2, hidI]
      have hstep := c9_init_step p2 y idenI (respI y) sy hsy2 hid2'
        (hpendI y sy hsy).2 (hrespI y).1 (hrespI y).2.1 (hrespI y).2.2.1
      have hprofile : ∀ s, s ∈ (setSrv p2 y (srvAfterInit sy (respI y))).servers →
          ∃ jm, s.initialize_msg = some (respI jm) := by
        intro s hs
        obtain ⟨j, hj⟩ := List.mem_iff_getElem?.mp hs
        by_cases hjy : j = y
        · subst hjy
          have hyl2 : j < p2.servers.length := by rw [hlen2]; exact hylen
          have hset : (setSrv p2 j (srvAfterInit sy (respI j))).servers[j]? =
              some (srvAfterInit sy (respI j)) := by
            show (p2.servers.set j (srvAfterInit sy (respI j)))[j]? = _
            exact listGetSet_self _ j _ hyl2
          rw [hset] at hj
          obtain rfl := Option.some.inj hj
          exact ⟨j, rfl⟩
        · have hj2 : p2.servers[j]? = some s := by
            rw [← hj]
            show p2.servers[j]? = (p2.servers.set y (srvAfterInit sy (respI y)))[j]?
            rw [listGetSet_other _ y j _ (fun h => hjy h.symm)]
          have hjlen : j < p.servers.length := by
            have h1 := listGet_lt _ _ _ hj2
            rw [hlen2] at h1
            exact h1
          have hjord : j ∈ orderI := (hordI j).mpr hjlen
          have hjys : j ∈ ys := by
            rw [hconcat] at hjord
            rcases List.mem_append.mp hjord with h | h
            · exact h
            · exact absurd (List.mem_singleton.mp h) hjy
          obtain ⟨s0, hs0, hs0'⟩ := hin2 j hjys
          rw [hj2] at hs0'
          obtain rfl := Option.some.inj hs0'
          exact ⟨j, rfl⟩
      have hall : all_initialized (setSrv p2 y (srvAfterInit sy (respI y))) = true := by
        rw [all_initialized, List.all_eq_true]
        intro s hs
        obtain ⟨jm, hjm⟩ := hprofile s hs
        have : optTruthy s.initialize_msg = (respI jm).truthy := by rw [hjm]; rfl
        rw [this]
        exact respWF_truthy idenI _ (hrespI jm).2.2.2
      have hwf2 : ∀ s ∈ (setSrv p2 y (srvAfterInit sy (respI y))).servers,
          srvInitWF s = true := by
        intro s hs
        obtain ⟨jm, hjm⟩ := hprofile s hs
        exact srvInitWF_of_respWF idenI (respI jm) s hjm (hrespI jm).2.2.2
      have hne2 : (setSrv p2 y (srvAfterInit sy (respI y))).servers ≠ [] := by
        have h1 : 0 < (setSrv p2 y (srvAfterInit sy (respI y))).servers.length := by
          show 0 < (p2.servers.set y (srvAfterInit sy (respI y))).length
          rw [List.length_set, hlen2]
          exact List.length_pos.mpr hneI
        exact List.length_pos.mp h1
      obtain ⟨sv2, m2, hg⟩ := gio_succeeds _ hne2 hwf2
      refine ⟨{ setSrv p2 y (srvAfterInit sy (respI y)) with servers := sv2 }, m2, ?_⟩
      rw [hconcat, List.map_append, runResponses_append, hrun]
      simp [runResponses, hstep, hall, hg]
  · constructor
    · intro pre suf hsplit hsufne
      have hndps : (pre ++ suf).Nodup := hsplit ▸ hndS
      obtain ⟨k, suf2, hk⟩ : ∃ k suf2, suf = k :: suf2 := by
        cases suf with
        | nil => exact absurd rfl hsufne
        | cons a t => exact ⟨a, t, rfl⟩
      have hkord : k ∈ orderS := by
        rw [hsplit, hk]
        exact List.mem_append_right pre (List.mem_cons_self k suf2)
      have hklen : k < q.servers.length := (hordS k).mp hkord
      obtain ⟨sk, hks⟩ := listGet_of_lt _ k hklen
      have hknotpre : k ∉ pre := fun hkp =>
        (List.nodup_append.mp hndps).2.2 hkp (hk ▸ List.mem_cons_self k suf2)
      obtain ⟨q2, hrun, _⟩ := c9ShutRunAux pre q idenS respS hidS hidSne
        (fun i hi => by
          have hilen : i < q.servers.length :=
            (hordS i).mp (hsplit ▸ List.mem_append_left suf hi)
          obtain ⟨s, hs⟩ := listGet_of_lt _ i hilen
          exact ⟨s, hs, (hpendS i s hs).2⟩)
        (fun i hi => hrespS i)
        (List.nodup_append.mp hndps).1
        ⟨k, sk, hks, hknotpre, (hpendS k sk hks).1⟩
      exact ⟨q2, hrun⟩
    · obtain ⟨ys, y, hconcat⟩ : ∃ ys y, orderS = ys ++ [y] := by
        cases List.eq_nil_or_concat orderS with
        | inl h =>
          exfalso
          have h0 : 0 < q.servers.length := List.length_pos.mpr hneS
          have h1 := (hordS 0).mpr h0
          rw [h] at h1
          exact List.not_mem_nil 0 h1
        | inr h =>
          obtain ⟨l2, a, ha⟩ := h
          exact ⟨l2, a, by rw [ha, List.concat_eq_append]⟩
      have hndys : (ys ++ [y]).Nodup := hconcat ▸ hndS
      have hynot : y ∉ ys := fun hy =>
        (List.nodup_append.mp hndys).2.2 hy (List.mem_cons_self y [])
      have hyord : y ∈ orderS :=
        hconcat ▸ List.mem_append_right ys (List.mem_cons_self y [])
      have hylen : y < q.servers.length := (hordS y).mp hyord
      obtain ⟨sy, hsy⟩ := listGet_of_lt _ y hylen
      obtain ⟨q2, hrun, hid2, hsid2, hlen2, hout2, hin2⟩ :=
        c9ShutRunAux ys q idenS respS hidS hidSne
          (fun i hi => by
            have hilen : i < q.servers.length :=
              (hordS i).mp (hconcat ▸ List.mem_append_left [y] hi)
            obtain ⟨s, hs⟩ := listGet_of_lt _ i hilen
            exact ⟨s, hs, (hpendS i s hs).2⟩)
          (fun i hi => hrespS i)
          (List.nodup_append.mp hndys).1
          ⟨y, sy, hsy, hynot, (hpendS y sy hsy).1⟩
      have hsy2 : q2.servers[y]? = some sy := by rw [hout2 y hynot]; exact hsy
      have hsid2' : q2.shutdown_id = some idenS := by rw [hsid2, hidS]
      have hid2' : optBeq (some idenS) q2.initialize_id = false := by
        rw [hid2]
        exact hidSne
      have hstep := c9_shut_step q2 y idenS (respS y) sy hsy2 hid2' hsid2'
        (hpendS y sy hsy).2 (hrespS y).1 (hrespS y).2.1 (hrespS y).2.2
      have hprofile : ∀ s, s ∈ (setSrv q2 y (srvAfterShut sy)).servers →
          s.shutdown_received = true := by
        intro s hs
        obtain ⟨j, hj⟩ := List.mem_iff_getElem?.mp hs
        by_cases hjy : j = y
        · subst hjy
          have hyl2 : j < q2.servers.length := by rw [hlen2]; exact hylen
          have hset : (setSrv q2 j (srvAfterShut sy)).servers[j]? =
              some (srvAfterShut sy) := by
            show (q2.servers.set j (srvAfterShut sy))[j]? = _
            exact listGetSet_self _ j _ hyl2
          rw [hset] at hj
          obtain rfl := Option.some.inj hj
          rfl
        · have hj2 : q2.servers[j]? = some s := by
            rw [← hj]
            show q2.servers[j]? = (q2.servers.set y (srvAfterShut sy))[j]?
            rw [listGetSet_other _ y j _ (fun h => hjy h.symm)]
          have hjlen : j < q.servers.length := by
            have h1 := listGet_lt _ _ _ hj2
            rw [hlen2] at h1
            exact h1
          have hjord : j ∈ orderS := (hordS j).mpr hjlen
          have hjys : j ∈ ys := by
            rw [hconcat] at hjord
            rcases List.mem_append.mp hjord with h | h
            · exact h
            · exact absurd (List.mem_singleton.mp h) hjy
          obtain ⟨s0, hs0, hs0'⟩ := hin2 j hjys
          rw [hj2] at hs0'
          obtain rfl := Option.some.inj hs0'
          rfl
      have hall : all_shutdown (setSrv q2 y (srvAfterShut sy)) = true := by
        rw [all_shutdown, List.all_eq_true]
        intro s hs
        exact hprofile s hs
      refine ⟨setSrv q2 y (srvAfterShut sy), respS y, ?_⟩
      rw [hconcat, List.map_append, runResponses_append, hrun]
      simp [runResponses, hstep, hall]

/-- Closed witness for `C9_single_aggregated_response`: two servers answer
initialize (id 9) and shutdown (id 10) in the order second-then-first. -/
theorem C9_single_aggregated_response_witness :
    ((∀ pre suf, [1, 0] = pre ++ suf → suf ≠ [] →
        ∃ p2, runResponses cxP9I (pre.map (fun i => (i, cxRespI))) = some (p2, []))
      ∧ (∃ p2 out, runResponses cxP9I ([1, 0].map (fun i => (i, cxRespI)))
            = some (p2, [out])))
    ∧ ((∀ pre suf, [1, 0] = pre ++ suf → suf ≠ [] →
        ∃ q2, runResponses cxP9S (pre.map (fun i => (i, cxRespS))) = some (q2, []))
      ∧ (∃ q2 out, runResponses cxP9S ([1, 0].map (fun i => (i, cxRespS)))
            = some (q2, [out]))) :=
  C9_single_aggregated_response cxP9I cxP9S (.int 9) (.int 10)
    (fun _ => cxRespI) (fun _ => cxRespS) [1, 0] [1, 0]
    rfl
    (fun h => List.noConfusion h)
    (by
      intro i s h
      match i with
      | 0 =>
        obtain rfl := Option.some.inj h
        exact ⟨rfl, rfl⟩
      | 1 =>
        obtain rfl := Option.some.inj h
        exact ⟨rfl, rfl⟩
      | (n + 2) => exact Option.noConfusion h)
    (fun i => ⟨rfl, rfl, rfl, rfl⟩)
    (by intro i; simp [cxP9I]; omega)
    (by decide)
    rfl
    rfl
    (fun h => List.noConfusion h)
    (by
      intro i s h
      match i with
      | 0 =>
        obtain rfl := Option.some.inj h
        exact ⟨rfl, rfl⟩
      | 1 =>
        obtain rfl := Option.some.inj h
        exact ⟨rfl, rfl⟩
      | (n + 2) => exact Option.noConfusion h)
    (fun i => ⟨rfl, rfl, rfl⟩)
    (by intro i; simp [cxP9S]; omega)
    (by decide)

/-- C7 counterexample: a header whose `Content-Length` value is not an
integer makes `read_message` raise the uncaught `ValueError` from
`int(val.strip())` instead of yielding "no message". -/
theorem C7_counterexample :
    read_message (asciiBytes "Content-Length: abc\x0d\x0a\x0d\x0a") = .exn := rfl

/-- Header lines that never carry a `content-length` key leave the scanned
length untouched. -/
theorem scanHeaders_skip : ∀ (lines : List (List Nat)) (len : Int),
    (∀ l ∈ lines, ∃ k v, splitColon2 l = [k, v] ∧ ¬(k.map lowerByte = clBytes)) →
    scanHeaders lines len = some len := by
  intro lines
  induction lines with
  | nil => intro len _; rfl
  | cons l t ih =>
    intro len h
    obtain ⟨k, v, hkv, hne⟩ := h l (List.mem_cons_self l t)
    simp only [scanHeaders, hkv]
    rw [if_neg hne]
    exact ih len (fun l2 hl2 => h l2 (List.mem_cons_of_mem l hl2))

/-- C7 (amended): when the framed input's header block parses into
colon-separated lines none of which is `content-length`, the body length
stays 0 and `read_message` yields "no message"; a `Content-Length` whose
value is not a valid integer instead raises an uncaught error
(`C7_counterexample`). -/
theorem C7_amended (input header body : List Nat)
    (hru : readuntil4 input = some (header, body))
    (hscan : ∀ l ∈ (splitCRLF header).dropLast.dropLast,
      ∃ k v, splitColon2 l = [k, v] ∧ ¬(k.map lowerByte = clBytes)) :
    read_message input = .noMsg := by
  unfold read_message
  rw [hru]
  simp only []
  rw [scanHeaders_skip _ 0 hscan]
  rfl

/-- Closed witness for `C7_amended`: a single `Host` header and no
`Content-Length`. -/
theorem C7_amended_witness :
    readuntil4 (asciiBytes "Host: x\x0d\x0a\x0d\x0a") =
        some (asciiBytes "Host: x\x0d\x0a\x0d\x0a", [])
      ∧ read_message (asciiBytes "Host: x\x0d\x0a\x0d\x0a") = .noMsg :=
  ⟨rfl,
   C7_amended (asciiBytes "Host: x\x0d\x0a\x0d\x0a")
     (asciiBytes "Host: x\x0d\x0a\x0d\x0a") [] rfl
     (by
       intro l hl
       rw [show (splitCRLF (asciiBytes "Host: x\x0d\x0a\x0d\x0a")).dropLast.dropLast
           = [asciiBytes "Host: x"] from rfl] at hl
       rw [List.mem_singleton] at hl
       subst hl
       exact ⟨asciiBytes "Host", asciiBytes " x", rfl, by decide⟩)⟩

theorem charToNat_ofNat (n : Nat) (h : n.isValidChar) : (Char.ofNat n).toNat = n := by
  rw [Char.ofNat, dif_pos h]
  rfl

theorem charEq_of_toNat (a b : Char) (h : a.toNat = b.toNat) : a = b := by
  have h2 := Char.ofNat_toNat a
  rw [← h2, h, Char.ofNat_toNat]

-- reduction probes (fuel-structural now)
theorem hexRound (x : Nat) (h : x < 16) : hexCharVal (hexDigitChar x) = some x := by
  rw [hexDigitChar]
  by_cases h10 : x < 10
  · rw [if_pos h10]
    have ht : (Char.ofNat (48 + x)).toNat = 48 + x := charToNat_ofNat _ (Or.inl (by omega))
    rw [hexCharVal, ht]
    rw [if_pos (by simp; omega)]
    congr 1
    omega
  · rw [if_neg h10]
    have ht : (Char.ofNat (87 + x)).toNat = 87 + x := charToNat_ofNat _ (Or.inl (by omega))
    rw [hexCharVal, ht]
    rw [if_neg (by simp; omega)]
    rw [if_pos (by simp; omega)]
    congr 1
    omega

theorem hexRecompose (m : Nat) (h : m < 65536) :
    ((m / 4096 % 16 * 16 + m / 256 % 16) * 16 + m / 16 % 16) * 16 + m % 16 = m := by omega

theorem escChar_len_pos (c : Char) : 1 ≤ (escChar c).length := by
  rw [escChar]
  repeat' split
  all_goals simp [uEsc]

theorem parseStrAux_lit (f : Nat) (c : Char) (acc X : List Char)
    (h34 : ¬c.toNat = 34) (h92 : ¬c.toNat = 92) (hge : ¬c.toNat < 32) :
    parseStrAux (f+1) acc (c :: X) = parseStrAux f (c :: acc) X := by
  simp only [parseStrAux]
  rw [if_neg h34, if_neg h92, if_neg hge]

theorem parseStrAux_uEsc (f : Nat) (n : Nat) (acc X : List Char)
    (hn : n < 65536) (hsur : n < 55296 ∨ 57343 < n) :
    parseStrAux (f+1) acc (uEsc n ++ X) = parseStrAux f (Char.ofNat n :: acc) X := by
  have hred : ∀ (a b c2 d : Char),
      parseStrAux (f+1) acc (bsC :: 'u' :: a :: b :: c2 :: d :: X) =
        (match hexCharVal a, hexCharVal b, hexCharVal c2, hexCharVal d with
         | some va, some vb, some vc, some vd =>
           let m := ((va * 16 + vb) * 16 + vc) * 16 + vd
           if 55296 ≤ m && m ≤ 56319 then
             (match X with
              | e1 :: u1 :: a2 :: b2 :: c3 :: d2 :: rest4 =>
                if e1.toNat = 92 && u1 = 'u' then
                  match hexCharVal a2, hexCharVal b2, hexCharVal c3, hexCharVal d2 with
                  | some wa, some wb, some wc, some wd =>
                    let m2 := ((wa * 16 + wb) * 16 + wc) * 16 + wd
                    if 56320 ≤ m2 && m2 ≤ 57343 then
                      parseStrAux f
                        (Char.ofNat (65536 + (m - 55296) * 1024 + (m2 - 56320)) :: acc) rest4
                    else none
                  | _, _, _, _ => none
                else none
              | _ => none)
           else if 56320 ≤ m && m ≤ 57343 then none
           else parseStrAux f (Char.ofNat m :: acc) X
         | _, _, _, _ => none) := fun a b c2 d => rfl
  rw [uEsc]
  rw [List.cons_append, List.cons_append, List.cons_append, List.cons_append,
    List.cons_append, List.cons_append, List.nil_append]
  rw [hred]
  rw [hexRound _ (by omega), hexRound _ (by omega), hexRound _ (by omega),
    hexRound _ (by omega)]
  simp only []
  rw [hexRecompose n hn]
  rw [if_neg (by simp only [Bool.and_eq_true, decide_eq_true_eq]; omega)]
  rw [if_neg (by simp only [Bool.and_eq_true, decide_eq_true_eq]; omega)]

theorem parseStrAux_uPair (f : Nat) (n : Nat) (acc X : List Char)
    (hn : 65536 ≤ n) (hmax : n < 1114112) :
    parseStrAux (f+1) acc
        ((uEsc (55296 + (n - 65536) / 1024) ++ uEsc (56320 + (n - 65536) % 1024)) ++ X) =
      parseStrAux f (Char.ofNat n :: acc) X := by
  have hred : ∀ (a b c2 d : Char) (Y : List Char),
      parseStrAux (f+1) acc (bsC :: 'u' :: a :: b :: c2 :: d :: Y) =
        (match hexCharVal a, hexCharVal b, hexCharVal c2, hexCharVal d with
         | some va, some vb, some vc, some vd =>
           let m := ((va * 16 + vb) * 16 + vc) * 16 + vd
           if 55296 ≤ m && m ≤ 56319 then
             (match Y with
              | e1 :: u1 :: a2 :: b2 :: c3 :: d2 :: rest4 =>
                if e1.toNat = 92 && u1 = 'u' then
                  match hexCharVal a2, hexCharVal b2, hexCharVal c3, hexCharVal d2 with
                  | some wa, some wb, some wc, some wd =>
                    let m2 := ((wa * 16 + wb) * 16 + wc) * 16 + wd
                    if 56320 ≤ m2 && m2 ≤ 57343 then
                      parseStrAux f
                        (Char.ofNat (65536 + (m - 55296) * 1024 + (m2 - 56320)) :: acc) rest4
                    else none
                  | _, _, _, _ => none
                else none
              | _ => none)
           else if 56320 ≤ m && m ≤ 57343 then none
           else parseStrAux f (Char.ofNat m :: acc) Y
         | _, _, _, _ => none) := fun a b c2 d Y => rfl
  have hhi : 55296 + (n - 65536) / 1024 < 65536 := by omega
  have hlo : 56320 + (n - 65536) % 1024 < 65536 := by omega
  rw [List.append_assoc, uEsc]
  rw [List.cons_append, List.cons_append, List.cons_append, List.cons_append,
    List.cons_append, List.cons_append, List.nil_append]
  rw [hred]
  rw [hexRound _ (by omega), hexRound _ (by omega), hexRound _ (by omega),
    hexRound _ (by omega)]
  simp only []
  rw [hexRecompose _ hhi]
  rw [if_pos (by simp only [Bool.and_eq_true, decide_eq_true_eq]; omega)]
  rw [uEsc]
  rw [List.cons_append, List.cons_append, List.cons_append, List.cons_append,
    List.cons_append, List.cons_append, List.nil_append]
  simp only []
  rw [if_pos (by decide)]
  rw [hexRound _ (by omega), hexRound _ (by omega), hexRound _ (by omega),
    hexRound _ (by omega)]
  simp only []
  rw [hexRecompose _ hlo]
  rw [if_pos (by simp only [Bool.and_eq_true, decide_eq_true_eq]; omega)]
  have hn2 : 65536 + ((55296 + (n - 65536) / 1024) - 55296) * 1024
      + ((56320 + (n - 65536) % 1024) - 56320) = n := by omega
  rw [hn2]

theorem parseStrAux_esc : ∀ (cs : List Char) (fuel : Nat) (acc rest : List Char),
    (escList cs).length < fuel →
    parseStrAux fuel acc (escList cs ++ (qC :: rest)) =
      some (String.mk (acc.reverse ++ cs), rest) := by
  intro cs
  induction cs with
  | nil =>
    intro fuel acc rest hf
    cases fuel with
    | zero => omega
    | succ f =>
      show parseStrAux (f+1) acc (qC :: rest) = _
      rw [List.append_nil]
      rfl
  | cons c cs ih =>
    intro fuel acc rest hf
    rw [escList, List.append_assoc]
    rw [escList] at hf
    rw [List.length_append] at hf
    have hstep : ∀ f2 ch, fuel = f2 + 1 → ch.toNat = c.toNat →
        parseStrAux f2 (ch :: acc) (escList cs ++ (qC :: rest)) =
          some (String.mk (acc.reverse ++ (c :: cs)), rest) := by
      intro f2 ch hf2 hch
      have hc : ch = c := charEq_of_toNat _ _ hch
      subst hc
      have hl := escChar_len_pos ch
      rw [ih f2 (ch :: acc) rest (by omega)]
      simp
    by_cases h34 : c.toNat = 34
    · have he : escChar c = [bsC, qC] := by rw [escChar]; rw [if_pos h34]
      rw [he]
      cases fuel with
      | zero => omega
      | succ f =>
        show parseStrAux f (qC :: acc) _ = _
        exact hstep f qC rfl (by rw [h34]; rfl)
    · by_cases h92 : c.toNat = 92
      · have he : escChar c = [bsC, bsC] := by
          rw [escChar]; rw [if_neg h34, if_pos h92]
        rw [he]
        cases fuel with
        | zero => omega
        | succ f =>
          show parseStrAux f (bsC :: acc) _ = _
          exact hstep f bsC rfl (by rw [h92]; rfl)
      · by_cases h8 : c.toNat = 8
        · have he : escChar c = [bsC, 'b'] := by
            rw [escChar]; rw [if_neg h34, if_neg h92, if_pos h8]
          rw [he]
          cases fuel with
          | zero => omega
          | succ f =>
            show parseStrAux f (Char.ofNat 8 :: acc) _ = _
            exact hstep f (Char.ofNat 8) rfl (by rw [h8]; rfl)
        · by_cases h9 : c.toNat = 9
          · have he : escChar c = [bsC, 't'] := by
              rw [escChar]; rw [if_neg h34, if_neg h92, if_neg h8, if_pos h9]
            rw [he]
            cases fuel with
            | zero => omega
            | succ f =>
              show parseStrAux f (Char.ofNat 9 :: acc) _ = _
              exact hstep f (Char.ofNat 9) rfl (by rw [h9]; rfl)
          · by_cases h10 : c.toNat = 10
            · have he : escChar c = [bsC, 'n'] := by
                rw [escChar]; rw [if_neg h34, if_neg h92, if_neg h8, if_neg h9, if_pos h10]
              rw [he]
              cases fuel with
              | zero => omega
              | succ f =>
                show parseStrAux f (Char.ofNat 10 :: acc) _ = _
                exact hstep f (Char.ofNat 10) rfl (by rw [h10]; rfl)
            · by_cases h12 : c.toNat = 12
              · have he : escChar c = [bsC, 'f'] := by
                  rw [escChar]
                  rw [if_neg h34, if_neg h92, if_neg h8, if_neg h9, if_neg h10, if_pos h12]
                rw [he]
                cases fuel with
                | zero => omega
                | succ f =>
                  show parseStrAux f (Char.ofNat 12 :: acc) _ = _
                  exact hstep f (Char.ofNat 12) rfl (by rw [h12]; rfl)
              · by_cases h13 : c.toNat = 13
                · have he : escChar c = [bsC, 'r'] := by
                    rw [escChar]
                    rw [if_neg h34, if_neg h92, if_neg h8, if_neg h9, if_neg h10,
                      if_neg h12, if_pos h13]
                  rw [he]
                  cases fuel with
                  | zero => omega
                  | succ f =>
                    show parseStrAux f (Char.ofNat 13 :: acc) _ = _
                    exact hstep f (Char.ofNat 13) rfl (by rw [h13]; rfl)
                · by_cases hlt32 : c.toNat < 32
                  · have he : escChar c = uEsc c.toNat := by
                      rw [escChar]
                      rw [if_neg h34, if_neg h92, if_neg h8, if_neg h9, if_neg h10,
                        if_neg h12, if_neg h13, if_pos hlt32]
                    rw [he]
                    cases fuel with
                    | zero => omega
                    | succ f =>
                      rw [parseStrAux_uEsc f c.toNat acc _ (by omega) (by omega)]
                      rw [Char.ofNat_toNat]
                      exact hstep f c rfl rfl
                  · by_cases hlt127 : c.toNat < 127
                    · have he : escChar c = [c] := by
                        rw [escChar]
                        rw [if_neg h34, if_neg h92, if_neg h8, if_neg h9, if_neg h10,
                          if_neg h12, if_neg h13, if_neg hlt32, if_pos hlt127]
                      rw [he]
                      cases fuel with
                      | zero => omega
                      | succ f =>
                        rw [List.cons_append, List.nil_append]
                        rw [parseStrAux_lit f c acc _ h34 h92 hlt32]
                        exact hstep f c rfl rfl
                    · by_cases hlt65536 : c.toNat < 65536
                      · have he : escChar c = uEsc c.toNat := by
                          rw [escChar]
                          rw [if_neg h34, if_neg h92, if_neg h8, if_neg h9, if_neg h10,
                            if_neg h12, if_neg h13, if_neg hlt32, if_neg hlt127,
                            if_pos hlt65536]
                        rw [he]
                        cases fuel with
                        | zero => omega
                        | succ f =>
                          have hval : c.toNat < 55296 ∨ 57343 < c.toNat ∧ c.toNat < 1114112 :=
                            c.valid
                          rw [parseStrAux_uEsc f c.toNat acc _ hlt65536
                            (by rcases hval with h | h
                                · omega
                                · omega)]
                          rw [Char.ofNat_toNat]
                          exact hstep f c rfl rfl
                      · have he : escChar c = uEsc (55296 + (c.toNat - 65536) / 1024)
                            ++ uEsc (56320 + (c.toNat - 65536) % 1024) := by
                          rw [escChar]
                          rw [if_neg h34, if_neg h92, if_neg h8, if_neg h9, if_neg h10,
                            if_neg h12, if_neg h13, if_neg hlt32, if_neg hlt127,
                            if_neg hlt65536]
                        rw [he]
                        cases fuel with
                        | zero => omega
                        | succ f =>
                          have hval : c.toNat < 55296 ∨ 57343 < c.toNat ∧ c.toNat < 1114112 :=
                            c.valid
                          rw [parseStrAux_uPair f c.toNat acc _ (by omega)
                            (by rcases hval with h | h
                                · omega
                                · omega)]
                          rw [Char.ofNat_toNat]
                          exact hstep f c rfl rfl


theorem charNe_of_toNat (a b : Char) (h : a.toNat ≠ b.toNat) : a ≠ b :=
  fun he => h (congrArg Char.toNat he)

theorem isWsC_eq_false (c : Char)
    (h : c.toNat ≠ 32 ∧ c.toNat ≠ 9 ∧ c.toNat ≠ 10 ∧ c.toNat ≠ 13) : isWsC c = false := by
  rw [isWsC]
  simp only [Bool.or_eq_false_iff, decide_eq_false_iff_not]
  exact ⟨⟨⟨charNe_of_toNat _ _ (by simpa using h.1), charNe_of_toNat _ _ (by simpa using h.2.1)⟩,
    charNe_of_toNat _ _ (by simpa using h.2.2.1)⟩, charNe_of_toNat _ _ (by simpa using h.2.2.2)⟩

theorem skipWsL_cons (c : Char) (X : List Char) (h : isWsC c = false) :
    skipWsL (c :: X) = c :: X := by
  rw [skipWsL, h]
  simp

theorem natDigs_digits : ∀ n : Nat, ∀ c ∈ natDigs n, 48 ≤ c.toNat ∧ c.toNat ≤ 57 := by
  intro n
  induction n using Nat.strong_induction_on with
  | _ n ih =>
    intro c hc
    rw [natDigs] at hc
    by_cases h10 : n < 10
    · rw [if_pos h10] at hc
      rw [List.mem_singleton] at hc
      subst hc
      rw [charToNat_ofNat _ (Or.inl (by omega))]
      omega
    · rw [if_neg h10] at hc
      rcases List.mem_append.mp hc with h | h
      · exact ih (n / 10) (by omega) c h
      · rw [List.mem_singleton] at h
        subst h
        rw [charToNat_ofNat _ (Or.inl (by omega))]
        omega

theorem natDigs_ne_nil (n : Nat) : natDigs n ≠ [] := by
  rw [natDigs]
  by_cases h10 : n < 10
  · rw [if_pos h10]; simp
  · rw [if_neg h10]
    intro h
    have := List.append_eq_nil.mp h
    simp at this

theorem natDigs_val : ∀ n a : Nat,
    (natDigs n).foldl (fun acc c => acc * 10 + (c.toNat - 48)) a =
      a * 10 ^ (natDigs n).length + n := by
  intro n
  induction n using Nat.strong_induction_on with
  | _ n ih =>
    intro a
    rw [natDigs]
    by_cases h10 : n < 10
    · rw [if_pos h10]
      simp only [List.foldl_cons, List.foldl_nil, List.length_cons, List.length_nil,
        charToNat_ofNat _ (Or.inl (by omega : (48 + n : Nat) < 55296))]
      have h48 : 48 + n - 48 = n := by omega
      rw [h48, pow_one]
    · rw [if_neg h10]
      rw [List.foldl_append]
      rw [ih (n / 10) (by omega) a]
      simp only [List.foldl_cons, List.foldl_nil, List.length_append, List.length_cons,
        List.length_nil]
      rw [charToNat_ofNat _ (Or.inl (by omega : (48 + n % 10 : Nat) < 55296))]
      have hp : 10 ^ ((natDigs (n / 10)).length + (0 + 1)) =
          10 ^ (natDigs (n / 10)).length * 10 := by ring
      rw [hp]
      have h48 : 48 + n % 10 - 48 = n % 10 := by omega
      rw [h48]
      have : (a * 10 ^ (natDigs (n / 10)).length + n / 10) * 10 + n % 10 =
          a * (10 ^ (natDigs (n / 10)).length * 10) + (n / 10 * 10 + n % 10) := by ring
      rw [this]
      omega

theorem natDigs_head_pos : ∀ n : Nat, 1 ≤ n → ∀ d ds, natDigs n = d :: ds →
    49 ≤ d.toNat ∧ d.toNat ≤ 57 := by
  intro n
  induction n using Nat.strong_induction_on with
  | _ n ih =>
    intro h1 d ds hd
    rw [natDigs] at hd
    by_cases h10 : n < 10
    · rw [if_pos h10] at hd
      injection hd with hd1 _
      subst hd1
      rw [charToNat_ofNat _ (Or.inl (by omega))]
      omega
    · rw [if_neg h10] at hd
      obtain ⟨e, es, hee⟩ : ∃ e es, natDigs (n / 10) = e :: es := by
        cases hx : natDigs (n / 10) with
        | nil => exact absurd hx (natDigs_ne_nil _)
        | cons e es => exact ⟨e, es, rfl⟩
      rw [hee] at hd
      rw [List.cons_append] at hd
      injection hd with hd1 _
      subst hd1
      exact ih (n / 10) (by omega) (by omega) _ es hee

theorem takeDigs_append : ∀ (ds rest : List Char), (∀ c ∈ ds, isDigitC c = true) →
    (∀ c r2, rest = c :: r2 → isDigitC c = false) →
    takeDigs (ds ++ rest) = (ds, rest) := by
  intro ds
  induction ds with
  | nil =>
    intro rest _ hrest
    cases rest with
    | nil => rfl
    | cons c r =>
      simp only [List.nil_append, takeDigs]
      rw [hrest c r rfl]
      simp
  | cons c t ih =>
    intro rest hds hrest
    rw [List.cons_append, takeDigs]
    rw [hds c (List.mem_cons_self c t)]
    rw [ih rest (fun x hx => hds x (List.mem_cons_of_mem c hx)) hrest]
    simp


theorem digsVal_natDigs (n : Nat) : digsVal (natDigs n) = n := by
  rw [digsVal, natDigs_val n 0]
  simp

theorem isDigitC_natDigs (n : Nat) : ∀ c ∈ natDigs n, isDigitC c = true := by
  intro c hc
  obtain ⟨h1, h2⟩ := natDigs_digits n c hc
  rw [isDigitC]
  simp only [Bool.and_eq_true, decide_eq_true_eq]
  omega

theorem natDigs_zero : natDigs 0 = ['0'] := by
  rw [natDigs]
  rfl

theorem natDigs_cons (m : Nat) : ∃ d ds, natDigs m = d :: ds := by
  cases hx : natDigs m with
  | nil => exact absurd hx (natDigs_ne_nil m)
  | cons d ds => exact ⟨d, ds, rfl⟩

theorem natDigs_no_lz (m : Nat) (d : Char) (ds : List Char) (hd : natDigs m = d :: ds) :
    (decide (d.toNat = 48) && !ds.isEmpty) = false := by
  cases hds : ds with
  | nil => simp
  | cons e es =>
    have h1 : 1 ≤ m := by
      by_contra hm
      have hm0 : m = 0 := by omega
      subst hm0
      rw [natDigs_zero] at hd
      injection hd with _ h2
      rw [hds] at h2
      exact List.noConfusion h2
    have := natDigs_head_pos m h1 d ds hd
    simp only [Bool.and_eq_false_iff, decide_eq_false_iff_not]
    left
    omega

theorem parseNumJ_int (n : Int) (rest : List Char) (hrest : numSep rest) :
    parseNumJ (intChars n ++ rest) = some (.int n, rest) := by
  have hsep : ∀ c r2, rest = c :: r2 → isDigitC c = false := by
    intro c r2 he
    subst he
    exact hrest.1
  by_cases hneg : n < 0
  · rw [intChars, if_pos hneg, List.cons_append, parseNumJ]
    simp only []
    rw [if_pos trivial]
    simp only []
    obtain ⟨d, ds, hd⟩ := natDigs_cons n.natAbs
    rw [takeDigs_append _ rest (isDigitC_natDigs _) hsep, hd]
    simp only []
    rw [natDigs_no_lz _ _ _ hd]
    simp only [Bool.false_eq_true, if_false]
    cases rest with
    | nil =>
      simp only []
      rw [if_pos trivial, ← hd, digsVal_natDigs]
      have habs : -(n.natAbs : Int) = n := by omega
      rw [habs]
    | cons c0 r0 =>
      obtain ⟨h1, h2, h3, h4⟩ := hrest
      simp only []
      rw [if_neg (by simp [h2, h3, h4])]
      rw [if_pos trivial, ← hd, digsVal_natDigs]
      have habs : -(n.natAbs : Int) = n := by omega
      rw [habs]
  · rw [intChars, if_neg hneg]
    obtain ⟨d, ds, hd⟩ := natDigs_cons n.natAbs
    rw [hd, List.cons_append, parseNumJ]
    have hdd := natDigs_digits n.natAbs d (hd ▸ List.mem_cons_self d ds)
    have hdne : ¬(d = '-') := charNe_of_toNat _ _
      (by simp only [show Char.toNat '-' = 45 from rfl]; omega)
    simp only [hdne, if_false]
    rw [← List.cons_append, ← hd]
    rw [takeDigs_append _ rest (isDigitC_natDigs _) hsep, hd]
    simp only []
    rw [natDigs_no_lz _ _ _ hd]
    simp only [Bool.false_eq_true, if_false]
    cases rest with
    | nil =>
      rw [← hd, digsVal_natDigs]
      have habs : (n.natAbs : Int) = n := by omega
      rw [habs]
    | cons c0 r0 =>
      obtain ⟨h1, h2, h3, h4⟩ := hrest
      simp only []
      rw [if_neg (by simp [h2, h3, h4])]
      rw [← hd, digsVal_natDigs]
      have habs : (n.natAbs : Int) = n := by omega
      rw [habs]


theorem skipWsL_sp (X : List Char) : skipWsL (' ' :: X) = skipWsL X := by
  rw [skipWsL]
  rw [if_pos (by decide)]

theorem dumps_ne_nil : ∀ j : Json, dumps j ≠ [] := by
  intro j
  cases j with
  | null => simp [dumps]
  | bool b => cases b <;> simp [dumps]
  | int n =>
    show intChars n ≠ []
    rw [intChars]
    by_cases hneg : n < 0
    · rw [if_pos hneg]; simp
    · rw [if_neg hneg]; exact natDigs_ne_nil _
  | str s => simp [dumps]
  | arr xs => cases xs <;> simp [dumps]
  | obj es => cases es <;> simp [dumps]

theorem dumps_len_pos (j : Json) : 1 ≤ (dumps j).length := by
  cases hx : dumps j with
  | nil => exact absurd hx (dumps_ne_nil j)
  | cons c cs => simp

theorem dumps_head : ∀ j : Json, ∃ c cs, dumps j = c :: cs
    ∧ isWsC c = false ∧ ¬(c = ']') := by
  intro j
  cases j with
  | null => exact ⟨'n', _, rfl, by decide, by decide⟩
  | bool b =>
    cases b with
    | true => exact ⟨'t', _, rfl, by decide, by decide⟩
    | false => exact ⟨'f', _, rfl, by decide, by decide⟩
  | int n =>
    show ∃ c cs, intChars n = c :: cs ∧ _
    rw [intChars]
    by_cases hneg : n < 0
    · rw [if_pos hneg]
      exact ⟨'-', _, rfl, by decide, by decide⟩
    · rw [if_neg hneg]
      obtain ⟨d, ds, hd⟩ := natDigs_cons n.natAbs
      obtain ⟨h1, h2⟩ := natDigs_digits n.natAbs d (hd ▸ List.mem_cons_self d ds)
      exact ⟨d, ds, hd, isWsC_eq_false d (by omega),
        charNe_of_toNat _ _ (by simp only [show Char.toNat ']' = 93 from rfl]; omega)⟩
  | str s => exact ⟨qC, _, rfl, by decide, by decide⟩
  | arr xs =>
    cases xs with
    | nil => exact ⟨'[', _, rfl, by decide, by decide⟩
    | cons x t => exact ⟨'[', _, rfl, by decide, by decide⟩
  | obj es =>
    cases es with
    | nil => exact ⟨obC, _, rfl, by decide, by decide⟩
    | cons kv t => exact ⟨obC, _, rfl, by decide, by decide⟩

theorem skipWsL_dumps (j : Json) (T : List Char) :
    skipWsL (dumps j ++ T) = dumps j ++ T := by
  obtain ⟨c, cs, hd, hnws, _⟩ := dumps_head j
  rw [hd, List.cons_append, skipWsL_cons _ _ hnws]

theorem alSet_append (acc : List (String × Json)) (k : String) (v : Json)
    (h : ∀ e ∈ acc, strBeq e.1 k = false) :
    alSet strBeq acc k v = acc ++ [(k, v)] := by
  induction acc with
  | nil => rfl
  | cons e t ih =>
    obtain ⟨k2, w⟩ := e
    rw [alSet]
    rw [h (k2, w) (List.mem_cons_self _ _)]
    simp only [Bool.false_eq_true, if_false, List.cons_append, List.cons.injEq, true_and]
    exact ih (fun e2 he2 => h e2 (List.mem_cons_of_mem _ he2))

theorem objFromPairs_aux : ∀ (es acc : List (String × Json)),
    (∀ e ∈ es, ∀ a ∈ acc, strBeq a.1 e.1 = false) →
    distinctKeys (es.map Prod.fst) = true →
    es.foldl (fun a kv => alSet strBeq a kv.1 kv.2) acc = acc ++ es := by
  intro es
  induction es with
  | nil =>
    intro acc _ _
    simp
  | cons kv t ih =>
    intro acc hna hdk
    obtain ⟨k, v⟩ := kv
    rw [List.foldl_cons]
    rw [alSet_append acc k v (fun e he => hna (k, v) (List.mem_cons_self _ _) e he)]
    rw [List.map_cons, distinctKeys] at hdk
    simp only [Bool.and_eq_true, Bool.not_eq_true'] at hdk
    rw [ih (acc ++ [(k, v)]) ?hyp hdk.2]
    · simp
    case hyp =>
      intro e he a ha
      rcases List.mem_append.mp ha with h1 | h1
      · exact hna e (List.mem_cons_of_mem _ he) a h1
      · rw [List.mem_singleton] at h1
        subst h1
        have hmem : e.1 ∈ t.map Prod.fst := List.mem_map_of_mem Prod.fst he
        have hcon := hdk.1
        rw [strBeq]
        simp only [beq_eq_false_iff_ne, ne_eq]
        intro hke
        rw [List.contains_eq_any_beq] at hcon
        have : (t.map Prod.fst).any (fun x => k == x) = false := by
          simpa using hcon
        rw [List.any_eq_false] at this
        exact absurd (by rw [hke]; simp : (k == e.1) = true) (by simpa using this e.1 hmem)

theorem objFromPairs_distinct (es : List (String × Json))
    (h : distinctKeys (es.map Prod.fst) = true) : objFromPairs es = es := by
  rw [objFromPairs]
  rw [objFromPairs_aux es [] (fun e _ a ha => absurd ha (List.not_mem_nil a)) h]
  simp

theorem stringMk_data (s : String) : String.mk s.data = s := by cases s; rfl


theorem parseVal_quote (f : Nat) (r : List Char) :
    parseVal (f+1) (qC :: r) =
      (match parseStrAux (f+1) [] r with
       | some (s, r1) => some (.str s, r1)
       | none => none) := rfl

theorem parseVal_lbrack (f : Nat) (r : List Char) :
    parseVal (f+1) ('[' :: r) =
      (match skipWsL r with
       | d :: r2 =>
         if d = ']' then some (.arr [], r2)
         else
           match parseVal f (skipWsL r) with
           | none => none
           | some (v, r3) =>
             match parseArrTail f r3 with
             | none => none
             | some (vs, r4) => some (.arr (v :: vs), r4)
       | [] => none) := rfl

theorem parseVal_lbrace (f : Nat) (r : List Char) :
    parseVal (f+1) (obC :: r) =
      (match skipWsL r with
       | d :: r2 =>
         if d.toNat = 125 then some (.obj [], r2)
         else
           match parseMembers f (skipWsL r) with
           | none => none
           | some (ms, r3) => some (.obj (objFromPairs ms), r3)
       | [] => none) := rfl

theorem parseArrTail_comma (f : Nat) (X : List Char) :
    parseArrTail (f+1) (',' :: ' ' :: X) =
      (match parseVal f (skipWsL X) with
       | none => none
       | some (v, r2) =>
         match parseArrTail f r2 with
         | none => none
         | some (vs, r3) => some (v :: vs, r3)) := rfl

theorem parseMembers_quote (f : Nat) (X : List Char) :
    parseMembers (f+1) (qC :: X) =
      (match parseStrAux (f+1) [] X with
       | none => none
       | some (k, r1) =>
         match skipWsL r1 with
         | e :: r2 =>
           if e = ':' then
             match parseVal f (skipWsL r2) with
             | none => none
             | some (v, r3) =>
               match skipWsL r3 with
               | f4 :: r4 =>
                 if f4.toNat = 125 then some ([(k, v)], r4)
                 else if f4 = ',' then
                   match parseMembers f (skipWsL r4) with
                   | none => none
                   | some (ms, r5) => some ((k, v) :: ms, r5)
                 else none
               | [] => none
           else none
         | [] => none) := rfl

theorem numSep_arrTail (xs : List Json) (rest : List Char) :
    numSep (dumpsArrTail xs ++ (']' :: rest)) := by
  cases xs with
  | nil => exact ⟨by decide, by decide, by decide, by decide⟩
  | cons y ys => exact ⟨by decide, by decide, by decide, by decide⟩

theorem numSep_objTail (kvs : List (String × Json)) (rest : List Char) :
    numSep (dumpsObjTail kvs ++ (cbC :: rest)) := by
  cases kvs with
  | nil => exact ⟨by decide, by decide, by decide, by decide⟩
  | cons kv t => exact ⟨by decide, by decide, by decide, by decide⟩

theorem skipWsL_entry (kv : String × Json) (Y : List Char) :
    skipWsL (dumpsEntry kv ++ Y) = dumpsEntry kv ++ Y := by
  obtain ⟨k, v⟩ := kv
  rw [show dumpsEntry (k, v) ++ Y =
    qC :: ((escList k.data ++ ([qC, ':', ' '] ++ dumps v)) ++ Y) from rfl]
  rw [skipWsL_cons _ _ (by decide)]

theorem len_dumps_str (s : String) :
    (dumps (Json.str s)).length = (escList s.data).length + 2 := by
  show (qC :: (escList s.data ++ [qC])).length = _
  simp

theorem len_dumps_arr (x : Json) (xs : List Json) :
    (dumps (Json.arr (x :: xs))).length =
      (dumps x).length + (dumpsArrTail xs).length + 2 := by
  show ('[' :: (dumps x ++ (dumpsArrTail xs ++ [']']))).length = _
  simp <;> omega

theorem len_dumpsArrTail (y : Json) (ys : List Json) :
    (dumpsArrTail (y :: ys)).length = (dumps y).length + (dumpsArrTail ys).length + 2 := by
  show (',' :: ' ' :: (dumps y ++ dumpsArrTail ys)).length = _
  simp <;> omega

theorem len_dumpsEntry (k : String) (v : Json) :
    (dumpsEntry (k, v)).length = (escList k.data).length + (dumps v).length + 4 := by
  show (qC :: (escList k.data ++ ([qC, ':', ' '] ++ dumps v))).length = _
  simp <;> omega

theorem len_dumpsObjTail (kv : String × Json) (kvs : List (String × Json)) :
    (dumpsObjTail (kv :: kvs)).length =
      (dumpsEntry kv).length + (dumpsObjTail kvs).length + 2 := by
  show (',' :: ' ' :: (dumpsEntry kv ++ dumpsObjTail kvs)).length = _
  simp <;> omega

theorem len_dumps_obj (kv : String × Json) (kvs : List (String × Json)) :
    (dumps (Json.obj (kv :: kvs))).length =
      (dumpsEntry kv).length + (dumpsObjTail kvs).length + 2 := by
  show (obC :: (dumpsEntry kv ++ (dumpsObjTail kvs ++ [cbC]))).length = _
  simp <;> omega

theorem parseVal_num (fuel : Nat) (c : Char) (r : List Char)
    (h : c = '-' ∨ (48 ≤ c.toNat ∧ c.toNat ≤ 57)) :
    parseVal (fuel+1) (c :: r) = parseNumJ (c :: r) := by
  have hne : c.toNat ≠ 110 ∧ c.toNat ≠ 116 ∧ c.toNat ≠ 102 ∧ c.toNat ≠ 34
      ∧ c.toNat ≠ 91 ∧ c.toNat ≠ 123 := by
    rcases h with h | h
    · subst h; refine ⟨?_, ?_, ?_, ?_, ?_, ?_⟩ <;> decide
    · omega
  rw [parseVal.eq_def]
  split
  · rename_i heq
    exact absurd heq (by omega)
  · rename_i f2 heq
    have hf : f2 = fuel := by omega
    subst hf
    split
    · rename_i heq2
      injection heq2 with h1 _
      exact absurd (congrArg Char.toNat h1) (by simpa using hne.1)
    · rename_i heq2
      injection heq2 with h1 _
      exact absurd (congrArg Char.toNat h1) (by simpa using hne.2.1)
    · rename_i heq2
      injection heq2 with h1 _
      exact absurd (congrArg Char.toNat h1) (by simpa using hne.2.2.1)
    · rename_i c2 r2 heq2
      injection heq2 with h1 h2
      subst h1
      subst h2
      rw [if_neg (by simpa using hne.2.2.2.1)]
      rw [if_neg (by intro hc; exact hne.2.2.2.2.1 (by rw [hc]; rfl))]
      rw [if_neg (by simpa using hne.2.2.2.2.2)]
      rw [if_pos ?later]
      case later =>
        rcases h with h | h
        · subst h; simp
        · simp only [isDigitC, Bool.or_eq_true, Bool.and_eq_true, decide_eq_true_eq]
          right
          omega
    · rename_i heq2
      exact absurd heq2 (by simp)

theorem parseRound : ∀ fuel : Nat,
    (∀ (j : Json) (rest : List Char), noDupKeys j = true → numSep rest →
      (dumps j).length + rest.length < fuel →
      parseVal fuel (dumps j ++ rest) = some (j, rest))
    ∧ (∀ (xs : List Json) (rest : List Char), noDupKeysArr xs = true →
      (dumpsArrTail xs).length + rest.length + 1 < fuel →
      parseArrTail fuel (dumpsArrTail xs ++ (']' :: rest)) = some (xs, rest))
    ∧ (∀ (k : String) (v : Json) (kvs : List (String × Json)) (rest : List Char),
      noDupKeys v = true → noDupKeysObj kvs = true →
      (dumpsEntry (k, v)).length + (dumpsObjTail kvs).length + rest.length + 1 < fuel →
      parseMembers fuel (dumpsEntry (k, v) ++ (dumpsObjTail kvs ++ (cbC :: rest))) =
        some ((k, v) :: kvs, rest)) := by
  intro fuel
  induction fuel using Nat.strong_induction_on with
  | _ fuel ih =>
    cases fuel with
    | zero =>
      refine ⟨?_, ?_, ?_⟩
      · intro j rest _ _ h; omega
      · intro xs rest _ h; omega
      · intro k v kvs rest _ _ h; omega
    | succ f =>
      obtain ⟨ihv, iha, ihm⟩ := ih f (Nat.lt_succ_self f)
      refine ⟨?_, ?_, ?_⟩
      · intro j rest hnd hsep hlen
        cases j with
        | null => rfl
        | bool b => cases b <;> rfl
        | int n =>
          show parseVal (f+1) (intChars n ++ rest) = _
          by_cases hneg : n < 0
          · have hic : intChars n = '-' :: natDigs n.natAbs := by rw [intChars, if_pos hneg]
            rw [hic, List.cons_append]
            rw [parseVal_num f _ _ (Or.inl rfl)]
            rw [← List.cons_append, ← hic]
            exact parseNumJ_int n rest hsep
          · have hic : intChars n = natDigs n.natAbs := by rw [intChars, if_neg hneg]
            obtain ⟨d, ds, hd⟩ := natDigs_cons n.natAbs
            have hdd := natDigs_digits n.natAbs d (hd ▸ List.mem_cons_self d ds)
            rw [hic, hd, List.cons_append]
            rw [parseVal_num f _ _ (Or.inr hdd)]
            rw [← List.cons_append, ← hd, ← hic]
            exact parseNumJ_int n rest hsep
        | str s =>
          have hL := len_dumps_str s
          show parseVal (f+1) ((qC :: (escList s.data ++ [qC])) ++ rest) = _
          rw [List.cons_append, parseVal_quote]
          rw [List.append_assoc]
          rw [show ([qC] ++ rest : List Char) = qC :: rest from rfl]
          rw [parseStrAux_esc s.data (f+1) [] rest (by omega)]
          simp only [List.reverse_nil, List.nil_append]
        | arr xs =>
          cases xs with
          | nil => rfl
          | cons x xs2 =>
            have hnd2 : noDupKeys x = true ∧ noDupKeysArr xs2 = true := by
              have : noDupKeysArr (x :: xs2) = true := hnd
              rw [noDupKeysArr, Bool.and_eq_true] at this
              exact this
            have hL := len_dumps_arr x xs2
            have hLx := dumps_len_pos x
            have hD : dumps (Json.arr (x :: xs2)) ++ rest =
                '[' :: (dumps x ++ (dumpsArrTail xs2 ++ (']' :: rest))) := by
              show ('[' :: (dumps x ++ (dumpsArrTail xs2 ++ [']']))) ++ rest = _
              simp [List.append_assoc]
            rw [hD, parseVal_lbrack]
            rw [skipWsL_dumps x (dumpsArrTail xs2 ++ (']' :: rest))]
            obtain ⟨c0, cs0, hdx, hnws, hnrb⟩ := dumps_head x
            have ihx := ihv x (dumpsArrTail xs2 ++ (']' :: rest)) hnd2.1
              (numSep_arrTail xs2 rest)
              (by
                have h1 : (dumpsArrTail xs2 ++ (']' :: rest)).length =
                    (dumpsArrTail xs2).length + (rest.length + 1) := by simp
                omega)
            rw [hdx, List.cons_append]
            rw [hdx, List.cons_append] at ihx
            simp only []
            rw [if_neg hnrb]
            rw [ihx]
            simp only []
            rw [iha xs2 rest hnd2.2 (by omega)]
        | obj es =>
          cases es with
          | nil => rfl
          | cons kv kvs =>
            obtain ⟨k, v⟩ := kv
            have hnd2 : distinctKeys (((k, v) :: kvs).map Prod.fst) = true
                ∧ noDupKeys v = true ∧ noDupKeysObj kvs = true := by
              have h0 : (distinctKeys (((k, v) :: kvs).map Prod.fst)
                  && noDupKeysObj ((k, v) :: kvs)) = true := hnd
              rw [Bool.and_eq_true] at h0
              have h1 : (noDupKeys v && noDupKeysObj kvs) = true := h0.2
              rw [Bool.and_eq_true] at h1
              exact ⟨h0.1, h1.1, h1.2⟩
            have hL := len_dumps_obj (k, v) kvs
            have hD : dumps (Json.obj ((k, v) :: kvs)) ++ rest =
                obC :: (dumpsEntry (k, v) ++ (dumpsObjTail kvs ++ (cbC :: rest))) := by
              show (obC :: (dumpsEntry (k, v) ++ (dumpsObjTail kvs ++ [cbC]))) ++ rest = _
              simp [List.append_assoc]
            rw [hD, parseVal_lbrace]
            rw [skipWsL_entry (k, v) (dumpsObjTail kvs ++ (cbC :: rest))]
            rw [show dumpsEntry (k, v) ++ (dumpsObjTail kvs ++ (cbC :: rest)) =
                qC :: (escList k.data ++ ([qC, ':', ' '] ++ dumps v)
                  ++ (dumpsObjTail kvs ++ (cbC :: rest))) from by
              show (qC :: (escList k.data ++ ([qC, ':', ' '] ++ dumps v))) ++ _ = _
              simp [List.append_assoc]]
            simp only []
            rw [if_neg (by decide)]
            rw [show qC :: (escList k.data ++ ([qC, ':', ' '] ++ dumps v)
                  ++ (dumpsObjTail kvs ++ (cbC :: rest))) =
                dumpsEntry (k, v) ++ (dumpsObjTail kvs ++ (cbC :: rest)) from by
              show _ = (qC :: (escList k.data ++ ([qC, ':', ' '] ++ dumps v))) ++ _
              simp [List.append_assoc]]
            rw [ihm k v kvs rest hnd2.2.1 hnd2.2.2 (by omega)]
            simp only []
            rw [objFromPairs_distinct _ hnd2.1]
      · intro xs rest hnd hlen
        cases xs with
        | nil => rfl
        | cons y ys =>
          have hnd2 : noDupKeys y = true ∧ noDupKeysArr ys = true := by
            have h0 : (noDupKeys y && noDupKeysArr ys) = true := hnd
            rw [Bool.and_eq_true] at h0
            exact h0
          have hL := len_dumpsArrTail y ys
          have hLy := dumps_len_pos y
          rw [show dumpsArrTail (y :: ys) ++ (']' :: rest) =
              ',' :: (' ' :: (dumps y ++ (dumpsArrTail ys ++ (']' :: rest)))) from by
            show (',' :: ' ' :: (dumps y ++ dumpsArrTail ys)) ++ _ = _
            simp [List.append_assoc]]
          rw [parseArrTail_comma]
          rw [skipWsL_dumps y (dumpsArrTail ys ++ (']' :: rest))]
          rw [ihv y (dumpsArrTail ys ++ (']' :: rest)) hnd2.1 (numSep_arrTail ys rest)
            (by
              have h1 : (dumpsArrTail ys ++ (']' :: rest)).length =
                  (dumpsArrTail ys).length + (rest.length + 1) := by simp
              omega)]
          simp only []
          rw [iha ys rest hnd2.2 (by omega)]
      · intro k v kvs rest hv hkvs hlen
        have hLE := len_dumpsEntry k v
        have hLv := dumps_len_pos v
        rw [show dumpsEntry (k, v) ++ (dumpsObjTail kvs ++ (cbC :: rest)) =
            qC :: (escList k.data ++ (qC :: (':' :: (' ' ::
              (dumps v ++ (dumpsObjTail kvs ++ (cbC :: rest))))))) from by
          show (qC :: (escList k.data ++ ([qC, ':', ' '] ++ dumps v))) ++ _ = _
          simp [List.append_assoc]]
        rw [parseMembers_quote]
        rw [parseStrAux_esc k.data (f+1) [] _ (by omega)]
        simp only [List.reverse_nil, List.nil_append]
        rw [stringMk_data]
        rw [skipWsL_cons _ _ (by decide)]
        simp only []
        rw [if_pos trivial]
        rw [skipWsL_sp, skipWsL_dumps v (dumpsObjTail kvs ++ (cbC :: rest))]
        rw [ihv v (dumpsObjTail kvs ++ (cbC :: rest)) hv (numSep_objTail kvs rest)
          (by
            have h1 : (dumpsObjTail kvs ++ (cbC :: rest)).length =
                (dumpsObjTail kvs).length + (rest.length + 1) := by simp
            omega)]
        simp only []
        cases kvs with
        | nil =>
          show (match skipWsL (cbC :: rest) with
                | f4 :: r4 =>
                  if f4.toNat = 125 then some ([(k, v)], r4)
                  else if f4 = ',' then
                    match parseMembers f (skipWsL r4) with
                    | none => none
                    | some (ms, r5) => some ((k, v) :: ms, r5)
                  else none
                | [] => none) = some ([(k, v)], rest)
          rw [skipWsL_cons _ _ (by decide)]
          simp only []
          rw [if_pos (by decide)]
        | cons kv2 kvs2 =>
          obtain ⟨k2, v2⟩ := kv2
          have hkvs2 : noDupKeys v2 = true ∧ noDupKeysObj kvs2 = true := by
            have h0 : (noDupKeys v2 && noDupKeysObj kvs2) = true := hkvs
            rw [Bool.and_eq_true] at h0
            exact h0
          have hLT := len_dumpsObjTail (k2, v2) kvs2
          rw [show dumpsObjTail ((k2, v2) :: kvs2) ++ (cbC :: rest) =
              ',' :: (' ' :: (dumpsEntry (k2, v2) ++ (dumpsObjTail kvs2 ++ (cbC :: rest))))
              from by
            show (',' :: ' ' :: (dumpsEntry (k2, v2) ++ dumpsObjTail kvs2)) ++ _ = _
            simp [List.append_assoc]]
          rw [skipWsL_cons _ _ (by decide)]
          simp only []
          rw [if_neg (by decide), if_pos trivial]
          rw [skipWsL_sp, skipWsL_entry (k2, v2) (dumpsObjTail kvs2 ++ (cbC :: rest))]
          rw [ihm k2 v2 kvs2 rest hkvs2.1 hkvs2.2 (by omega)]


theorem pyLoadsChars_dumps (m : Json) (h : noDupKeys m = true) :
    pyLoadsChars (dumps m) = some m := by
  rw [pyLoadsChars]
  have hws : skipWsL (dumps m) = dumps m := by
    have h2 := skipWsL_dumps m []
    simpa using h2
  rw [hws]
  have h3 := (parseRound ((dumps m).length + 1)).1 m [] h trivial (by simp)
  rw [List.append_nil] at h3
  rw [h3]
  rfl

theorem hexDigitChar_ascii (d : Nat) (h : d < 16) : (hexDigitChar d).toNat < 128 := by
  rw [hexDigitChar]
  by_cases h10 : d < 10
  · rw [if_pos h10, charToNat_ofNat _ (Or.inl (by omega))]
    omega
  · rw [if_neg h10, charToNat_ofNat _ (Or.inl (by omega))]
    omega

theorem uEsc_ascii (n : Nat) : ∀ e ∈ uEsc n, e.toNat < 128 := by
  intro e he
  rw [uEsc] at he
  rw [List.mem_cons] at he
  rcases he with he | he
  · subst he; decide
  rw [List.mem_cons] at he
  rcases he with he | he
  · subst he; decide
  rw [List.mem_cons] at he
  rcases he with he | he
  · subst he; exact hexDigitChar_ascii _ (by omega)
  rw [List.mem_cons] at he
  rcases he with he | he
  · subst he; exact hexDigitChar_ascii _ (by omega)
  rw [List.mem_cons] at he
  rcases he with he | he
  · subst he; exact hexDigitChar_ascii _ (by omega)
  rw [List.mem_singleton] at he
  subst he
  exact hexDigitChar_ascii _ (by omega)

theorem mem_pair_lt128 (a b : Char) (ha : a.toNat < 128) (hb : b.toNat < 128) :
    ∀ x ∈ [a, b], x.toNat < 128 := by
  intro x hx
  rcases List.mem_cons.mp hx with h | h
  · subst h; exact ha
  · rw [List.mem_singleton] at h; subst h; exact hb

theorem escChar_ascii (c : Char) : ∀ e ∈ escChar c, e.toNat < 128 := by
  intro e he
  rw [escChar] at he
  by_cases h34 : c.toNat = 34
  · rw [if_pos h34] at he
    exact mem_pair_lt128 _ _ (by decide) (by decide) e he
  rw [if_neg h34] at he
  by_cases h92 : c.toNat = 92
  · rw [if_pos h92] at he
    exact mem_pair_lt128 _ _ (by decide) (by decide) e he
  rw [if_neg h92] at he
  by_cases h8 : c.toNat = 8
  · rw [if_pos h8] at he
    exact mem_pair_lt128 _ _ (by decide) (by decide) e he
  rw [if_neg h8] at he
  by_cases h9 : c.toNat = 9
  · rw [if_pos h9] at he
    exact mem_pair_lt128 _ _ (by decide) (by decide) e he
  rw [if_neg h9] at he
  by_cases h10 : c.toNat = 10
  · rw [if_pos h10] at he
    exact mem_pair_lt128 _ _ (by decide) (by decide) e he
  rw [if_neg h10] at he
  by_cases h12 : c.toNat = 12
  · rw [if_pos h12] at he
    exact mem_pair_lt128 _ _ (by decide) (by decide) e he
  rw [if_neg h12] at he
  by_cases h13 : c.toNat = 13
  · rw [if_pos h13] at he
    exact mem_pair_lt128 _ _ (by decide) (by decide) e he
  rw [if_neg h13] at he
  by_cases hlt32 : c.toNat < 32
  · rw [if_pos hlt32] at he
    exact uEsc_ascii _ e he
  rw [if_neg hlt32] at he
  by_cases hlt127 : c.toNat < 127
  · rw [if_pos hlt127] at he
    rw [List.mem_singleton] at he
    subst he
    omega
  rw [if_neg hlt127] at he
  by_cases hlt65536 : c.toNat < 65536
  · rw [if_pos hlt65536] at he
    exact uEsc_ascii _ e he
  rw [if_neg hlt65536] at he
  rcases List.mem_append.mp he with he2 | he2
  · exact uEsc_ascii _ e he2
  · exact uEsc_ascii _ e he2

theorem escList_ascii : ∀ cs : List Char, ∀ e ∈ escList cs, e.toNat < 128 := by
  intro cs
  induction cs with
  | nil => intro e he; rw [escList] at he; exact absurd he (List.not_mem_nil e)
  | cons c t ih =>
    intro e he
    rw [escList] at he
    rcases List.mem_append.mp he with h2 | h2
    · exact escChar_ascii c e h2
    · exact ih e h2


theorem intChars_ascii (n : Int) : ∀ e ∈ intChars n, e.toNat < 128 := by
  intro e he
  rw [intChars] at he
  by_cases hneg : n < 0
  · rw [if_pos hneg] at he
    rcases List.mem_cons.mp he with h | h
    · subst h; decide
    · have := natDigs_digits n.natAbs e h
      omega
  · rw [if_neg hneg] at he
    have := natDigs_digits n.natAbs e he
    omega

mutual

theorem dumps_ascii : ∀ j : Json, ∀ e ∈ dumps j, e.toNat < 128
  | .null => by intro e he; fin_cases he <;> decide
  | .bool b => by cases b <;> (intro e he; fin_cases he <;> decide)
  | .int n => intChars_ascii n
  | .str s => by
      intro e he
      rcases List.mem_cons.mp he with h | h
      · subst h; decide
      rcases List.mem_append.mp h with h2 | h2
      · exact escList_ascii s.data e h2
      · rw [List.mem_singleton] at h2; subst h2; decide
  | .arr [] => by intro e he; fin_cases he <;> decide
  | .arr (x :: xs) => by
      intro e he
      rcases List.mem_cons.mp he with h | h
      · subst h; decide
      rcases List.mem_append.mp h with h2 | h2
      · exact dumps_ascii x e h2
      rcases List.mem_append.mp h2 with h3 | h3
      · exact dumpsArrTail_ascii xs e h3
      · rw [List.mem_singleton] at h3; subst h3; decide
  | .obj [] => by intro e he; fin_cases he <;> decide
  | .obj (kv :: kvs) => by
      intro e he
      rcases List.mem_cons.mp he with h | h
      · subst h; decide
      rcases List.mem_append.mp h with h2 | h2
      · exact dumpsEntry_ascii kv e h2
      rcases List.mem_append.mp h2 with h3 | h3
      · exact dumpsObjTail_ascii kvs e h3
      · rw [List.mem_singleton] at h3; subst h3; decide

theorem dumpsArrTail_ascii : ∀ xs : List Json, ∀ e ∈ dumpsArrTail xs, e.toNat < 128
  | [] => by intro e he; exact absurd he (List.not_mem_nil e)
  | x :: xs => by
      intro e he
      rcases List.mem_cons.mp he with h | h
      · subst h; decide
      rcases List.mem_cons.mp h with h2 | h2
      · subst h2; decide
      rcases List.mem_append.mp h2 with h3 | h3
      · exact dumps_ascii x e h3
      · exact dumpsArrTail_ascii xs e h3

theorem dumpsEntry_ascii : ∀ kv : String × Json, ∀ e ∈ dumpsEntry kv, e.toNat < 128
  | (k, v) => by
      intro e he
      rcases List.mem_cons.mp he with h | h
      · subst h; decide
      rcases List.mem_append.mp h with h2 | h2
      · exact escList_ascii k.data e h2
      rcases List.mem_append.mp h2 with h3 | h3
      · fin_cases h3 <;> decide
      · exact dumps_ascii v e h3

theorem dumpsObjTail_ascii : ∀ kvs : List (String × Json), ∀ e ∈ dumpsObjTail kvs, e.toNat < 128
  | [] => by intro e he; exact absurd he (List.not_mem_nil e)
  | kv :: kvs => by
      intro e he
      rcases List.mem_cons.mp he with h | h
      · subst h; decide
      rcases List.mem_cons.mp h with h2 | h2
      · subst h2; decide
      rcases List.mem_append.mp h2 with h3 | h3
      · exact dumpsEntry_ascii kv e h3
      · exact dumpsObjTail_ascii kvs e h3

end

theorem utf8Decode_ascii : ∀ (cs : List Char) (fuel : Nat), cs.length < fuel →
    (∀ c ∈ cs, c.toNat < 128) →
    utf8Decode fuel (cs.map Char.toNat) = some cs := by
  intro cs
  induction cs with
  | nil =>
    intro fuel hf _
    cases fuel with
    | zero => omega
    | succ f => rfl
  | cons c t ih =>
    intro fuel hf h
    cases fuel with
    | zero => omega
    | succ f =>
      rw [List.map_cons]
      show (if c.toNat < 128 then
          (utf8Decode f (t.map Char.toNat)).map (fun cs => Char.ofNat c.toNat :: cs)
        else if 194 ≤ c.toNat && c.toNat ≤ 223 then _ else _) = _
      rw [if_pos (by simpa using h c (List.mem_cons_self c t))]
      rw [ih f (by simp at hf; omega) (fun x hx => h x (List.mem_cons_of_mem c hx))]
      show some (Char.ofNat c.toNat :: t) = some (c :: t)
      rw [Char.ofNat_toNat]

theorem readuntil4_clean : ∀ (pre rest : List Nat), (∀ b ∈ pre, b ≠ 13) →
    readuntil4 (pre ++ (13 :: 10 :: 13 :: 10 :: rest)) =
      some (pre ++ [13, 10, 13, 10], rest) := by
  intro pre
  induction pre with
  | nil => intro rest _; rfl
  | cons b pre2 ih =>
    intro rest hpre
    have hb : b ≠ 13 := hpre b (List.mem_cons_self _ _)
    rw [List.cons_append]
    rw [readuntil4.eq_def]
    split
    · rename_i r heq
      injection heq with h1 _
      exact absurd h1 hb
    · rename_i b2 r2 heq
      injection heq with h1 h2
      subst h1
      subst h2
      rw [ih rest (fun x hx => hpre x (List.mem_cons_of_mem b hx))]
      rfl
    · rename_i heq
      exact absurd heq (by simp)

theorem splitCRLF_clean : ∀ (pre : List Nat), (∀ b ∈ pre, b ≠ 13) →
    splitCRLF (pre ++ [13, 10, 13, 10]) = [pre, [], []] := by
  intro pre
  induction pre with
  | nil => intro _; rfl
  | cons b pre2 ih =>
    intro hpre
    have hb : b ≠ 13 := hpre b (List.mem_cons_self _ _)
    rw [List.cons_append]
    rw [splitCRLF.eq_def]
    split
    · rename_i heq
      exact absurd heq (by simp)
    · rename_i r heq
      injection heq with h1 _
      exact absurd h1 hb
    · rename_i b2 r2 heq
      injection heq with h1 h2
      subst h1
      subst h2
      rw [ih (fun x hx => hpre x (List.mem_cons_of_mem b hx))]

theorem splitByteOnce_none : ∀ (sep : Nat) (l : List Nat), (∀ b ∈ l, b ≠ sep) →
    splitByteOnce sep l = none := by
  intro sep l
  induction l with
  | nil => intro _; rfl
  | cons b t ih =>
    intro h
    rw [splitByteOnce]
    rw [if_neg (h b (List.mem_cons_self _ _))]
    rw [ih (fun x hx => h x (List.mem_cons_of_mem b hx))]

theorem dropWhile_digits (p : Nat → Bool) (l : List Nat)
    (h : ∀ b ∈ l, p b = false) : l.dropWhile p = l := by
  cases l with
  | nil => rfl
  | cons b t =>
    rw [List.dropWhile_cons]
    rw [h b (List.mem_cons_self _ _)]
    simp

theorem isStripWs_digit (b : Nat) (h : 48 ≤ b ∧ b ≤ 57) : isStripWs b = false := by
  rw [isStripWs]
  simp only [Bool.or_eq_false_iff, decide_eq_false_iff_not]
  omega

theorem stripBytes_spdigs (n : Nat) :
    stripBytes (32 :: (natDigs n).map Char.toNat) = (natDigs n).map Char.toNat := by
  rw [stripBytes]
  have hdig : ∀ b ∈ (natDigs n).map Char.toNat, isStripWs b = false := by
    intro b hb
    rw [List.mem_map] at hb
    obtain ⟨c, hc, hbc⟩ := hb
    subst hbc
    exact isStripWs_digit _ (natDigs_digits n c hc)
  rw [List.dropWhile_cons]
  rw [show isStripWs 32 = true from rfl]
  simp only [if_true]
  rw [dropWhile_digits _ _ hdig]
  rw [dropWhile_digits _ _ (fun b hb => hdig b (List.mem_reverse.mp hb))]
  rw [List.reverse_reverse]

theorem natFromDigits_cons (b : Nat) (bs : List Nat) :
    natFromDigits (b :: bs) =
      (if (b :: bs).all (fun x => 48 ≤ x && x ≤ 57) then
        some ((b :: bs).foldl (fun a x => a * 10 + (x - 48)) 0) else none) := rfl

theorem natFromDigits_natDigs (n : Nat) :
    natFromDigits ((natDigs n).map Char.toNat) = some n := by
  obtain ⟨d, ds, hd⟩ : ∃ d ds, natDigs n = d :: ds := by
    cases hx : natDigs n with
    | nil => exact absurd hx (natDigs_ne_nil n)
    | cons d ds => exact ⟨d, ds, rfl⟩
  rw [hd, List.map_cons, natFromDigits_cons]
  rw [if_pos ?dig]
  case dig =>
    rw [← List.map_cons, ← hd]
    rw [List.all_eq_true]
    intro b hb
    rw [List.mem_map] at hb
    obtain ⟨c, hc, hbc⟩ := hb
    subst hbc
    obtain ⟨h1, h2⟩ := natDigs_digits n c hc
    simp only [Bool.and_eq_true, decide_eq_true_eq]
    omega
  rw [← List.map_cons, ← hd]
  rw [List.foldl_map]
  rw [natDigs_val n 0]
  simp

theorem pyIntBytes_spdigs (n : Nat) :
    pyIntBytes (32 :: (natDigs n).map Char.toNat) = some (n : Int) := by
  rw [pyIntBytes.eq_def]
  rw [stripBytes_spdigs]
  obtain ⟨d, ds, hd⟩ : ∃ d ds, natDigs n = d :: ds := by
    cases hx : natDigs n with
    | nil => exact absurd hx (natDigs_ne_nil n)
    | cons d ds => exact ⟨d, ds, rfl⟩
  obtain ⟨h1, h2⟩ := natDigs_digits n d (hd ▸ List.mem_cons_self d ds)
  rw [hd]
  simp only [List.map_cons]
  split
  · rename_i ds2 heq
    injection heq with hh _
    omega
  · rename_i ds2 heq
    injection heq with hh _
    omega
  · rename_i ds2 hne1 hne2
    rw [← List.map_cons, ← hd, natFromDigits_natDigs]
    rfl

theorem scanHeaders_cl (n : Nat) (len : Int) :
    scanHeaders [asciiBytes "Content-Length: " ++ (natDigs n).map Char.toNat] len =
      some (n : Int) := by
  have hsplit1 : splitByteOnce 58 (asciiBytes "Content-Length: "
      ++ (natDigs n).map Char.toNat) =
      some (asciiBytes "Content-Length", 32 :: (natDigs n).map Char.toNat) := rfl
  have hsplit2 : splitByteOnce 58 (32 :: (natDigs n).map Char.toNat) = none := by
    apply splitByteOnce_none
    intro b hb
    rcases List.mem_cons.mp hb with h | h
    · omega
    · rw [List.mem_map] at h
      obtain ⟨c, hc, hbc⟩ := h
      subst hbc
      have := natDigs_digits n c hc
      omega
  rw [scanHeaders, splitColon2, hsplit1]
  simp only []
  rw [hsplit2]
  simp only []
  rw [if_pos (by decide)]
  rw [pyIntBytes_spdigs]
  rfl

theorem pre13 (n : Nat) :
    ∀ b ∈ asciiBytes "Content-Length: " ++ (natDigs n).map Char.toNat, b ≠ 13 := by
  intro b hb
  rcases List.mem_append.mp hb with h | h
  · have hdec : ∀ x ∈ asciiBytes "Content-Length: ", x ≠ 13 := by decide
    exact hdec b h
  · rw [List.mem_map] at h
    obtain ⟨c, hc, hbc⟩ := h
    subst hbc
    have := natDigs_digits n c hc
    omega

theorem dropLast_three {α : Type} (a b c : α) :
    ([a, b, c] : List α).dropLast.dropLast = [a] := rfl

/-- C8: encoding any representable message with `construct_message` and
decoding the produced bytes with `read_message` yields the message back. -/
theorem C8_roundtrip (m : Json) (h : noDupKeys m = true) :
    read_message (construct_message m) = .msg m := by
  have hCM : construct_message m =
      (asciiBytes "Content-Length: "
        ++ (natDigs ((dumps m).map Char.toNat).length).map Char.toNat)
      ++ (13 :: 10 :: 13 :: 10 :: (dumps m).map Char.toNat) := by
    rw [construct_message]
    simp [List.append_assoc]
  rw [hCM, read_message]
  rw [readuntil4_clean _ _ (pre13 _)]
  simp only []
  rw [splitCRLF_clean _ (pre13 _)]
  rw [dropLast_three]
  rw [scanHeaders_cl]
  simp only []
  have hlp : 1 ≤ ((dumps m).map Char.toNat).length := by
    have := dumps_len_pos m
    simp only [List.length_map]
    omega
  rw [if_pos (by exact_mod_cast hlp)]
  rw [if_neg (by simp)]
  rw [pyLoadsBytes]
  simp only [Int.toNat_natCast]
  rw [List.take_length]
  rw [utf8Decode_ascii (dumps m) _ (by simp) (dumps_ascii m)]
  simp only []
  rw [pyLoadsChars_dumps m h]

/-- Closed witness for `C8_roundtrip` on a concrete initialize-style
response. -/
theorem C8_roundtrip_witness :
    noDupKeys cxMsg = true
      ∧ read_message (construct_message cxMsg) = .msg cxMsg :=
  ⟨rfl, C8_roundtrip cxMsg rfl⟩

end LspProxy
